import Mathlib

/-!
# Continuous-batching scheduler and sequence-diff update

A shallow embedding of `Scheduler` (`src/cpp/src/scheduler.hpp`) and of the
pipeline loop of `ContinuousBatchingImpl`
(`src/cpp/src/continuous_batching_impl.cpp`), with the properties proved
about them.

Conventions.
* `size_t` values are natural numbers; every subtraction, addition and
  multiplication the source performs on data values is written with
  `size_sub`, `size_add`, `size_mul`, which wrap modulo `2^64`.  Loop
  indices and counters that are bounded by the size of a container are
  plain naturals.
* A failed `OPENVINO_ASSERT`, an integer division by zero, an index
  outside a vector and an exhausted loop budget are the four values of
  `Error`; every embedded function returns `Except Error _`.
* `SequenceGroup`, `Sequence` and `BlockManager` are declared in headers
  that are not among the sources.  The scheduler reaches them only through
  their methods, which are taken as parameters (`SequenceGroupOps`,
  `BlockManagerOps`).
-/

namespace OvGenai

/-! ## Machine arithmetic and errors -/

/-- Number of values of a `size_t`. -/
def SIZE_MOD : Nat := 2 ^ 64

/-- Value of `std::numeric_limits<size_t>::max()`. -/
def SIZE_MAX : Nat := 2 ^ 64 - 1

/-- Wrapping `size_t` addition. -/
def size_add (a b : Nat) : Nat := (a + b) % 2 ^ 64

/-- Wrapping `size_t` subtraction. -/
def size_sub (a b : Nat) : Nat := (a % 2 ^ 64 + 2 ^ 64 - b % 2 ^ 64) % 2 ^ 64

/-- Wrapping `size_t` multiplication. -/
def size_mul (a b : Nat) : Nat := (a * b) % 2 ^ 64

/-- Ways in which an embedded function can fail to return. -/
inductive Error where
  | assertion_failed
  | division_by_zero
  | out_of_range
  | out_of_fuel
  deriving DecidableEq, Repr

/-- Division of two `size_t` values; a zero divisor does not return. -/
def size_div (a b : Nat) : Except Error Nat :=
  if b = 0 then .error .division_by_zero else .ok (a / b)

/-! ## Sequences and the sequence-diff update -/

/-- Modelled from the spec: the `Sequence` class of `sequence_group.hpp`
(§3: `grouped_id`, `generated_ids`, `generated_log_probs`).  Log
probabilities are C++ floats that the code below only stores and copies;
they are carried as rationals, `0.f` being `0`. -/
structure Sequence where
  grouped_id : Nat
  generated_ids : List Int
  generated_log_probs : List Rat
  deriving DecidableEq, Repr

/-- Modelled from the spec: `Sequence::remove_last_tokens` pops that many
tokens (and their log-probs) from the end of the sequence. -/
def Sequence.remove_last_tokens (s : Sequence) (count : Nat) : Sequence :=
  { s with
    generated_ids := s.generated_ids.take (s.generated_ids.length - count)
    generated_log_probs :=
      s.generated_log_probs.take (s.generated_log_probs.length - count) }

/-- Modelled from the spec: `Sequence::append_token` pushes one token and
its log-prob. -/
def Sequence.append_token (s : Sequence) (token : Int) (log_prob : Rat) : Sequence :=
  { s with
    generated_ids := s.generated_ids ++ [token]
    generated_log_probs := s.generated_log_probs ++ [log_prob] }

/-- Modelled from the spec: the part of `SequenceGroup` (§3) that
`update_generated_sequence` reads and writes. -/
structure SequenceGroup where
  request_id : Nat
  prompt_len : Nat
  sequences : List Sequence
  num_processed_tokens : Nat
  is_paused : Bool
  deriving DecidableEq, Repr

/-- Modelled from the spec: `SequenceGroup::pause_generation`. -/
def SequenceGroup.pause_generation (g : SequenceGroup) (status : Bool) : SequenceGroup :=
  { g with is_paused := status }

/-- Modelled from the spec: `SequenceGroup::update_processed_tokens_num`
(§4.6: "reset `num_processed_tokens` to `prompt_len`"). -/
def SequenceGroup.update_processed_tokens_num (g : SequenceGroup) (n : Nat) : SequenceGroup :=
  { g with num_processed_tokens := n }

/-- Modelled from the spec: `SequenceGroup::add_sequence`. -/
def SequenceGroup.add_sequence (g : SequenceGroup) (s : Sequence) : SequenceGroup :=
  { g with sequences := g.sequences ++ [s] }

/-- The `GeneratedSequence` argument of `update_generated_sequence`. -/
structure GeneratedSequence where
  request_id : Nat
  sequence_id : Nat
  token_ids : List Int
  log_probs : List Rat
  deriving DecidableEq, Repr

/-- The `UpdateSeqResult` returned by `update_generated_sequence`. -/
structure UpdateSeqResult where
  inserted_tokens_cnt : Nat
  removed_tokens_cnt : Nat
  deriving DecidableEq, Repr

/-- The loop `while (token_idx-- > 0) { if (present_ids[token_idx] ==
candidate_ids[token_idx]) break; }` of `update_generated_sequence`
(lines 438-442), started at `token_idx`; the result is the value of
`token_idx` after the loop.  The post-decrement of `0` wraps. -/
def scan_token_idx (present_ids candidate_ids : List Int) : Nat → Nat
  | 0 => SIZE_MAX
  | k + 1 =>
    if present_ids.getD k 0 = candidate_ids.getD k 0 then k
    else scan_token_idx present_ids candidate_ids k

/-- The loop `for (size_t i = start_id; i < stop_id; ++i)
sequence->append_token(...)` of lines 468-470, with `n` iterations left. -/
def insert_new_tokens (candidate_ids : List Int) (candidate_log_probs : List Rat) :
    Nat → Nat → Sequence → Sequence
  | 0, _, s => s
  | n + 1, i, s =>
    insert_new_tokens candidate_ids candidate_log_probs n (i + 1)
      (s.append_token (candidate_ids.getD i 0)
        (if i < candidate_log_probs.length then candidate_log_probs.getD i 0 else 0))

/-- What the body of `if (candidate_sequence.sequence_id ==
sequence->get_grouped_id())` leaves behind (lines 430-471). -/
structure SeqUpdate where
  sequence : Sequence
  to_insert_tokens : Nat
  to_remove_tokens : Nat
  is_empty_generated_tokens : Bool
  deriving DecidableEq, Repr

/-- Lines 435-460 of `update_generated_sequence` ("remove extra tokens from
sequence"): the sequence after the removal, `to_remove_tokens` and
`is_empty_generated_tokens`. -/
def remove_extra_tokens (sequence : Sequence) (candidate_ids : List Int) :
    Except Error (Sequence × Nat × Bool) :=
  let present_ids := sequence.generated_ids
  let token_idx := min present_ids.length candidate_ids.length
  if token_idx ≠ 0 then
    let token_idx := scan_token_idx present_ids candidate_ids token_idx
    let to_remove_tokens := size_sub present_ids.length (size_add token_idx 1)
    if to_remove_tokens > 0 then
      let gen_ids_before := sequence.generated_ids
      let sequence := sequence.remove_last_tokens to_remove_tokens
      let present_ids := sequence.generated_ids
      let gen_len_before := gen_ids_before.length
      let gen_len_after := present_ids.length
      if gen_len_after < gen_len_before then
        .ok (sequence, to_remove_tokens, gen_len_after == 0)
      else .error .assertion_failed
    else .ok (sequence, to_remove_tokens, false)
  else .ok (sequence, 0, false)

/-- Lines 462-471 of `update_generated_sequence` ("insert new tokens to
sequence"): the sequence after the insertion and `to_insert_tokens`.
`present_ids` is the copy of the generated ids taken after the removal. -/
def insert_candidate_tokens (sequence : Sequence) (cand : GeneratedSequence) :
    Except Error (Sequence × Nat) :=
  let present_ids := sequence.generated_ids
  let candidate_ids := cand.token_ids
  if candidate_ids.length ≥ present_ids.length then
    let start_id := min present_ids.length candidate_ids.length
    let stop_id := max present_ids.length candidate_ids.length
    let to_insert_tokens := stop_id - start_id
    .ok (insert_new_tokens candidate_ids cand.log_probs to_insert_tokens start_id sequence,
          to_insert_tokens)
  else .error .assertion_failed

/-- Lines 431-471 of `update_generated_sequence`: the update of the
sequence whose grouped id matched. -/
def update_matching_sequence (sequence : Sequence) (cand : GeneratedSequence) :
    Except Error SeqUpdate :=
  match remove_extra_tokens sequence cand.token_ids with
  | .error e => .error e
  | .ok (sequence, to_remove_tokens, is_empty_generated_tokens) =>
    match insert_candidate_tokens sequence cand with
    | .error e => .error e
    | .ok (sequence, to_insert_tokens) =>
      .ok ⟨sequence, to_insert_tokens, to_remove_tokens, is_empty_generated_tokens⟩

/-- The loop of lines 479-481, which fills a new sequence; it reads
`generated_log_probs[i]` without a bound check. -/
def fill_new_sequence (generated_tokens : List Int) (generated_log_probs : List Rat) :
    Nat → Nat → Sequence → Except Error Sequence
  | 0, _, s => .ok s
  | n + 1, i, s =>
    match generated_tokens[i]?, generated_log_probs[i]? with
    | some t, some p => fill_new_sequence generated_tokens generated_log_probs n (i + 1) (s.append_token t p)
    | _, _ => .error .out_of_range

/-- Lines 484-492 of `update_generated_sequence`: the epilogue of the
request body.  Its only live statement is
`request->update_processed_tokens_num(request->get_prompt_len())`. -/
def finish_update (request : SequenceGroup) (is_empty_generated_tokens : Bool)
    (to_remove_tokens : Nat) : SequenceGroup :=
  if !is_empty_generated_tokens then request
  else if to_remove_tokens > 0 then request.update_processed_tokens_num request.prompt_len
  else request

/-- Lines 425-493 of `update_generated_sequence`: the body run for the
request whose id matched.  The loop over `request->get_sequences()` ends in
an unconditional `break`, so only the first sequence is looked at. -/
def update_request (request : SequenceGroup) (cand : GeneratedSequence) :
    Except Error (SequenceGroup × UpdateSeqResult) :=
  let visited : Except Error (Option SeqUpdate) :=
    match request.sequences with
    | [] => .ok none
    | sequence :: _ =>
      if cand.sequence_id = sequence.grouped_id then
        match update_matching_sequence sequence cand with
        | .error e => .error e
        | .ok u => .ok (some u)
      else .ok none
  match visited with
  | .error e => .error e
  | .ok (some u) =>
    let request := { request with sequences := u.sequence :: request.sequences.tail }
    .ok (finish_update request u.is_empty_generated_tokens u.to_remove_tokens,
          ⟨u.to_insert_tokens, u.to_remove_tokens⟩)
  | .ok none =>
    match fill_new_sequence cand.token_ids cand.log_probs cand.token_ids.length 0
        ⟨cand.sequence_id, [], []⟩ with
    | .error e => .error e
    | .ok new_sequence => .ok (finish_update (request.add_sequence new_sequence) false 0, ⟨0, 0⟩)

/-- The loop `for (auto& request : m_requests)` of lines 423-495: the first
request with the candidate's id is updated and the function returns; with no
such request it returns `{0, 0}`. -/
def update_requests (cand : GeneratedSequence) :
    List SequenceGroup → Except Error (List SequenceGroup × UpdateSeqResult)
  | [] => .ok ([], ⟨0, 0⟩)
  | request :: rest =>
    if cand.request_id = request.request_id then
      match update_request request cand with
      | .error e => .error e
      | .ok (request, res) => .ok (request :: rest, res)
    else
      match update_requests cand rest with
      | .error e => .error e
      | .ok (rest, res) => .ok (request :: rest, res)

/-- The two request queues of `ContinuousBatchingImpl`. -/
structure RequestQueues (G : Type) where
  m_requests : List G
  m_awaiting_requests : List G

/-- Embedding of `ContinuousBatchingImpl::_pull_awaiting_requests` (lines 44-51). -/
def _pull_awaiting_requests {G : Type} (pause_generation : G → Bool → G)
    (q : RequestQueues G) : RequestQueues G :=
  { m_requests := (q.m_requests ++ q.m_awaiting_requests).map (fun r => pause_generation r false)
    m_awaiting_requests := [] }

/-- Embedding of `ContinuousBatchingImpl::update_generated_sequence` (lines 417-497). -/
def update_generated_sequence (q : RequestQueues SequenceGroup) (cand : GeneratedSequence) :
    Except Error (RequestQueues SequenceGroup × UpdateSeqResult) :=
  let q := _pull_awaiting_requests SequenceGroup.pause_generation q
  match update_requests cand q.m_requests with
  | .error e => .error e
  | .ok (requests, res) => .ok ({ q with m_requests := requests }, res)

/-- Length of the longest common prefix of two token lists (§4.6). -/
def common_prefix_len : List Int → List Int → Nat
  | a :: as, b :: bs => if a = b then common_prefix_len as bs + 1 else 0
  | _, _ => 0

/-- Number of tokens the removal step keeps: `token_idx + 1` after the
backward scan (the wrapped `SIZE_MAX + 1` being `0`). -/
def kept_len (p c : List Int) : Nat :=
  size_add (scan_token_idx p c (min p.length c.length)) 1

/-- The requests after `_pull_awaiting_requests`. -/
def pulled (q : RequestQueues SequenceGroup) : List SequenceGroup :=
  (_pull_awaiting_requests SequenceGroup.pause_generation q).m_requests

/-! ### Sample inputs for the sequence-diff update -/

/-- A queue holding one paused request (id 7, prompt length 4, 9 processed
tokens) whose only sequence has the given generated ids. -/
def sample_queue (ids : List Int) : RequestQueues SequenceGroup :=
  ⟨[⟨7, 4, [⟨0, ids, ids.map (fun _ => 0)⟩], 9, true⟩], []⟩

/-- The request of `sample_queue` after `_pull_awaiting_requests`. -/
def sample_request (ids : List Int) : SequenceGroup :=
  ⟨7, 4, [⟨0, ids, ids.map (fun _ => 0)⟩], 9, false⟩

/-- A candidate for sequence 0 of request 7 without log-probs. -/
def sample_candidate (ids : List Int) : GeneratedSequence := ⟨7, 0, ids, []⟩

/-- The condition under which `update_generated_sequence` resets the
processed-token counter, read off the request before the call and the
returned removed count `n`: at least one token was removed and removing
`n` tokens leaves the first sequence without generated ids. -/
def emptied_by_removal (req : SequenceGroup) (n : Nat) : Prop :=
  0 < n ∧ ∃ seq rest, req.sequences = seq :: rest ∧
    (seq.remove_last_tokens n).generated_ids = []

/-! ## Scheduler (`scheduler.hpp`) -/

/-- The fields of `SchedulerConfig` the embedded code reads
(`scheduler_config.hpp` is not among the sources; the fields are those
listed in §4.2). -/
structure SchedulerConfig where
  max_num_batched_tokens : Nat
  max_num_seqs : Nat
  block_size : Nat
  num_kv_blocks : Nat
  dynamic_split_fuse : Bool
  enable_prefix_caching : Bool
  use_cache_eviction : Bool
  deriving DecidableEq, Repr

/-- Block tables of one sequence: for each attention layer the ids of its
physical blocks (`std::vector<BlocksPerLayer>`). -/
abbrev BlockTables := List (List Nat)

/-- A `std::map<size_t, std::list<size_t>>` of block copies, as an
association list. -/
abbrev BlockCopyMap := List (Nat × List Nat)

/-- The methods of `SequenceGroup` that the scheduler and the pipeline loop
call, as parameters over the type `G` of request states.  Sequences are
referred to by their ids. -/
structure SequenceGroupOps (G : Type) where
  get_request_id : G → Nat
  can_generate_tokens : G → Bool
  is_waiting : G → Bool
  has_finished : G → Bool
  out_of_memory : G → Bool
  handle_dropped : G → Bool
  num_running_seqs : G → Nat
  get_num_available_tokens_for_batching : G → Nat
  get_num_processed_tokens : G → Nat
  get_num_evicted_tokens : G → Nat
  get_num_blocks : G → Nat
  get_prompt_len : G → Nat
  get_context_len : G → Nat
  get_prompt_ids : G → List Int
  /-- Stands for `get_sampling_parameters().is_beam_search()` -/
  is_beam_search : G → Bool
  /-- Stands for `get_sampling_parameters().is_speculative_decoding()` -/
  is_speculative_decoding : G → Bool
  /-- Stands for `get_sampling_parameters().num_assistant_tokens_schedule ==
  NumAssistatantTokensScheduleType::CONSTANT` -/
  is_constant_schedule : G → Bool
  /-- Stands for `get_sampling_parameters().num_assistant_tokens` -/
  num_assistant_tokens : G → Nat
  /-- Stands for `(*sequence_group)[0]->get_id()` -/
  first_sequence_id : G → Nat
  /-- ids of `get_sequences()` -/
  get_sequences : G → List Nat
  /-- ids of `get_running_sequences()` -/
  get_running_sequences : G → List Nat
  /-- ids of `get_not_finished_sequences()` -/
  get_not_finished_sequences : G → List Nat
  schedule_tokens : G → Nat → G
  clear_scheduled_tokens : G → G
  preempt_tokens : G → Nat → G
  reset_eviction_token_count : G → G
  set_waiting : G → G
  clear_waiting_sequences : G → G
  pause_generation : G → Bool → G
  set_out_of_memory : G → G
  notify_handle : G → G
  push_empty_outputs : G → G
  has_sequence_with_id : G → Nat → Bool
  register_token_eviction : G → Nat → G

/-- The methods of `BlockManager` that the scheduler calls, as parameters
over the type `B` of block-manager states. -/
structure BlockManagerOps (B G : Type) where
  num_free_blocks : B → Nat
  can_allocate_blocks : B → Nat → Bool
  can_append_slots : B → G → Bool
  required_blocks_count : B → G → Nat
  get_number_of_blocks_occupied_by_sequence : B → G → Nat
  has_block_table : B → Nat → Bool
  get_block_tables : B → Nat → BlockTables
  /-- Stands for `allocate(sequence, num_blocks, prompt_ids)`, the sequence given by id -/
  allocate : B → Nat → Nat → List Int → B
  append_slots : B → G → B × BlockCopyMap
  free_sequence : B → Nat → B
  fork_sequence : B → Nat → Nat → B
  free_group_partially : B → G → Nat → B × Nat
  free_partially_beam_search_group : B → G → Nat → B × Nat
  /-- Stands for `free_blocks_from_sequence(seq_id, per_layer_logical_block_indices_to_free)` -/
  free_blocks_from_sequence : B → Nat → List (List Nat) → B

/-- The struct `Scheduler::Output`.  The float `m_cache_usage`, which `schedule` copies
from the block manager as its last statement, is not carried. -/
structure Output where
  m_scheduled_sequence_groups_ids : List Nat := []
  m_block_copy_map : BlockCopyMap := []
  m_block_tables : List (Nat × BlockTables) := []
  m_total_num_scheduled_tokens : Nat := 0
  is_prompt : Bool := false
  deriving DecidableEq, Repr

/-- The data members of `Scheduler`. -/
structure Scheduler (B : Type) where
  m_can_use_partial_preemption : Bool
  m_config : SchedulerConfig
  m_block_manager : B

/-- What a scheduling phase reads and writes: the scheduler, the vector of
request groups (shared pointers, so a group changed through one of them is
changed in the vector) and the output under construction. -/
structure SchedState (G B : Type) where
  self : Scheduler B
  sequence_groups : List G
  scheduler_output : Output

/-- The assignment `m[key] = value` on a `std::map` kept as an association list. -/
def map_assign {V : Type} (m : List (Nat × V)) (key : Nat) (value : V) : List (Nat × V) :=
  match m with
  | [] => [(key, value)]
  | (k, v) :: rest => if k = key then (k, value) :: rest else (k, v) :: map_assign rest key value

/-- The call `m[key].push_back(value)` on a `std::map` of lists. -/
def map_push_back (m : BlockCopyMap) (key : Nat) (value : Nat) : BlockCopyMap :=
  match m with
  | [] => [(key, [value])]
  | (k, v) :: rest =>
    if k = key then (k, v ++ [value]) :: rest else (k, v) :: map_push_back rest key value

/-- Outcome of one iteration of a `for` loop: go on with the next index
(also after `continue`) or leave the loop (`break`). -/
inductive LoopStep (σ : Type) where
  | next (s : σ)
  | stop (s : σ)

/-- A loop `for (size_t i = start; i < start + n; ++i) body`, where the body
may `continue`, `break` or fail. -/
def for_range {σ : Type} (body : Nat → σ → Except Error (LoopStep σ)) :
    Nat → Nat → σ → Except Error σ
  | 0, _, s => .ok s
  | n + 1, i, s =>
    match body i s with
    | .error e => .error e
    | .ok (.stop s') => .ok s'
    | .ok (.next s') => for_range body n (i + 1) s'

/-- The conversion `(int)x` of a `size_t`. -/
def to_int (x : Nat) : Int :=
  if x % 2 ^ 32 < 2 ^ 31 then (x % 2 ^ 32 : Nat) else ((x % 2 ^ 32 : Nat) : Int) - 2 ^ 32

/-- The conversion of an `int` to `size_t`. -/
def to_size_t (x : Int) : Nat := (x % 2 ^ 64).toNat

section SchedulerModel

variable {G B : Type} (gops : SequenceGroupOps G) (bops : BlockManagerOps B G)

/-- Embedding of `Scheduler::_num_running_sequence_groups` (lines 102-110). -/
def _num_running_sequence_groups (sequence_groups : List G) : Nat :=
  sequence_groups.countP gops.can_generate_tokens

/-- Embedding of `Scheduler::_preempt_by_recompute` (lines 113-164), called on
`sequence_groups[victim]`; the result carries the returned flag. -/
def _preempt_by_recompute (self : Scheduler B) (sequence_groups : List G) (victim : Nat)
    (blocks_needed : Nat) : Except Error (Scheduler B × List G × Bool) :=
  match sequence_groups[victim]? with
  | none => .error .out_of_range
  | some sequence_group =>
    let processed_tokens := gops.get_num_processed_tokens sequence_group
    let block_size := self.m_config.block_size
    let prev_blocks_count := bops.num_free_blocks self.m_block_manager
    let num_blocks_occupied_by_sequence :=
      bops.get_number_of_blocks_occupied_by_sequence self.m_block_manager sequence_group
    let was_evicted_from := gops.get_num_evicted_tokens sequence_group != 0
    if num_blocks_occupied_by_sequence ≤ blocks_needed || !self.m_can_use_partial_preemption
        || was_evicted_from then
      let bm := (gops.get_not_finished_sequences sequence_group).foldl
        (fun bm seq_id => bops.free_sequence bm seq_id) self.m_block_manager
      let sequence_group := gops.preempt_tokens sequence_group processed_tokens
      let sequence_group :=
        if was_evicted_from then gops.reset_eviction_token_count sequence_group
        else sequence_group
      let sequence_group := gops.set_waiting sequence_group
      .ok ({ self with m_block_manager := bm }, sequence_groups.set victim sequence_group,
            decide (bops.num_free_blocks bm > prev_blocks_count))
    else
      let freed :=
        if gops.is_beam_search sequence_group then
          bops.free_partially_beam_search_group self.m_block_manager sequence_group blocks_needed
        else bops.free_group_partially self.m_block_manager sequence_group blocks_needed
      let bm := freed.1
      let logical_blocks_released := freed.2
      -- calculate the number of preempted tokens
      if block_size = 0 then .error .division_by_zero
      else
        let tokens_in_last_block := processed_tokens % block_size
        let tokens_in_last_block :=
          if tokens_in_last_block = 0 then block_size else tokens_in_last_block
        let preempted_tokens := size_add tokens_in_last_block
          (size_mul (max (to_size_t (to_int logical_blocks_released - 1)) 0) block_size)
        -- case when preemption requires preempt prompt tokens
        let fallback := !self.m_config.dynamic_split_fuse &&
          decide (size_sub processed_tokens preempted_tokens < gops.get_prompt_len sequence_group)
        let preempted_tokens := if fallback then processed_tokens else preempted_tokens
        let bm :=
          if fallback then
            (gops.get_not_finished_sequences sequence_group).foldl
              (fun bm seq_id => if bops.has_block_table bm seq_id then bops.free_sequence bm seq_id
                else bm) bm
          else bm
        let sequence_group := gops.preempt_tokens sequence_group preempted_tokens
        let sequence_group := gops.set_waiting sequence_group
        .ok ({ self with m_block_manager := bm }, sequence_groups.set victim sequence_group,
              decide (bops.num_free_blocks bm > prev_blocks_count))

/-- The loop of `Scheduler::_get_low_priority_sequence_group_id`
(lines 167-175) with `n` groups still to look at, from index `n - 1` down. -/
def low_priority_scan (sequence_groups : List G) : Nat → Nat
  | 0 => SIZE_MAX
  | n + 1 =>
    match sequence_groups[n]? with
    | some sequence_group =>
      if gops.get_num_processed_tokens sequence_group > 0 then n
      else low_priority_scan sequence_groups n
    | none => low_priority_scan sequence_groups n

/-- Embedding of `Scheduler::_get_low_priority_sequence_group_id` (lines 166-178). -/
def _get_low_priority_sequence_group_id (sequence_groups : List G) : Nat :=
  low_priority_scan gops sequence_groups sequence_groups.length

/-- Embedding of `Scheduler::_apply_preemption` (lines 180-197); `fuel` bounds the number
of times the body of the `while` loop runs. -/
def _apply_preemption (sequence_group_id : Nat) :
    Nat → Scheduler B → List G → Except Error (Scheduler B × List G)
  | fuel, self, sequence_groups =>
    match sequence_groups[sequence_group_id]? with
    | none => .error .out_of_range
    | some sequence_group =>
      -- check whether current sequence requires a new slot / block
      if !bops.can_append_slots self.m_block_manager sequence_group then
        match fuel with
        | 0 => .error .out_of_fuel
        | fuel + 1 =>
          -- let's run a sequence for eviction
          let evicted_sequence_group_id := _get_low_priority_sequence_group_id gops sequence_groups
          if evicted_sequence_group_id ≤ sequence_group_id then
            -- we have a cycle when current group need to evict itself to be in a running state
            .ok (self, sequence_groups)
          else
            let blocks_needed := bops.required_blocks_count self.m_block_manager sequence_group
            match _preempt_by_recompute gops bops self sequence_groups evicted_sequence_group_id
                blocks_needed with
            | .error e => .error e
            | .ok (self, sequence_groups, freed) =>
              if !freed then .ok (self, sequence_groups)
              else _apply_preemption sequence_group_id fuel self sequence_groups
      else .ok (self, sequence_groups)

end SchedulerModel

section SchedulerPhases

variable {G B : Type} (gops : SequenceGroupOps G) (bops : BlockManagerOps B G)

/-- The copy-block merge of lines 306-311: every destination of every
source is pushed onto the output's list for that source. -/
def merge_copy_blocks (m : BlockCopyMap) (copy_blocks_map : BlockCopyMap) : BlockCopyMap :=
  copy_blocks_map.foldl
    (fun m src_dst => src_dst.2.foldl (fun m dst_index => map_push_back m src_dst.1 dst_index) m) m

/-- Lines 235-248 of `_schedule_prompt_phase_dynamic_split_fuse`: when
`num_scheduled_tokens > 0`, allocate the blocks if any, schedule the tokens
and record the group in the output. -/
def schedule_prompt_chunk (sequence_group_id : Nat) (sequence_group : G)
    (num_scheduled_tokens num_scheduled_blocks num_running_seqs : Nat) (st : SchedState G B) :
    SchedState G B :=
  if num_scheduled_tokens > 0 then
    let seq_id := gops.first_sequence_id sequence_group
    -- allocate KV blocks if required
    let bm :=
      if num_scheduled_blocks > 0 then
        bops.allocate st.self.m_block_manager seq_id num_scheduled_blocks
          (gops.get_prompt_ids sequence_group)
      else st.self.m_block_manager
    -- and schedule tokens
    let sequence_group := gops.schedule_tokens sequence_group num_scheduled_tokens
    -- add information to scheduler_output
    { self := { st.self with m_block_manager := bm }
      sequence_groups := st.sequence_groups.set sequence_group_id sequence_group
      scheduler_output :=
        { st.scheduler_output with
          m_scheduled_sequence_groups_ids :=
            st.scheduler_output.m_scheduled_sequence_groups_ids ++ [sequence_group_id]
          m_block_tables := map_assign st.scheduler_output.m_block_tables seq_id
            (bops.get_block_tables bm seq_id)
          m_total_num_scheduled_tokens :=
            size_add st.scheduler_output.m_total_num_scheduled_tokens
              (size_mul num_scheduled_tokens num_running_seqs) } }
  else st

/-- The test that ends an iteration of the two dynamic-split-fuse loops:
"if we added maximum amount of tokens to compute" then `break`. -/
def stop_when_full (st : SchedState G B) : LoopStep (SchedState G B) :=
  if st.scheduler_output.m_total_num_scheduled_tokens = st.self.m_config.max_num_batched_tokens
  then .stop st
  else .next st

/-- The body of the loop of `_schedule_prompt_phase_dynamic_split_fuse`
(lines 209-253) at index `sequence_group_id`. -/
def prompt_phase_dynamic_split_fuse_body (sequence_group_id : Nat) (st : SchedState G B) :
    Except Error (LoopStep (SchedState G B)) :=
  let m_config := st.self.m_config
  match st.sequence_groups[sequence_group_id]? with
  | none => .error .out_of_range
  | some sequence_group =>
    if !gops.can_generate_tokens sequence_group && !gops.is_waiting sequence_group then
      let num_running_seqs := gops.num_running_seqs sequence_group
      -- prompt phases can have a single running sequence
      if num_running_seqs ≠ 1 then .error .assertion_failed
      else
        let num_tokens_in_megabatch := size_sub m_config.max_num_batched_tokens
          st.scheduler_output.m_total_num_scheduled_tokens
        let num_available_tokens := gops.get_num_available_tokens_for_batching sequence_group
        -- apply megabatch limitations
        let num_scheduled_tokens := min num_tokens_in_megabatch num_available_tokens
        -- apply KV cache limitations
        let currently_allocated_token_slots :=
          size_mul (gops.get_num_blocks sequence_group) m_config.block_size
        let occupied_token_slots := size_sub (gops.get_num_processed_tokens sequence_group)
          (gops.get_num_evicted_tokens sequence_group)
        if ¬ (currently_allocated_token_slots ≥ occupied_token_slots) then
          .error .assertion_failed
        else
          let available_slots := size_sub currently_allocated_token_slots occupied_token_slots
          let required_slots :=
            if num_scheduled_tokens > available_slots then
              size_sub num_scheduled_tokens available_slots
            else 0
          match size_div (size_sub (size_add required_slots m_config.block_size) 1)
              m_config.block_size with
          | .error e => .error e
          | .ok num_required_blocks =>
            let num_free_blocks := bops.num_free_blocks st.self.m_block_manager
            let num_scheduled_blocks := min num_required_blocks num_free_blocks
            -- some scheduled blocks can be no fully occupied, so we need to take min between
            -- num_scheduled_blocks and total "scheduled capacity"
            let num_scheduled_tokens := min num_scheduled_tokens
              (size_add available_slots (size_mul num_scheduled_blocks m_config.block_size))
            .ok (stop_when_full (schedule_prompt_chunk gops bops sequence_group_id sequence_group
              num_scheduled_tokens num_scheduled_blocks num_running_seqs st))
    else .ok (.next st)

/-- Embedding of `Scheduler::_schedule_prompt_phase_dynamic_split_fuse` (lines 199-255). -/
def _schedule_prompt_phase_dynamic_split_fuse (st : SchedState G B) :
    Except Error (SchedState G B) :=
  for_range (prompt_phase_dynamic_split_fuse_body gops bops) st.sequence_groups.length 0 st

/-- Lines 290-312 of `_schedule_generate_phase_dynamic_split_fuse`:
allocate the new slots and record the group in the output. -/
def schedule_generation (sequence_group_id : Nat) (sequence_group : G)
    (num_scheduled_tokens_per_seq num_running_seqs : Nat) (st : SchedState G B) :
    SchedState G B :=
  -- allocate new slots
  let appended := bops.append_slots st.self.m_block_manager sequence_group
  let bm := appended.1
  let copy_blocks_map := appended.2
  -- add information to scheduler_output
  { self := { st.self with m_block_manager := bm }
    sequence_groups := st.sequence_groups
    scheduler_output :=
      { st.scheduler_output with
        m_scheduled_sequence_groups_ids :=
          st.scheduler_output.m_scheduled_sequence_groups_ids ++ [sequence_group_id]
        m_total_num_scheduled_tokens :=
          size_add st.scheduler_output.m_total_num_scheduled_tokens
            (size_mul num_scheduled_tokens_per_seq num_running_seqs)
        -- block tables for each running sequence within a group
        m_block_tables :=
          (gops.get_running_sequences sequence_group).foldl
            (fun m seq_id => map_assign m seq_id (bops.get_block_tables bm seq_id))
            st.scheduler_output.m_block_tables
        -- merge copy_blocks
        m_block_copy_map :=
          merge_copy_blocks st.scheduler_output.m_block_copy_map copy_blocks_map } }

/-- The body of the loop of `_schedule_generate_phase_dynamic_split_fuse`
(lines 259-317) at index `sequence_group_id`; `fuel` is handed to
`_apply_preemption`. -/
def generate_phase_body (fuel : Nat) (sequence_group_id : Nat) (st : SchedState G B) :
    Except Error (LoopStep (SchedState G B)) :=
  let m_config := st.self.m_config
  match st.sequence_groups[sequence_group_id]? with
  | none => .error .out_of_range
  | some sequence_group =>
    if gops.can_generate_tokens sequence_group && !gops.is_waiting sequence_group then
      if gops.has_finished sequence_group then .error .assertion_failed
      else
        let num_running_seqs := gops.num_running_seqs sequence_group
        let num_tokens_in_megabatch := size_sub m_config.max_num_batched_tokens
          st.scheduler_output.m_total_num_scheduled_tokens
        match size_div num_tokens_in_megabatch num_running_seqs with
        | .error e => .error e
        | .ok available_tokens_per_seq_in_megabatch =>
          -- we cannot schedule even a single token per each sequence in a group
          if available_tokens_per_seq_in_megabatch = 0 then .ok (.next st)
          else
            let num_available_tokens_per_seq :=
              gops.get_num_available_tokens_for_batching sequence_group
            let num_scheduled_tokens_per_seq :=
              min available_tokens_per_seq_in_megabatch num_available_tokens_per_seq
            let sequence_group := gops.schedule_tokens sequence_group num_scheduled_tokens_per_seq
            let sequence_groups := st.sequence_groups.set sequence_group_id sequence_group
            match _apply_preemption gops bops sequence_group_id fuel st.self sequence_groups with
            | .error e => .error e
            | .ok (self, sequence_groups) =>
              match sequence_groups[sequence_group_id]? with
              | none => .error .out_of_range
              | some sequence_group =>
                -- if we can't preemt any more sequences, clear scheduled tokens and move to
                -- next sequence
                if !bops.can_append_slots self.m_block_manager sequence_group then
                  .ok (.next
                    { self := self
                      sequence_groups := sequence_groups.set sequence_group_id
                        (gops.clear_scheduled_tokens sequence_group)
                      scheduler_output := st.scheduler_output })
                else
                  .ok (stop_when_full (schedule_generation gops bops sequence_group_id
                    sequence_group num_scheduled_tokens_per_seq num_running_seqs
                    ⟨self, sequence_groups, st.scheduler_output⟩))
    else .ok (.next st)

/-- Embedding of `Scheduler::_schedule_generate_phase_dynamic_split_fuse` (lines 257-319). -/
def _schedule_generate_phase_dynamic_split_fuse (fuel : Nat) (st : SchedState G B) :
    Except Error (SchedState G B) :=
  for_range (generate_phase_body gops bops fuel) st.sequence_groups.length 0 st

/-- The state of the loop of `_schedule_prompt_phase_vllm`: the scheduling
state and the local counter `num_running_sequence_groups`. -/
structure VllmState (G B : Type) where
  st : SchedState G B
  num_running_sequence_groups : Nat

/-- The test of line 338: the group is looked at by the vLLM prompt phase. -/
def vllm_prompt_candidate (m_can_use_partial_preemption : Bool) (sequence_group : G) : Bool :=
  let recompute_evicted_sequences :=
    gops.get_num_processed_tokens sequence_group == 0 && !m_can_use_partial_preemption
  (!gops.can_generate_tokens sequence_group || recompute_evicted_sequences) &&
    !gops.is_waiting sequence_group

/-- Lines 367-389 of `_schedule_prompt_phase_vllm`: schedule the whole
`sequence_len`, allocate the blocks, record the group in the output, set
`is_prompt` and count the group as running. -/
def admit_prompt (sequence_group_id : Nat) (sequence_group : G) (sequence_len : Nat)
    (v : VllmState G B) : VllmState G B :=
  let st := v.st
  let seq_id := gops.first_sequence_id sequence_group
  -- and schedule tokens
  let sequence_group := gops.schedule_tokens sequence_group sequence_len
  -- allocate KV blocks
  let bm := (bops.append_slots st.self.m_block_manager sequence_group).1
  { st :=
      { self := { st.self with m_block_manager := bm }
        sequence_groups := st.sequence_groups.set sequence_group_id sequence_group
        scheduler_output :=
          { st.scheduler_output with
            m_scheduled_sequence_groups_ids :=
              st.scheduler_output.m_scheduled_sequence_groups_ids ++ [sequence_group_id]
            m_block_tables := map_assign st.scheduler_output.m_block_tables seq_id
              (bops.get_block_tables bm seq_id)
            m_total_num_scheduled_tokens :=
              size_add st.scheduler_output.m_total_num_scheduled_tokens sequence_len
            -- update "is_prompt" flag
            is_prompt := true } }
    num_running_sequence_groups := v.num_running_sequence_groups + 1 }

/-- The assertions of lines 341-345 and 352 on a group looked at by the vLLM
prompt phase. -/
def vllm_assertions (m_config : SchedulerConfig) (sequence_group : G) : Bool :=
  let num_running_seqs := gops.num_running_seqs sequence_group
  let is_speculative_decoding := gops.is_speculative_decoding sequence_group
  let sequence_len := gops.get_num_available_tokens_for_batching sequence_group
  -- prompt phases can have a single running sequence
  ((num_running_seqs == 1 && !is_speculative_decoding) || is_speculative_decoding) &&
  -- here we also assume that sequence must be scheduler in a single shot and has no
  -- already generated context
  (!(!m_config.enable_prefix_caching && !is_speculative_decoding) ||
    gops.get_context_len sequence_group == 0) &&
  decide (m_config.max_num_batched_tokens ≥ sequence_len)

/-- The body of the loop of `_schedule_prompt_phase_vllm` (lines 336-390) at
index `sequence_group_id`. -/
def prompt_phase_vllm_body (sequence_group_id : Nat) (v : VllmState G B) :
    Except Error (LoopStep (VllmState G B)) :=
  let st := v.st
  let m_config := st.self.m_config
  match st.sequence_groups[sequence_group_id]? with
  | none => .error .out_of_range
  | some sequence_group =>
    if vllm_prompt_candidate gops st.self.m_can_use_partial_preemption sequence_group then
      if !vllm_assertions gops m_config sequence_group then .error .assertion_failed
      else
        let num_available_tokens_in_megabatch := size_sub m_config.max_num_batched_tokens
          st.scheduler_output.m_total_num_scheduled_tokens
        let sequence_len := gops.get_num_available_tokens_for_batching sequence_group
        -- if we limited by max_num_seqs condition
        if v.num_running_sequence_groups ≥ m_config.max_num_seqs then .ok (.stop v)
        -- apply max num batched tokens limitation
        else if num_available_tokens_in_megabatch < sequence_len then .ok (.stop v)
        else
          -- apply KV cache limitations
          match size_div (size_sub (size_add sequence_len m_config.block_size) 1)
              m_config.block_size with
          | .error e => .error e
          | .ok num_required_blocks =>
            if !bops.can_allocate_blocks st.self.m_block_manager num_required_blocks then
              .ok (.stop v)
            else .ok (.next (admit_prompt gops bops sequence_group_id sequence_group sequence_len v))
    else .ok (.next v)

/-- Embedding of `Scheduler::_schedule_prompt_phase_vllm` (lines 321-392). -/
def _schedule_prompt_phase_vllm (st : SchedState G B) : Except Error (SchedState G B) :=
  if st.self.m_config.dynamic_split_fuse then .error .assertion_failed
  else if ¬ (st.self.m_config.max_num_seqs ≤ st.self.m_config.max_num_batched_tokens) then
    .error .assertion_failed
  else if ¬ (st.scheduler_output.m_scheduled_sequence_groups_ids = []) then
    .error .assertion_failed
  else
    -- TODO: it currently does not handle beam search
    let num_running_sequence_groups := _num_running_sequence_groups gops st.sequence_groups
    match for_range (prompt_phase_vllm_body gops bops) st.sequence_groups.length 0
        ⟨st, num_running_sequence_groups⟩ with
    | .error e => .error e
    | .ok v => .ok v.st

/-- Embedding of `Scheduler::_clear_waiting_sequences` (lines 394-398). -/
def _clear_waiting_sequences (sequence_groups : List G) : List G :=
  sequence_groups.map gops.clear_waiting_sequences

/-- Lines 49-65 of `Scheduler::schedule`: the phases run under the policy
chosen by `dynamic_split_fuse`. -/
def schedule_phases (fuel : Nat) (st : SchedState G B) : Except Error (SchedState G B) :=
  if st.self.m_config.dynamic_split_fuse then
    -- deepspeed-mii case: generation phase is always scheduled first
    match _schedule_generate_phase_dynamic_split_fuse gops bops fuel st with
    | .error e => .error e
    | .ok st =>
      -- some tokens from generation prompt are also scheduled
      _schedule_prompt_phase_dynamic_split_fuse gops bops st
  else
    -- vLLM case: schedule prompt phase using whole prompt's input_ids
    match _schedule_prompt_phase_vllm gops bops st with
    | .error e => .error e
    | .ok st =>
      if !st.scheduler_output.is_prompt then
        -- prompt sequences are not scheduler => scheduler generation phase
        _schedule_generate_phase_dynamic_split_fuse gops bops fuel st
      else .ok st

/-- Embedding of `Scheduler::schedule` (lines 46-71).  The result is the scheduler and the
groups after the call together with the returned `Output`; `fuel` bounds
each run of the preemption loop. -/
def schedule (fuel : Nat) (self : Scheduler B) (sequence_groups : List G) :
    Except Error (SchedState G B) :=
  match schedule_phases gops bops fuel ⟨self, sequence_groups, {}⟩ with
  | .error e => .error e
  | .ok st =>
    .ok { st with sequence_groups := _clear_waiting_sequences gops st.sequence_groups }

end SchedulerPhases

/-- The state an iteration leaves behind, whichever way it ends. -/
def LoopStep.state {σ : Type} : LoopStep σ → σ
  | .next s => s
  | .stop s => s

/-- The budget invariant of a scheduling phase: the configuration is the
given one and the tokens scheduled so far do not exceed
`max_num_batched_tokens`. -/
def within_budget {G B : Type} (cfg : SchedulerConfig) (st : SchedState G B) : Prop :=
  st.self.m_config = cfg ∧
    st.scheduler_output.m_total_num_scheduled_tokens ≤ cfg.max_num_batched_tokens

/-! ### Sample requests and a sample block manager

The scheduler is embedded over any `SequenceGroupOps` and `BlockManagerOps`.
The instance below is the one on which the properties are run on concrete
inputs: single-sequence requests whose sequence id is the request id, and a
block manager that counts the blocks of each sequence, shares none and keeps
one layer. -/

/-- A single-sequence request (§3). -/
structure SampleGroup where
  request_id : Nat
  prompt_len : Nat
  generated_len : Nat := 0
  num_processed_tokens : Nat := 0
  num_scheduled_tokens : Nat := 0
  num_evicted_tokens : Nat := 0
  num_blocks : Nat := 0
  waiting : Bool := false
  paused : Bool := false
  finished : Bool := false
  out_of_memory : Bool := false
  handle_dropped : Bool := false
  speculative : Bool := false
  num_assistant_tokens : Nat := 0
  notifications : Nat := 0
  deriving DecidableEq, Repr

/-- The methods of a `SampleGroup`, after §3 and §4.2. -/
def sample_gops : SequenceGroupOps SampleGroup where
  get_request_id g := g.request_id
  can_generate_tokens g := decide (g.prompt_len ≤ g.num_processed_tokens) && !g.paused
  is_waiting g := g.waiting
  has_finished g := g.finished
  out_of_memory g := g.out_of_memory
  handle_dropped g := g.handle_dropped
  num_running_seqs g := if g.finished || g.out_of_memory then 0 else 1
  get_num_available_tokens_for_batching g :=
    max (g.prompt_len + g.generated_len - g.num_processed_tokens) 1
  get_num_processed_tokens g := g.num_processed_tokens
  get_num_evicted_tokens g := g.num_evicted_tokens
  get_num_blocks g := g.num_blocks
  get_prompt_len g := g.prompt_len
  get_context_len g := g.num_processed_tokens
  get_prompt_ids g := List.replicate g.prompt_len 0
  is_beam_search _ := false
  is_speculative_decoding g := g.speculative
  is_constant_schedule g := g.speculative
  num_assistant_tokens g := g.num_assistant_tokens
  first_sequence_id g := g.request_id
  get_sequences g := [g.request_id]
  get_running_sequences g := if g.finished || g.out_of_memory then [] else [g.request_id]
  get_not_finished_sequences g := if g.finished then [] else [g.request_id]
  schedule_tokens g n := { g with num_scheduled_tokens := n }
  clear_scheduled_tokens g := { g with num_scheduled_tokens := 0 }
  preempt_tokens g n := { g with num_processed_tokens := g.num_processed_tokens - n }
  reset_eviction_token_count g := { g with num_evicted_tokens := 0 }
  set_waiting g := { g with waiting := true }
  clear_waiting_sequences g := { g with waiting := false }
  pause_generation g status := { g with paused := status }
  set_out_of_memory g := { g with out_of_memory := true }
  notify_handle g := { g with notifications := g.notifications + 1 }
  push_empty_outputs g := { g with notifications := g.notifications + 1 }
  has_sequence_with_id g seq_id := g.request_id == seq_id
  register_token_eviction g n := { g with num_evicted_tokens := g.num_evicted_tokens + n }

/-- A block manager that records how many blocks each sequence holds. -/
structure SampleBlocks where
  block_size : Nat
  free : Nat
  held : List (Nat × Nat)
  deriving DecidableEq, Repr

/-- Blocks held by a sequence. -/
def SampleBlocks.blocks_of (b : SampleBlocks) (seq_id : Nat) : Nat :=
  match b.held.find? (fun e => e.1 == seq_id) with
  | some e => e.2
  | none => 0

/-- Blocks a request still needs for its processed and scheduled tokens. -/
def SampleBlocks.required (b : SampleBlocks) (g : SampleGroup) : Nat :=
  (g.num_processed_tokens + g.num_scheduled_tokens + b.block_size - 1) / b.block_size
    - b.blocks_of g.request_id

/-- Give `n` more blocks to a sequence. -/
def SampleBlocks.give (b : SampleBlocks) (seq_id n : Nat) : SampleBlocks :=
  { b with free := b.free - n, held := map_assign b.held seq_id (b.blocks_of seq_id + n) }

/-- Take the last `n` blocks of a sequence back. -/
def SampleBlocks.take_back (b : SampleBlocks) (seq_id n : Nat) : SampleBlocks :=
  { b with free := b.free + n, held := map_assign b.held seq_id (b.blocks_of seq_id - n) }

/-- The methods of a `SampleBlocks`, after §4.1. -/
def sample_bops : BlockManagerOps SampleBlocks SampleGroup where
  num_free_blocks b := b.free
  can_allocate_blocks b n := decide (n ≤ b.free)
  can_append_slots b g := decide (b.required g ≤ b.free)
  required_blocks_count b g := b.required g
  get_number_of_blocks_occupied_by_sequence b g := b.blocks_of g.request_id
  has_block_table b seq_id := (b.held.find? (fun e => e.1 == seq_id)).isSome
  get_block_tables b seq_id := [List.range (b.blocks_of seq_id)]
  allocate b seq_id n _ := b.give seq_id n
  append_slots b g := (b.give g.request_id (b.required g), [])
  free_sequence b seq_id :=
    { b with free := b.free + b.blocks_of seq_id
             held := b.held.filter (fun e => e.1 != seq_id) }
  fork_sequence b parent_id child_id := b.give child_id (b.blocks_of parent_id)
  free_group_partially b g n :=
    (b.take_back g.request_id (min n (b.blocks_of g.request_id - 1)),
      min n (b.blocks_of g.request_id - 1))
  free_partially_beam_search_group b g n :=
    (b.take_back g.request_id (min n (b.blocks_of g.request_id - 1)),
      min n (b.blocks_of g.request_id - 1))
  free_blocks_from_sequence b seq_id per_layer :=
    b.take_back seq_id (min (per_layer.headD []).length (b.blocks_of seq_id))

/-- The value of a computation that returned, or the given default. -/
def result_or {α : Type} (x : Except Error α) (d : α) : α :=
  match x with
  | .ok a => a
  | .error _ => d

/-- A sample configuration: 8 tokens per step, 2 requests, blocks of 4
tokens, 8 blocks. -/
def sample_config (dynamic_split_fuse : Bool) : SchedulerConfig :=
  { max_num_batched_tokens := 8, max_num_seqs := 2, block_size := 4, num_kv_blocks := 8,
    dynamic_split_fuse := dynamic_split_fuse, enable_prefix_caching := false,
    use_cache_eviction := false }

/-- A sample scheduler with all 8 blocks free. -/
def sample_scheduler (dynamic_split_fuse : Bool) : Scheduler SampleBlocks :=
  { m_can_use_partial_preemption := true, m_config := sample_config dynamic_split_fuse,
    m_block_manager := ⟨4, 8, []⟩ }

/-- Three fresh requests with prompts of 5, 3 and 2 tokens. -/
def sample_prompts : List SampleGroup :=
  [{ request_id := 0, prompt_len := 5 }, { request_id := 1, prompt_len := 3 },
   { request_id := 2, prompt_len := 2 }]

/-- What `schedule` returns on the sample prompts under the given policy. -/
def sample_schedule (dynamic_split_fuse : Bool) : SchedState SampleGroup SampleBlocks :=
  result_or (schedule sample_gops sample_bops 4 (sample_scheduler dynamic_split_fuse)
    sample_prompts) ⟨sample_scheduler dynamic_split_fuse, [], {}⟩

/-- The three limits of lines 355-365 as the vLLM prompt phase tests them on
group `g` in loop state `v`: `max_num_seqs`, the remaining token budget and
`can_allocate_blocks` on the required number of blocks. -/
def vllm_limits_hold {G B : Type} (gops : SequenceGroupOps G) (bops : BlockManagerOps B G)
    (v : VllmState G B) (g : G) : Prop :=
  v.num_running_sequence_groups < v.st.self.m_config.max_num_seqs ∧
  ¬ (size_sub v.st.self.m_config.max_num_batched_tokens
      v.st.scheduler_output.m_total_num_scheduled_tokens
        < gops.get_num_available_tokens_for_batching g) ∧
  ∃ num_required_blocks,
    size_div (size_sub (size_add (gops.get_num_available_tokens_for_batching g)
        v.st.self.m_config.block_size) 1) v.st.self.m_config.block_size
      = .ok num_required_blocks ∧
    bops.can_allocate_blocks v.st.self.m_block_manager num_required_blocks = true

section VllmTrace

variable {G B : Type} (gops : SequenceGroupOps G) (bops : BlockManagerOps B G)

/-- Whether the vLLM prompt phase looks at the group at index `i`. -/
def vllm_candidate_at (m_can_use_partial_preemption : Bool) (groups : List G) (i : Nat) : Bool :=
  match groups[i]? with
  | some g => vllm_prompt_candidate gops m_can_use_partial_preemption g
  | none => false

/-- Indices of the groups the vLLM prompt phase looks at, in the order of
the active set. -/
def vllm_candidates (m_can_use_partial_preemption : Bool) (groups : List G) : List Nat :=
  (List.range groups.length).filter (vllm_candidate_at gops m_can_use_partial_preemption groups)

/-- The whole token count of the group at index `i` (0 outside the vector). -/
def whole_len_at (groups : List G) (i : Nat) : Nat :=
  match groups[i]? with
  | some g => gops.get_num_available_tokens_for_batching g
  | none => 0

/-- Tokens scheduled when the listed groups are each scheduled whole. -/
def whole_tokens (groups : List G) (ids : List Nat) : Nat :=
  (ids.map (whole_len_at gops groups)).sum

/-- The block manager after `append_slots` for the group at index `i`
scheduled whole. -/
def admit_blocks (groups : List G) (bm : B) (i : Nat) : B :=
  match groups[i]? with
  | some g =>
    (bops.append_slots bm
      (gops.schedule_tokens g (gops.get_num_available_tokens_for_batching g))).1
  | none => bm

/-- The block manager after the listed groups were admitted whole, in order. -/
def blocks_after_admitting (groups : List G) (bm : B) (ids : List Nat) : B :=
  ids.foldl (admit_blocks gops bops groups) bm

/-- The three limits of the vLLM prompt phase for group `g`, once the groups
`prev` of the active set `groups` have been admitted by the scheduler `self`:
fewer than `max_num_seqs` groups run, the whole count fits the remaining
budget, and `can_allocate_blocks(ceil(count / block_size))` holds. -/
def vllm_admissible (self : Scheduler B) (groups : List G) (prev : List Nat) (g : G) : Prop :=
  _num_running_sequence_groups gops groups + prev.length < self.m_config.max_num_seqs ∧
  gops.get_num_available_tokens_for_batching g ≤
    self.m_config.max_num_batched_tokens - whole_tokens gops groups prev ∧
  bops.can_allocate_blocks (blocks_after_admitting gops bops groups self.m_block_manager prev)
    ((gops.get_num_available_tokens_for_batching g + self.m_config.block_size - 1)
      / self.m_config.block_size) = true

/-- The state of the vLLM prompt loop before index `i`, started from `st0`:
every group looked at so far was admitted whole. -/
def vllm_trace (st0 : SchedState G B) (i : Nat) (v : VllmState G B) : Prop :=
  v.st.self.m_config = st0.self.m_config ∧
  v.st.self.m_can_use_partial_preemption = st0.self.m_can_use_partial_preemption ∧
  v.st.scheduler_output.m_scheduled_sequence_groups_ids =
    (List.range i).filter
      (vllm_candidate_at gops st0.self.m_can_use_partial_preemption st0.sequence_groups) ∧
  v.num_running_sequence_groups = _num_running_sequence_groups gops st0.sequence_groups +
    v.st.scheduler_output.m_scheduled_sequence_groups_ids.length ∧
  v.st.scheduler_output.m_total_num_scheduled_tokens =
    whole_tokens gops st0.sequence_groups v.st.scheduler_output.m_scheduled_sequence_groups_ids ∧
  v.st.scheduler_output.m_total_num_scheduled_tokens ≤ st0.self.m_config.max_num_batched_tokens ∧
  v.st.self.m_block_manager = blocks_after_admitting gops bops st0.sequence_groups
    st0.self.m_block_manager v.st.scheduler_output.m_scheduled_sequence_groups_ids ∧
  (∀ k g, st0.sequence_groups[k]? = some g → v.st.sequence_groups[k]? = some
    (if k ∈ v.st.scheduler_output.m_scheduled_sequence_groups_ids then
      gops.schedule_tokens g (gops.get_num_available_tokens_for_batching g) else g)) ∧
  (∀ j (hj : j < v.st.scheduler_output.m_scheduled_sequence_groups_ids.length) g,
    st0.sequence_groups[v.st.scheduler_output.m_scheduled_sequence_groups_ids[j]]? = some g →
    vllm_admissible gops bops st0.self st0.sequence_groups
      (v.st.scheduler_output.m_scheduled_sequence_groups_ids.take j) g)

/-- What the vLLM prompt phase guarantees about the state `st'` it returns
from `st0`. -/
def vllm_outcome (st0 st' : SchedState G B) : Prop :=
  st'.scheduler_output.m_scheduled_sequence_groups_ids <+:
    vllm_candidates gops st0.self.m_can_use_partial_preemption st0.sequence_groups ∧
  st'.scheduler_output.m_scheduled_sequence_groups_ids.Pairwise (· < ·) ∧
  st'.scheduler_output.m_total_num_scheduled_tokens =
    whole_tokens gops st0.sequence_groups st'.scheduler_output.m_scheduled_sequence_groups_ids ∧
  st'.self.m_block_manager = blocks_after_admitting gops bops st0.sequence_groups
    st0.self.m_block_manager st'.scheduler_output.m_scheduled_sequence_groups_ids ∧
  (∀ k g, st0.sequence_groups[k]? = some g → st'.sequence_groups[k]? = some
    (if k ∈ st'.scheduler_output.m_scheduled_sequence_groups_ids then
      gops.schedule_tokens g (gops.get_num_available_tokens_for_batching g) else g)) ∧
  (∀ j (hj : j < st'.scheduler_output.m_scheduled_sequence_groups_ids.length) g,
    st0.sequence_groups[st'.scheduler_output.m_scheduled_sequence_groups_ids[j]]? = some g →
    vllm_admissible gops bops st0.self st0.sequence_groups
      (st'.scheduler_output.m_scheduled_sequence_groups_ids.take j) g) ∧
  (∀ i rest g,
    vllm_candidates gops st0.self.m_can_use_partial_preemption st0.sequence_groups =
      st'.scheduler_output.m_scheduled_sequence_groups_ids ++ i :: rest →
    st0.sequence_groups[i]? = some g →
    ¬ vllm_admissible gops bops st0.self st0.sequence_groups
      st'.scheduler_output.m_scheduled_sequence_groups_ids g)

end VllmTrace

/-! ## The pipeline loop (`continuous_batching_impl.cpp`) -/

/-- The struct `SamplerOutput`: the forks and drops the sampler asks for. -/
structure SamplerOutput where
  m_forked_sequences : List (Nat × List Nat)
  m_dropped_sequences : List Nat
  deriving DecidableEq, Repr

/-- A call of the pipeline to one of its collaborators. -/
inductive PipelineCall where
  | copy_blocks
  | forward
  | sample
  deriving DecidableEq, Repr

/-- The collaborators of the pipeline loop (cache manager, model runner,
sampler, cache-eviction algorithms), which are not among the sources, as
parameters over the type `W` of their joint state. -/
structure PipelineOps (G W : Type) where
  Logits : Type
  Scores : Type
  /-- Stands for `m_cache_manager->copy_blocks(block_copy_map)` -/
  copy_blocks : W → BlockCopyMap → W
  /-- Stands for `m_model_runner->forward(m_requests, scheduler_output)` -/
  forward : W → List G → Output → W × Logits
  /-- Stands for `m_model_runner->get_last_attention_scores()` -/
  get_last_attention_scores : W → List (Nat × Scores)
  /-- Lines 344-352: the `CacheEvictionAlgorithm` of the sequence (created on
  first use with the block size) registers the scores and returns the logical
  blocks to evict for each layer. -/
  evict_logical_blocks : W → Nat → Nat → Scores → W × List (List Nat)
  /-- Stands for `m_sampler->sample(m_requests, logits, m_is_validation_mode_enabled)` -/
  sample : W → List G → Logits → Bool → W × List G × SamplerOutput
  /-- Stands for `m_sampler->clear_beam_search_info(request_id)` -/
  clear_beam_search_info : W → Nat → W

/-- The data members of `ContinuousBatchingImpl` that `step` reads and
writes.  `calls` is a ghost record of the calls made to the collaborators,
and `reaped` a ghost record of the requests erased from `m_requests`, in the
state in which their handles keep them.  Timers and metrics are not
carried. -/
structure ContinuousBatchingImpl (G B W : Type) where
  m_requests : List G
  m_awaiting_requests : List G
  m_scheduler : Scheduler B
  m_is_validation_mode_enabled : Bool
  world : W
  calls : List PipelineCall
  reaped : List G

section PipelineModel

variable {G B W : Type} (gops : SequenceGroupOps G) (bops : BlockManagerOps B G)
  (pops : PipelineOps G W)

/-- Embedding of `ContinuousBatchingImpl::_pull_awaiting_requests` (lines 44-51) on the
pipeline state. -/
def pull_awaiting_requests (p : ContinuousBatchingImpl G B W) : ContinuousBatchingImpl G B W :=
  let q := _pull_awaiting_requests gops.pause_generation ⟨p.m_requests, p.m_awaiting_requests⟩
  { p with m_requests := q.m_requests, m_awaiting_requests := q.m_awaiting_requests }

/-- The test of line 304: the request is to be erased. -/
def non_running (request : G) : Bool :=
  gops.has_finished request || gops.out_of_memory request || gops.handle_dropped request

/-- Lines 305-310: free the block tables of the sequences of an erased
request. -/
def free_request_sequences (m_block_manager : B) (request : G) : B :=
  (gops.get_sequences request).foldl
    (fun bm seq_id => if bops.has_block_table bm seq_id then bops.free_sequence bm seq_id else bm)
    m_block_manager

/-- Embedding of `ContinuousBatchingImpl::_free_non_running_requests` (lines 300-316). -/
def _free_non_running_requests (p : ContinuousBatchingImpl G B W) :
    ContinuousBatchingImpl G B W :=
  p.m_requests.foldl
    (fun p request =>
      if non_running gops request then
        { p with
          m_scheduler := { p.m_scheduler with
            m_block_manager := free_request_sequences gops bops p.m_scheduler.m_block_manager
              request }
          world := pops.clear_beam_search_info p.world (gops.get_request_id request)
          reaped := p.reaped ++ [request] }
      else { p with m_requests := p.m_requests ++ [request] })
    { p with m_requests := [] }

/-- Lines 121-125 of `step`: every request is marked out of memory and its
handle notified. -/
def mark_out_of_memory (requests : List G) : List G :=
  requests.map (fun sequence_group => gops.notify_handle (gops.set_out_of_memory sequence_group))

/-- Embedding of `ContinuousBatchingImpl::_notify_requests_dropped_by_handle`
(lines 318-325). -/
def _notify_requests_dropped_by_handle (requests : List G) : List G :=
  requests.map (fun request =>
    if gops.handle_dropped request then gops.push_empty_outputs request else request)

/-- Index of the first request that has the sequence (`std::find_if` of
line 356). -/
def find_group_with_sequence (requests : List G) (seq_id : Nat) : Option Nat :=
  (List.range requests.length).find? (fun i =>
    match requests[i]? with
    | some g => gops.has_sequence_with_id g seq_id
    | none => false)

/-- The first loop of `maybe_evict_cache_blocks` (lines 341-367), over the
attention scores of the sequences.  `evicted` is
`seq_group_to_num_blocks_evicted_map`, keyed by the index of the group and
kept in insertion order (the iteration order of the `unordered_map` is not
fixed by the source). -/
def evict_sequences (block_size : Nat) (requests : List G) :
    List (Nat × pops.Scores) → W × B × List (Nat × Nat) →
      Except Error (W × B × List (Nat × Nat))
  | [], acc => .ok acc
  | (seq_id, scores) :: rest, (world, bm, evicted) =>
    let r := pops.evict_logical_blocks world block_size seq_id scores
    let logical_blocks_to_evict := r.2
    let bm := bops.free_blocks_from_sequence bm seq_id logical_blocks_to_evict
    match find_group_with_sequence gops requests seq_id with
    | none => .error .assertion_failed
    | some group =>
      match logical_blocks_to_evict[0]? with
      | none => .error .out_of_range
      | some layer0 =>
        let num_blocks_evicted := layer0.length
        match evicted.find? (fun e => e.1 == group) with
        | some e =>
          if e.2 = num_blocks_evicted then
            evict_sequences block_size requests rest (r.1, bm, evicted)
          else .error .assertion_failed
        | none =>
          evict_sequences block_size requests rest
            (r.1, bm, evicted ++ [(group, num_blocks_evicted)])

/-- Embedding of `ContinuousBatchingImpl::maybe_evict_cache_blocks` (lines 338-374). -/
def maybe_evict_cache_blocks (p : ContinuousBatchingImpl G B W) :
    Except Error (ContinuousBatchingImpl G B W) :=
  let sched_config := p.m_scheduler.m_config
  match evict_sequences gops bops pops sched_config.block_size p.m_requests
      (pops.get_last_attention_scores p.world) (p.world, p.m_scheduler.m_block_manager, []) with
  | .error e => .error e
  | .ok (world, bm, evicted) =>
    .ok { p with
      world := world
      m_scheduler := { p.m_scheduler with m_block_manager := bm }
      m_requests := evicted.foldl
        (fun requests e =>
          match requests[e.1]? with
          | some g =>
            requests.set e.1
              (gops.register_token_eviction g (size_mul e.2 sched_config.block_size))
          | none => requests)
        p.m_requests }

/-- Lines 208-220 of `step`: the loop that decides whether the `while` loop
goes on.  It stops at the first request that is not a speculative-decoding
one. -/
def continue_generation (iteration_number : Nat) : List G → Bool → List G × Bool
  | [], to_generate => ([], to_generate)
  | request :: rest, to_generate =>
    if !gops.is_speculative_decoding request then (request :: rest, false)
    else
      let request :=
        if gops.is_constant_schedule request &&
            decide (gops.num_assistant_tokens request ≤ iteration_number) then
          gops.pause_generation request true
        else request
      let r := continue_generation iteration_number rest
        (to_generate || gops.can_generate_tokens request)
      (request :: r.1, r.2)

/-- Lines 187-195 of `step`: the forks and drops of the sampler are applied
to the block manager. -/
def apply_sampler_output (m_block_manager : B) (sampler_output : SamplerOutput) : B :=
  let bm := sampler_output.m_forked_sequences.foldl
    (fun bm pair => pair.2.foldl (fun bm child_id => bops.fork_sequence bm pair.1 child_id) bm)
    m_block_manager
  sampler_output.m_dropped_sequences.foldl (fun bm seq_id => bops.free_sequence bm seq_id) bm

/-- The `while (to_generate)` loop of `step` (lines 103-222) followed by the
final `_free_non_running_requests`, entered with `to_generate` true.
`fuel` bounds the number of times the body runs and `sched_fuel` is handed
to `schedule`. -/
def step_loop (sched_fuel : Nat) :
    Nat → Nat → ContinuousBatchingImpl G B W → Except Error (ContinuousBatchingImpl G B W)
  | 0, _, _ => .error .out_of_fuel
  | fuel + 1, iteration_number, p =>
    match schedule gops bops sched_fuel p.m_scheduler p.m_requests with
    | .error e => .error e
    | .ok st =>
      let scheduler_output := st.scheduler_output
      let p := { p with
        m_scheduler := st.self
        m_requests := st.sequence_groups
        world := pops.copy_blocks p.world scheduler_output.m_block_copy_map
        calls := p.calls ++ [PipelineCall.copy_blocks] }
      -- if no tokens were scheduled, we are out of memory
      if scheduler_output.m_total_num_scheduled_tokens = 0 then
        .ok (_free_non_running_requests gops bops pops
          { p with m_requests := mark_out_of_memory gops p.m_requests })
      else
        let fwd := pops.forward p.world p.m_requests scheduler_output
        let logits := fwd.2
        let p := { p with world := fwd.1, calls := p.calls ++ [PipelineCall.forward] }
        -- evict unimportant blocks from KV cache, if requested
        let evicted :=
          if p.m_scheduler.m_config.use_cache_eviction then
            maybe_evict_cache_blocks gops bops pops p
          else .ok p
        match evicted with
        | .error e => .error e
        | .ok p =>
          let sampled := pops.sample p.world p.m_requests logits p.m_is_validation_mode_enabled
          let sampler_output := sampled.2.2
          let p := { p with
            world := sampled.1
            m_requests := sampled.2.1
            calls := p.calls ++ [PipelineCall.sample] }
          -- process sampler_output (e.g. fork or drop sequences from BlockScheduler)
          let p := { p with
            m_scheduler := { p.m_scheduler with
              m_block_manager :=
                apply_sampler_output bops p.m_scheduler.m_block_manager sampler_output } }
          -- notify requests dropped by handle
          let p := { p with m_requests := _notify_requests_dropped_by_handle gops p.m_requests }
          let r := continue_generation gops iteration_number p.m_requests false
          let p := { p with m_requests := r.1 }
          if r.2 then step_loop sched_fuel fuel (iteration_number + 1) p
          else
            -- free non running requests for current step
            .ok (_free_non_running_requests gops bops pops p)

/-- Embedding of `ContinuousBatchingImpl::step` (lines 91-234). -/
def step (sched_fuel fuel : Nat) (p : ContinuousBatchingImpl G B W) :
    Except Error (ContinuousBatchingImpl G B W) :=
  -- Pull awaiting requests
  step_loop gops bops pops sched_fuel fuel 0 (pull_awaiting_requests gops p)

end PipelineModel

/-- Sample collaborators: the world counts the calls that change it, the
sampler finishes nothing and asks for no fork or drop. -/
def sample_pops : PipelineOps SampleGroup Nat where
  Logits := Unit
  Scores := List (List Nat)
  copy_blocks w _ := w + 1
  forward w _ _ := (w + 1, ())
  get_last_attention_scores _ := []
  evict_logical_blocks w _ _ scores := (w + 1, scores)
  sample w requests _ _ := (w + 1, requests, ⟨[], []⟩)
  clear_beam_search_info w _ := w + 1

/-- A sample pipeline with no free block, two awaiting requests and none
active. -/
def sample_pipeline : ContinuousBatchingImpl SampleGroup SampleBlocks Nat :=
  { m_requests := []
    m_awaiting_requests := [{ request_id := 0, prompt_len := 5 }, { request_id := 1, prompt_len := 3 }]
    m_scheduler :=
      { m_can_use_partial_preemption := true, m_config := sample_config false,
        m_block_manager := ⟨4, 0, []⟩ }
    m_is_validation_mode_enabled := false
    world := 0
    calls := []
    reaped := [] }

/-- A request that has processed its 5 prompt tokens, holds 2 blocks and
has one token to generate. -/
def sample_generating : SampleGroup :=
  { request_id := 0, prompt_len := 5, generated_len := 1, num_processed_tokens := 5,
    num_blocks := 2 }

/-- A split-fuse scheduler in which request 0 holds 2 of the 8 blocks. -/
def sample_generating_scheduler : Scheduler SampleBlocks :=
  { m_can_use_partial_preemption := true, m_config := sample_config true,
    m_block_manager := ⟨4, 6, [(0, 2)]⟩ }

/-- A request without any processed token that was given one token to process. -/
def sample_unprocessed : SampleGroup :=
  { request_id := 0, prompt_len := 0, num_scheduled_tokens := 1 }

/-- A scheduler whose block manager has no free block and no block table. -/
def sample_exhausted_scheduler : Scheduler SampleBlocks :=
  { m_can_use_partial_preemption := true, m_config := sample_config true,
    m_block_manager := ⟨4, 0, []⟩ }

/-- The value of `tokens_in_last_block` after lines 143-146 of `scheduler.hpp`. -/
def tokens_in_last_block (processed_tokens block_size : Nat) : Nat :=
  if processed_tokens % block_size = 0 then block_size else processed_tokens % block_size

/-- The value given to `preempted_tokens` by line 147 of `scheduler.hpp`:
`tokens_in_last_block + std::max<size_t>((int)logical_blocks_released - 1, 0) * block_size`. -/
def partial_preempted_tokens (processed_tokens block_size logical_blocks_released : Nat) : Nat :=
  size_add (tokens_in_last_block processed_tokens block_size)
    (size_mul (max (to_size_t (to_int logical_blocks_released - 1)) 0) block_size)

/-- The partial free of lines 135-141 of `scheduler.hpp`: the block manager
it leaves and the number of logical blocks released. -/
def partial_free {G B : Type} (gops : SequenceGroupOps G) (bops : BlockManagerOps B G)
    (bm : B) (sequence_group : G) (blocks_needed : Nat) : B × Nat :=
  if gops.is_beam_search sequence_group then
    bops.free_partially_beam_search_group bm sequence_group blocks_needed
  else bops.free_group_partially bm sequence_group blocks_needed

/-- The loop of lines 122-126 of `scheduler.hpp`: `free_sequence` on every listed sequence. -/
def free_sequences {G B : Type} (bops : BlockManagerOps B G) (bm : B) (seq_ids : List Nat) : B :=
  seq_ids.foldl (fun bm seq_id => bops.free_sequence bm seq_id) bm

/-- The loop of lines 153-158 of `scheduler.hpp`: `free_sequence` on every
listed sequence that has a block table when its turn comes. -/
def free_sequences_with_table {G B : Type} (bops : BlockManagerOps B G) (bm : B)
    (seq_ids : List Nat) : B :=
  seq_ids.foldl (fun bm seq_id => if bops.has_block_table bm seq_id then
    bops.free_sequence bm seq_id else bm) bm

/-- The test of line 121 of `scheduler.hpp` that selects the full recompute. -/
def full_recompute {G B : Type} (gops : SequenceGroupOps G) (bops : BlockManagerOps B G)
    (self : Scheduler B) (sequence_group : G) (blocks_needed : Nat) : Bool :=
  decide (bops.get_number_of_blocks_occupied_by_sequence self.m_block_manager sequence_group
      ≤ blocks_needed) || !self.m_can_use_partial_preemption
    || (gops.get_num_evicted_tokens sequence_group != 0)

/-- The test of line 150 of `scheduler.hpp`: the partial preemption would
leave a partially processed prompt under the vLLM policy. -/
def prompt_fallback {G B : Type} (gops : SequenceGroupOps G) (bops : BlockManagerOps B G)
    (self : Scheduler B) (sequence_group : G) (blocks_needed : Nat) : Bool :=
  !self.m_config.dynamic_split_fuse &&
    decide (size_sub (gops.get_num_processed_tokens sequence_group)
      (partial_preempted_tokens (gops.get_num_processed_tokens sequence_group)
        self.m_config.block_size
        (partial_free gops bops self.m_block_manager sequence_group blocks_needed).2)
      < gops.get_prompt_len sequence_group)

/-- The block manager left by the partial branch (lines 135-158 of `scheduler.hpp`). -/
def partial_block_manager {G B : Type} (gops : SequenceGroupOps G) (bops : BlockManagerOps B G)
    (self : Scheduler B) (sequence_group : G) (blocks_needed : Nat) : B :=
  if prompt_fallback gops bops self sequence_group blocks_needed then
    free_sequences_with_table bops
      (partial_free gops bops self.m_block_manager sequence_group blocks_needed).1
      (gops.get_not_finished_sequences sequence_group)
  else (partial_free gops bops self.m_block_manager sequence_group blocks_needed).1

/-- The argument of `preempt_tokens` in the partial branch (line 160 of `scheduler.hpp`). -/
def partial_amount {G B : Type} (gops : SequenceGroupOps G) (bops : BlockManagerOps B G)
    (self : Scheduler B) (sequence_group : G) (blocks_needed : Nat) : Nat :=
  if prompt_fallback gops bops self sequence_group blocks_needed then
    gops.get_num_processed_tokens sequence_group
  else partial_preempted_tokens (gops.get_num_processed_tokens sequence_group)
    self.m_config.block_size
    (partial_free gops bops self.m_block_manager sequence_group blocks_needed).2

/-- Two requests of 4 prompt tokens; request 1 has processed its prompt and
holds one block. -/
def sample_victims : List SampleGroup :=
  [{ request_id := 0, prompt_len := 4, num_processed_tokens := 4, num_scheduled_tokens := 1 },
   { request_id := 1, prompt_len := 4, num_processed_tokens := 4 }]

/-- A scheduler under the given policy whose 2 blocks are held by requests 0 and 1. -/
def sample_full_scheduler (dynamic_split_fuse : Bool) : Scheduler SampleBlocks :=
  { m_can_use_partial_preemption := true, m_config := sample_config dynamic_split_fuse,
    m_block_manager := ⟨4, 0, [(0, 1), (1, 1)]⟩ }

/-- Request 1 has processed 4 prompt tokens and 7 generated ones and holds 3 blocks. -/
def sample_long_victims : List SampleGroup :=
  [{ request_id := 0, prompt_len := 4, num_processed_tokens := 4, num_scheduled_tokens := 1 },
   { request_id := 1, prompt_len := 4, generated_len := 8, num_processed_tokens := 11 }]

/-- A scheduler under the given policy whose 4 blocks are held by requests 0 (1 block)
and 1 (3 blocks). -/
def sample_long_scheduler (dynamic_split_fuse : Bool) : Scheduler SampleBlocks :=
  { m_can_use_partial_preemption := true, m_config := sample_config dynamic_split_fuse,
    m_block_manager := ⟨4, 0, [(0, 1), (1, 3)]⟩ }

/-- Request 1 has processed its 6 prompt tokens and 3 generated ones. -/
def sample_prompt_victims : List SampleGroup :=
  [{ request_id := 0, prompt_len := 4, num_processed_tokens := 4, num_scheduled_tokens := 1 },
   { request_id := 1, prompt_len := 6, generated_len := 4, num_processed_tokens := 9 }]

/-- Modelled from the spec: a block manager after §4.1 with one layer, `num_blocks` physical blocks
and, for each sequence, the list of the physical blocks of its table.  A
block can be in several tables (after `fork_sequence`, or a cached prefix);
its reference count is the number of table entries that name it and the
free blocks are those with count 0.  Copy-on-write is left out. -/
structure SharedBlocks where
  block_size : Nat
  num_blocks : Nat
  tables : List (Nat × List Nat)
  deriving DecidableEq, Repr

/-- The block table of a sequence, empty when it has none. -/
def SharedBlocks.table_of (b : SharedBlocks) (seq_id : Nat) : List Nat :=
  match b.tables.find? (fun e => e.1 == seq_id) with
  | some e => e.2
  | none => []

/-- Number of table entries that name a physical block. -/
def SharedBlocks.ref_count (b : SharedBlocks) (block : Nat) : Nat :=
  (b.tables.map (fun e => e.2.count block)).sum

/-- The physical blocks that no table names. -/
def SharedBlocks.free_list (b : SharedBlocks) : List Nat :=
  (List.range b.num_blocks).filter (fun block => b.ref_count block == 0)

/-- Blocks a request still needs for its processed and scheduled tokens. -/
def SharedBlocks.required (b : SharedBlocks) (g : SampleGroup) : Nat :=
  (g.num_processed_tokens + g.num_scheduled_tokens + b.block_size - 1) / b.block_size
    - (b.table_of g.request_id).length

/-- Replace the block table of a sequence. -/
def SharedBlocks.set_table (b : SharedBlocks) (seq_id : Nat) (table : List Nat) : SharedBlocks :=
  { b with tables := map_assign b.tables seq_id table }

/-- Drop the latest logical blocks of a request, at most `blocks_needed` of
them and never the first one; the second component counts the blocks dropped. -/
def SharedBlocks.drop_tail (b : SharedBlocks) (g : SampleGroup) (blocks_needed : Nat) :
    SharedBlocks × Nat :=
  let table := b.table_of g.request_id
  let released := min blocks_needed (table.length - 1)
  (b.set_table g.request_id (table.take (table.length - released)), released)

/-- Modelled from the spec: the methods of a `SharedBlocks`, after §4.1. -/
def shared_bops : BlockManagerOps SharedBlocks SampleGroup where
  num_free_blocks b := b.free_list.length
  can_allocate_blocks b n := decide (n ≤ b.free_list.length)
  can_append_slots b g := decide (b.required g ≤ b.free_list.length)
  required_blocks_count b g := b.required g
  get_number_of_blocks_occupied_by_sequence b g := (b.table_of g.request_id).length
  has_block_table b seq_id := (b.tables.find? (fun e => e.1 == seq_id)).isSome
  get_block_tables b seq_id := [b.table_of seq_id]
  allocate b seq_id n _ := b.set_table seq_id (b.table_of seq_id ++ b.free_list.take n)
  append_slots b g :=
    (b.set_table g.request_id (b.table_of g.request_id ++ b.free_list.take (b.required g)), [])
  free_sequence b seq_id := { b with tables := b.tables.filter (fun e => e.1 != seq_id) }
  fork_sequence b parent_id child_id := b.set_table child_id (b.table_of parent_id)
  free_group_partially b g n := b.drop_tail g n
  free_partially_beam_search_group b g n := b.drop_tail g n
  free_blocks_from_sequence b seq_id per_layer :=
    b.set_table seq_id (((b.table_of seq_id).enum.filter
      (fun e => !(per_layer.headD []).contains e.1)).map (fun e => e.2))

/-- Two requests that have processed the same 8 prompt tokens; request 0 was
given one more token to process. -/
def sample_sharing : List SampleGroup :=
  [{ request_id := 0, prompt_len := 8, num_processed_tokens := 8, num_scheduled_tokens := 1 },
   { request_id := 1, prompt_len := 8, num_processed_tokens := 8 }]

/-- A split-fuse scheduler with 2 blocks of 4 tokens, both of them in the
tables of requests 0 and 1. -/
def sample_sharing_scheduler : Scheduler SharedBlocks :=
  { m_can_use_partial_preemption := true, m_config := sample_config true,
    m_block_manager := ⟨4, 2, [(0, [0, 1]), (1, [0, 1])]⟩ }

section EvictionModel

variable {G B W : Type} (gops : SequenceGroupOps G) (pops : PipelineOps G W)

/-- What lines 341-358 of `continuous_batching_impl.cpp` compute for each
sequence with attention scores, in the order of the scores: the index of the
group found by `std::find_if` (`none` when no request has the sequence) and
`logical_blocks_to_evict[0].size()` (`none` when there is no layer 0). -/
def scored_evictions (block_size : Nat) (requests : List G) :
    List (Nat × pops.Scores) → W → List (Option Nat × Option Nat)
  | [], _ => []
  | (seq_id, scores) :: rest, world =>
    let r := pops.evict_logical_blocks world block_size seq_id scores
    (find_group_with_sequence gops requests seq_id, (r.2[0]?).map List.length)
      :: scored_evictions block_size requests rest r.1

/-- The second loop of `maybe_evict_cache_blocks` (lines 368-373). -/
def notify_evictions (block_size : Nat) (requests : List G) (evicted : List (Nat × Nat)) :
    List G :=
  evicted.foldl
    (fun requests e =>
      match requests[e.1]? with
      | some g => requests.set e.1 (gops.register_token_eviction g (size_mul e.2 block_size))
      | none => requests)
    requests

end EvictionModel

/-- Sample collaborators whose world is the list of attention scores of the
last forward pass; the scores of a sequence are, for each layer, the logical
blocks that its eviction algorithm gives up. -/
def scored_pops : PipelineOps SampleGroup (List (Nat × List (List Nat))) where
  Logits := Unit
  Scores := List (List Nat)
  copy_blocks w _ := w
  forward w _ _ := (w, ())
  get_last_attention_scores w := w
  evict_logical_blocks w _ _ scores := (w, scores)
  sample w requests _ _ := (w, requests, ⟨[], []⟩)
  clear_beam_search_info w _ := w

/-- A pipeline with two active requests; the last forward pass left scores
for sequence 0, whose eviction algorithm gives up logical block 1. -/
def sample_scored_pipeline :
    ContinuousBatchingImpl SampleGroup SampleBlocks (List (Nat × List (List Nat))) :=
  { m_requests := [{ request_id := 0, prompt_len := 4, generated_len := 9,
                     num_processed_tokens := 12 },
                   { request_id := 1, prompt_len := 4, num_processed_tokens := 4 }]
    m_awaiting_requests := []
    m_scheduler :=
      { m_can_use_partial_preemption := true, m_config := sample_config true,
        m_block_manager := ⟨4, 4, [(0, 3), (1, 1)]⟩ }
    m_is_validation_mode_enabled := false
    world := [(0, [[1]])]
    calls := []
    reaped := [] }

/-! ## The speculative-decoding step: acceptance metrics -/

/-- The struct `UpdateRequestResult` as `SpeculativeDecodingImpl::step` uses
it: two `size_t` counters, zero in a value-initialised entry. -/
structure UpdateRequestResult where
  inserted_tokens_cnt : Nat := 0
  removed_tokens_cnt : Nat := 0
  deriving DecidableEq, Repr

/-- The calls that lines 226-227 of `speculative_decoding_impl.cpp` make to
`m_sd_metrics`, with their arguments.  The `float` argument is carried as a
rational: the arithmetic of line 225 is taken without rounding. -/
inductive MetricsCall where
  | update_acceptance_rate (request_id : Nat) (acceptance_rate : Rat)
  | update_draft_accepted_tokens (request_id : Nat) (num_matches : Nat)
  deriving DecidableEq, Repr

/-- What the loop of lines 207-228 of `speculative_decoding_impl.cpp` reads
and writes: the map `update_sequence_info`, the requests handed to
`m_draft_pipeline->finish_request` (and erased from `m_draft_generations`),
and the calls made to `m_sd_metrics`. -/
structure AcceptanceState where
  update_sequence_info : List (Nat × UpdateRequestResult)
  finished_drafts : List Nat
  metrics : List MetricsCall
  deriving DecidableEq, Repr

/-- The entry `update_sequence_info[request_id]` of a `std::map`, which is
value-initialised when the key is new. -/
def info_at (m : List (Nat × UpdateRequestResult)) (request_id : Nat) : UpdateRequestResult :=
  match m.find? (fun e => e.1 == request_id) with
  | some e => e.2
  | none => {}

/-- One iteration of the loop of lines 207-228 of
`speculative_decoding_impl.cpp`, for the draft request `request_id`;
`main_generated_requests` holds the ids of the requests the main pipeline
still generates. -/
def record_acceptance (main_generated_requests : List Nat) (request_id : Nat)
    (st : AcceptanceState) : AcceptanceState :=
  let st :=
    if !main_generated_requests.contains request_id then
      { st with finished_drafts := st.finished_drafts ++ [request_id] }
    else st
  let updated_seq_info := info_at st.update_sequence_info request_id
  let st := { st with
    update_sequence_info := map_assign st.update_sequence_info request_id updated_seq_info }
  -- several prompt phase
  if updated_seq_info.inserted_tokens_cnt = 0 then st
  else
    let acceptance_rate : Rat :=
      1 - (updated_seq_info.removed_tokens_cnt : Rat)
        / (updated_seq_info.inserted_tokens_cnt : Rat)
    { st with metrics := st.metrics ++
        [MetricsCall.update_acceptance_rate request_id (acceptance_rate * 100),
         MetricsCall.update_draft_accepted_tokens request_id
          (size_sub updated_seq_info.inserted_tokens_cnt updated_seq_info.removed_tokens_cnt)] }

/-- The loop of lines 207-228 of `speculative_decoding_impl.cpp` over the
ids of `draft_generated_requests`. -/
def record_acceptances (main_generated_requests : List Nat) (draft_generated_requests : List Nat)
    (st : AcceptanceState) : AcceptanceState :=
  draft_generated_requests.foldl
    (fun st request_id => record_acceptance main_generated_requests request_id st) st

/-- A candidate for sequence 0 of request 7 with the given ids and log-probs. -/
def sample_scored_candidate (ids : List Int) (log_probs : List Rat) : GeneratedSequence :=
  ⟨7, 0, ids, log_probs⟩

/-! ## `generate` (`continuous_batching_impl.cpp`, lines 236-296) -/

/-- An `ov::Tensor` of input ids as `generate` reads it: its shape and its data. -/
structure Tensor where
  shape : List Nat
  data : List Int
  deriving DecidableEq, Repr

/-- The struct `GenerationOutput` as `generate` reads it. -/
structure GenerationOutput where
  generated_ids : List Int
  score : Rat
  deriving DecidableEq, Repr

/-- The struct `EncodedGenerationResult` as `generate` fills it. -/
structure EncodedGenerationResult (Status : Type) where
  m_request_id : Nat
  m_generation_ids : List (List Int)
  m_scores : List Rat
  m_status : Status

/-- The collaborators of `add_request` and `generate` whose code is not among
the sources: the sampling parameters, the constructor of `SequenceGroup`, the
prefix cache, the generation handle of a request (read through the request it
belongs to) and the streamer. -/
structure RequestOps (G B : Type) where
  SamplingParams : Type
  Status : Type
  Streamer : Type
  /-- Stands for `sampling_params.set_eos_token_id(m_tokenizer.get_eos_token_id())` -/
  set_eos_token_id : SamplingParams → SamplingParams
  /-- Stands for `sampling_params.validate()`: false when it throws -/
  validate : SamplingParams → Bool
  num_return_sequences : SamplingParams → Nat
  /-- Stands for `SequenceGroup(request_id, input_ids, sampling_params, block_size,
  enable_prefix_caching)` -/
  make_sequence_group : Nat → Tensor → SamplingParams → Nat → Bool → G
  /-- Stands for `m_scheduler->restore_cached_blocks(sequence_group)` -/
  restore_cached_blocks : B → G → B × G
  /-- Stands for `generation->back()` on the handle of the request -/
  back : G → List (Nat × GenerationOutput)
  /-- Stands for `generation->read_all()` on the handle of the request -/
  read_all : G → List GenerationOutput
  /-- Stands for `generation->get_status()` on the handle of the request -/
  get_status : G → Status
  /-- Stands for `streamer_ptr->put(token)`: the streamer afterwards and the returned flag -/
  put : Streamer → Int → Streamer × Bool
  /-- Stands for `streamer_ptr->end()` -/
  end_stream : Streamer → Streamer

/-- How a call of `generate` ends: an exception before the step loop, with
the pipeline as it is then; an exception from the step loop or later; or the
returned results with the pipeline and the streamer left behind. -/
inductive GenerateResult (G B W : Type) (Status Streamer : Type) where
  | rejected (e : Error) (p : ContinuousBatchingImpl G B W)
  | failed (e : Error)
  | returned (p : ContinuousBatchingImpl G B W) (streamer : Option Streamer)
      (results : List (EncodedGenerationResult Status))

/-- The two pipelines of `SpeculativeDecodingImpl`. -/
structure SpeculativeDecodingImpl (G B W : Type) where
  m_main_pipeline : ContinuousBatchingImpl G B W
  m_draft_pipeline : ContinuousBatchingImpl G B W

section GenerateModel

variable {G B W : Type} (gops : SequenceGroupOps G) (bops : BlockManagerOps B G)
  (pops : PipelineOps G W) (rops : RequestOps G B)

/-- Embedding of `ContinuousBatchingImpl::has_non_finished_requests` (lines 86-89). -/
def has_non_finished_requests (p : ContinuousBatchingImpl G B W) : Bool :=
  !p.m_awaiting_requests.isEmpty || !p.m_requests.isEmpty

/-- Embedding of `ContinuousBatchingImpl::add_request` (lines 53-73); the
returned handle is the request itself, found again by its id. -/
def add_request (p : ContinuousBatchingImpl G B W) (request_id : Nat) (input_ids : Tensor)
    (sampling_params : rops.SamplingParams) : Except Error (ContinuousBatchingImpl G B W) :=
  let sampling_params := rops.set_eos_token_id sampling_params
  if !rops.validate sampling_params then .error .assertion_failed
  else
    let sequence_group := rops.make_sequence_group request_id input_ids sampling_params
      p.m_scheduler.m_config.block_size p.m_scheduler.m_config.enable_prefix_caching
    let restored :=
      if p.m_scheduler.m_config.enable_prefix_caching then
        rops.restore_cached_blocks p.m_scheduler.m_block_manager sequence_group
      else (p.m_scheduler.m_block_manager, sequence_group)
    .ok { p with
      m_scheduler := { p.m_scheduler with m_block_manager := restored.1 }
      m_awaiting_requests := p.m_awaiting_requests ++ [restored.2] }

/-- The loop of lines 253-257 of `generate`, with `n` requests still to add;
it returns the pipeline it leaves and the exception that stopped it, if any. -/
def add_requests (input_ids : List Tensor) (sampling_params : List rops.SamplingParams) :
    Nat → Nat → ContinuousBatchingImpl G B W → ContinuousBatchingImpl G B W × Option Error
  | 0, _, p => (p, none)
  | n + 1, request_id, p =>
    match input_ids[request_id]?, sampling_params[request_id]? with
    | some tensor, some params =>
      match tensor.shape[0]? with
      | none => (p, some .out_of_range)
      | some batch =>
        if 1 ≠ batch then (p, some .assertion_failed)
        else
          match add_request rops p request_id tensor params with
          | .error e => (p, some e)
          | .ok p => add_requests input_ids sampling_params n (request_id + 1) p
    | _, _ => (p, some .out_of_range)

/-- The request behind the generation handle of `request_id`: it is awaiting,
active, or among the requests erased since `generate` was entered (those of
`reaped` from index `first_reaped` on). -/
def handle_group (p : ContinuousBatchingImpl G B W) (first_reaped request_id : Nat) : Option G :=
  (p.m_awaiting_requests ++ p.m_requests ++ p.reaped.drop first_reaped).find?
    (fun g => gops.get_request_id g == request_id)

/-- Lines 266-271 of `generate`: the last token of the first generation is
handed to the streamer, whose answer decides whether the loop goes on. -/
def stream_token (p : ContinuousBatchingImpl G B W) (first_reaped : Nat)
    (streamer : rops.Streamer) : Except Error (rops.Streamer × Bool) :=
  match handle_group gops p first_reaped 0 with
  | none => .error .out_of_range
  | some generation =>
    let token := rops.back generation
    match token with
    | [entry] =>
      match entry.2.generated_ids with
      | [id] =>
        let r := rops.put streamer id
        .ok (r.1, !r.2)
      | _ => .error .assertion_failed
    | _ => .error .assertion_failed

/-- The `while` loop of lines 264-272 of `generate`, entered with
`continue_generation` true; `fuel` bounds the number of steps and the other
two bounds are handed to `step`. -/
def generate_loop (sched_fuel step_fuel first_reaped : Nat) :
    Nat → ContinuousBatchingImpl G B W → Option rops.Streamer →
      Except Error (ContinuousBatchingImpl G B W × Option rops.Streamer)
  | fuel, p, streamer =>
    if has_non_finished_requests p then
      match fuel with
      | 0 => .error .out_of_fuel
      | fuel + 1 =>
        match step gops bops pops sched_fuel step_fuel p with
        | .error e => .error e
        | .ok p =>
          match streamer with
          | none => generate_loop sched_fuel step_fuel first_reaped fuel p none
          | some s =>
            match stream_token gops rops p first_reaped s with
            | .error e => .error e
            | .ok (s, continue_generation) =>
              if continue_generation then
                generate_loop sched_fuel step_fuel first_reaped fuel p (some s)
              else .ok (p, some s)
    else .ok (p, streamer)

/-- The body of the loop of lines 277-292 of `generate`: the result of one
generation.  `std::sort` is taken to keep the order of outputs with equal
scores. -/
def generation_result (p : ContinuousBatchingImpl G B W) (first_reaped : Nat)
    (sampling_params : List rops.SamplingParams) (generation_idx : Nat) :
    Except Error (EncodedGenerationResult rops.Status) :=
  match handle_group gops p first_reaped generation_idx, sampling_params[generation_idx]? with
  | some generation, some params =>
    let generation_outputs := (rops.read_all generation).mergeSort
      (fun r1 r2 => decide (r1.score ≥ r2.score))
    let num_outputs := min (rops.num_return_sequences params) generation_outputs.length
    let chosen := generation_outputs.take num_outputs
    .ok { m_request_id := 1
          m_generation_ids := chosen.map (fun o => o.generated_ids)
          m_scores := chosen.map (fun o => o.score)
          m_status := rops.get_status generation }
  | _, _ => .error .out_of_range

/-- The loop of lines 277-292 of `generate` over the generation handles. -/
def generation_results (p : ContinuousBatchingImpl G B W) (first_reaped : Nat)
    (sampling_params : List rops.SamplingParams) :
    List Nat → Except Error (List (EncodedGenerationResult rops.Status))
  | [] => .ok []
  | generation_idx :: rest =>
    match generation_result gops rops p first_reaped sampling_params generation_idx with
    | .error e => .error e
    | .ok result =>
      match generation_results p first_reaped sampling_params rest with
      | .error e => .error e
      | .ok results => .ok (result :: results)

/-- Embedding of `ContinuousBatchingImpl::generate` (lines 236-296).  `fuel`
bounds the number of steps of the loop and the other two bounds are handed
to `step`; `streamer` is `streamer_ptr`, `none` for a null pointer. -/
def generate (sched_fuel step_fuel fuel : Nat) (p : ContinuousBatchingImpl G B W)
    (input_ids : List Tensor) (sampling_params : List rops.SamplingParams)
    (streamer : Option rops.Streamer) : GenerateResult G B W rops.Status rops.Streamer :=
  if has_non_finished_requests p then .rejected .assertion_failed p
  else if input_ids.length ≠ sampling_params.length then .rejected .assertion_failed p
  else
    match add_requests rops input_ids sampling_params input_ids.length 0 p with
    | (p, some e) => .rejected e p
    | (p, none) =>
      let first_reaped := p.reaped.length
      match generate_loop gops bops pops rops sched_fuel step_fuel first_reaped fuel p
          streamer with
      | .error e => .failed e
      | .ok (p, streamer) =>
        let streamer := streamer.map rops.end_stream
        match generation_results gops rops p first_reaped sampling_params
            (List.range input_ids.length) with
        | .error e => .failed e
        | .ok results =>
          if results.length ≠ input_ids.length then .failed .assertion_failed
          else .returned p streamer results

/-- Embedding of `SpeculativeDecodingImpl::has_non_finished_requests`
(`speculative_decoding_impl.cpp`, lines 114-116). -/
def SpeculativeDecodingImpl.has_non_finished_requests (sd : SpeculativeDecodingImpl G B W) :
    Bool :=
  OvGenai.has_non_finished_requests sd.m_main_pipeline

/-- The two assertions that open `SpeculativeDecodingImpl::generate`
(`speculative_decoding_impl.cpp`, lines 256-257), before any request is
added to either pipeline. -/
def SpeculativeDecodingImpl.generate_entry (sd : SpeculativeDecodingImpl G B W)
    (num_input_ids num_sampling_params : Nat) : Except Error Unit :=
  if sd.has_non_finished_requests then .error .assertion_failed
  else if num_input_ids ≠ num_sampling_params then .error .assertion_failed
  else .ok ()

end GenerateModel

/-- Sample collaborators of `generate`: the sampling parameters are the
number of sequences to return, every request has prompt length equal to the
length of its input and no output to read. -/
def sample_rops : RequestOps SampleGroup SampleBlocks where
  SamplingParams := Nat
  Status := Bool
  Streamer := List Int
  set_eos_token_id params := params
  validate params := decide (0 < params)
  num_return_sequences params := params
  make_sequence_group request_id input_ids _ _ _ :=
    { request_id := request_id, prompt_len := input_ids.data.length }
  restore_cached_blocks b g := (b, g)
  back _ := []
  read_all _ := []
  get_status g := g.finished
  put s token := (s ++ [token], false)
  end_stream s := s

/-- A request that has processed its 4 prompt tokens in the one block it holds. -/
def sample_blocked : SampleGroup :=
  { request_id := 0, prompt_len := 4, generated_len := 1, num_processed_tokens := 4 }

/-- A split-fuse scheduler whose only block is held by request 0. -/
def sample_blocked_scheduler : Scheduler SampleBlocks :=
  { m_can_use_partial_preemption := true, m_config := sample_config true,
    m_block_manager := ⟨4, 0, [(0, 1)]⟩ }

/-- A queue holding one request (id 7) with two sequences, of grouped ids 0 and 1. -/
def sample_two_sequences : RequestQueues SequenceGroup :=
  ⟨[⟨7, 4, [⟨0, [1], [0]⟩, ⟨1, [2], [0]⟩], 6, false⟩], []⟩

/-- Lines 45-56 of `speculative_decoding_impl.cpp`: the split of the main
configuration's `cache_size` between the main and the draft model when the
draft scheduler configuration is left undefined.  The result is
`(main_cache_size, draft_cache_size)`.  The `float` arithmetic is taken
without rounding: `k` is a rational. -/
def split_cache_size (cache_size main_model_hidden_size draft_model_hidden_size : Nat) :
    Nat × Nat :=
  let k : Rat := (draft_model_hidden_size : Rat)
    / ((size_add main_model_hidden_size draft_model_hidden_size : Nat) : Rat)
  let main_cache_size := (Int.ceil ((cache_size : Rat) * (1 - k))).toNat % 2 ^ 64
  let draft_cache_size := size_sub cache_size main_cache_size
  if draft_cache_size = 0 ∧ main_cache_size > 0 then
    (main_cache_size - (if main_cache_size > 1 then 1 else 0), 1)
  else (main_cache_size, draft_cache_size)

/-- Sample collaborators whose sampler finishes every request at the first step. -/
def finishing_pops : PipelineOps SampleGroup Nat where
  Logits := Unit
  Scores := List (List Nat)
  copy_blocks w _ := w + 1
  forward w _ _ := (w + 1, ())
  get_last_attention_scores _ := []
  evict_logical_blocks w _ _ scores := (w + 1, scores)
  sample w requests _ _ := (w + 1, requests.map (fun g => { g with finished := true }), ⟨[], []⟩)
  clear_beam_search_info w _ := w + 1

/-- Sample collaborators of `generate` whose handles give two outputs for
every request, of scores 1 and 2. -/
def scored_rops : RequestOps SampleGroup SampleBlocks where
  SamplingParams := Nat
  Status := Bool
  Streamer := List Int
  set_eos_token_id params := params
  validate params := decide (0 < params)
  num_return_sequences params := params
  make_sequence_group request_id input_ids _ _ _ :=
    { request_id := request_id, prompt_len := input_ids.data.length }
  restore_cached_blocks b g := (b, g)
  back _ := []
  read_all _ := [⟨[10], 1⟩, ⟨[20], 2⟩]
  get_status g := g.finished
  put s token := (s ++ [token], false)
  end_stream s := s

/-- A sample pipeline without any request and with 8 free blocks. -/
def sample_idle_pipeline : ContinuousBatchingImpl SampleGroup SampleBlocks Nat :=
  { m_requests := []
    m_awaiting_requests := []
    m_scheduler := sample_scheduler false
    m_is_validation_mode_enabled := false
    world := 0
    calls := []
    reaped := [] }

/-- The idle sample pipeline after `generate` has added one request with a
prompt of 3 tokens. -/
def sample_admitted_pipeline : ContinuousBatchingImpl SampleGroup SampleBlocks Nat :=
  { sample_idle_pipeline with m_awaiting_requests := [{ request_id := 0, prompt_len := 3 }] }

/-- The sample pipeline after the step that schedules, samples and erases
the finished request 0. -/
def sample_finished_pipeline : ContinuousBatchingImpl SampleGroup SampleBlocks Nat :=
  { m_requests := [], m_awaiting_requests := [], m_scheduler := sample_scheduler false,
    m_is_validation_mode_enabled := false, world := 4,
    calls := [PipelineCall.copy_blocks, PipelineCall.forward, PipelineCall.sample],
    reaped := [{ request_id := 0, prompt_len := 3, num_scheduled_tokens := 3,
                 finished := true }] }

/-- Every group recorded in the scheduled ids of the output is in the vector
of groups and is not waiting. -/
def recorded_not_waiting {G B : Type} (gops : SequenceGroupOps G) (st : SchedState G B) : Prop :=
  ∀ j ∈ st.scheduler_output.m_scheduled_sequence_groups_ids,
    ∃ g, st.sequence_groups[j]? = some g ∧ gops.is_waiting g = false

/-- Two requests of 4 prompt tokens that have processed their prompt and hold
one block each; there is no free block. -/
def sample_contenders : List SampleGroup :=
  [{ request_id := 0, prompt_len := 4, generated_len := 1, num_processed_tokens := 4 },
   { request_id := 1, prompt_len := 4, generated_len := 1, num_processed_tokens := 4 }]

/-- A split-fuse scheduler whose two blocks are held by requests 0 and 1. -/
def sample_contended_scheduler : Scheduler SampleBlocks :=
  { m_can_use_partial_preemption := true, m_config := sample_config true,
    m_block_manager := ⟨4, 0, [(0, 1), (1, 1)]⟩ }

/-- What the phases of `schedule` leave on the two contenders: request 1 is
preempted for request 0. -/
def sample_contended_phases : SchedState SampleGroup SampleBlocks :=
  result_or (schedule_phases sample_gops sample_bops 4
    ⟨sample_contended_scheduler, sample_contenders, {}⟩)
    ⟨sample_contended_scheduler, [], {}⟩

/-- The methods of `SequenceGroup` that `step` and `schedule` call on a
request leave the flag `Q` of the request as it is.  It is used with
`is_speculative_decoding`, which reads the sampling parameters of the
request; `sequence_group.hpp` is not among the sources. -/
def keeps_flag {G : Type} (gops : SequenceGroupOps G) (Q : G → Bool) : Prop :=
  (∀ g n, Q (gops.schedule_tokens g n) = Q g) ∧
  (∀ g, Q (gops.clear_scheduled_tokens g) = Q g) ∧
  (∀ g n, Q (gops.preempt_tokens g n) = Q g) ∧
  (∀ g, Q (gops.reset_eviction_token_count g) = Q g) ∧
  (∀ g, Q (gops.set_waiting g) = Q g) ∧
  (∀ g, Q (gops.clear_waiting_sequences g) = Q g) ∧
  (∀ g n, Q (gops.register_token_eviction g n) = Q g) ∧
  (∀ g, Q (gops.push_empty_outputs g) = Q g) ∧
  (∀ g b, Q (gops.pause_generation g b) = Q g)

/-! # Properties -/

/-! ### Facts about the sequence-diff update -/

theorem scan_token_idx_spec (p c : List Int) (m : Nat) :
    (scan_token_idx p c m = SIZE_MAX ∧ ∀ i, i < m → p.getD i 0 ≠ c.getD i 0) ∨
    (∃ k, k < m ∧ scan_token_idx p c m = k ∧ p.getD k 0 = c.getD k 0 ∧
      ∀ i, k < i → i < m → p.getD i 0 ≠ c.getD i 0) := by
  induction m with
  | zero => left; exact ⟨rfl, fun i hi => absurd hi (Nat.not_lt_zero i)⟩
  | succ n ih =>
    by_cases h : p.getD n 0 = c.getD n 0
    · right
      refine ⟨n, Nat.lt_succ_self n, ?_, h, ?_⟩
      · simp only [scan_token_idx, if_pos h]
      · intro i h1 h2; omega
    · have hs : scan_token_idx p c (n + 1) = scan_token_idx p c n := by
        simp only [scan_token_idx, if_neg h]
      rcases ih with ⟨h1, h2⟩ | ⟨k, hk, h1, h2, h3⟩
      · left
        refine ⟨hs.trans h1, ?_⟩
        intro i hi
        by_cases hin : i = n
        · subst hin; exact h
        · exact h2 i (by omega)
      · right
        refine ⟨k, by omega, hs.trans h1, h2, ?_⟩
        intro i hki hi
        by_cases hin : i = n
        · subst hin; exact h
        · exact h3 i hki (by omega)

theorem common_prefix_len_le (p c : List Int) :
    common_prefix_len p c ≤ min p.length c.length := by
  induction p generalizing c with
  | nil => simp [common_prefix_len]
  | cons a as ih =>
    cases c with
    | nil => simp [common_prefix_len]
    | cons b bs =>
      simp only [common_prefix_len]
      split
      · have := ih bs
        simp only [List.length_cons]
        omega
      · omega

theorem common_prefix_len_agree (p c : List Int) :
    ∀ i, i < common_prefix_len p c → p.getD i 0 = c.getD i 0 := by
  induction p generalizing c with
  | nil => intro i hi; simp [common_prefix_len] at hi
  | cons a as ih =>
    cases c with
    | nil => intro i hi; simp [common_prefix_len] at hi
    | cons b bs =>
      intro i hi
      simp only [common_prefix_len] at hi
      split at hi
      · rename_i hab
        cases i with
        | zero => simpa using hab
        | succ j =>
          have := ih bs j (by omega)
          simpa using this
      · omega

theorem common_prefix_len_stop (p c : List Int)
    (h : common_prefix_len p c < min p.length c.length) :
    p.getD (common_prefix_len p c) 0 ≠ c.getD (common_prefix_len p c) 0 := by
  induction p generalizing c with
  | nil => simp at h
  | cons a as ih =>
    cases c with
    | nil => simp at h
    | cons b bs =>
      simp only [common_prefix_len] at h ⊢
      split
      · rename_i hab
        rw [if_pos hab] at h
        have := ih bs (by simp only [List.length_cons] at h; omega)
        simpa using this
      · rename_i hab
        simpa using hab

theorem take_common_prefix_len (p c : List Int) :
    p.take (common_prefix_len p c) = c.take (common_prefix_len p c) := by
  induction p generalizing c with
  | nil => simp [common_prefix_len]
  | cons a as ih =>
    cases c with
    | nil => simp [common_prefix_len]
    | cons b bs =>
      simp only [common_prefix_len]
      split
      · rename_i hab
        simp [List.take_succ_cons, hab, ih bs]
      · simp

theorem kept_len_eq_common_prefix_len (p c : List Int) (hlen : p.length < 2 ^ 64)
    (hdis : ∀ i, common_prefix_len p c ≤ i → i < min p.length c.length →
      p.getD i 0 ≠ c.getD i 0) :
    kept_len p c = common_prefix_len p c := by
  have hle := common_prefix_len_le p c
  have hag := common_prefix_len_agree p c
  unfold kept_len size_add
  rcases scan_token_idx_spec p c (min p.length c.length) with ⟨h1, h2⟩ | ⟨k, hk, h1, h2, h3⟩
  · rw [h1]
    have : common_prefix_len p c = 0 := by
      by_contra hne
      exact h2 0 (by omega) (hag 0 (by omega))
    rw [this]; simp [SIZE_MAX]
  · rw [h1]
    have hk1 : k < common_prefix_len p c := by
      by_contra hge
      exact hdis k (by omega) hk h2
    have hk2 : common_prefix_len p c ≤ k + 1 := by
      by_contra hgt
      exact h3 (k + 1) (by omega) (by omega) (hag (k + 1) (by omega))
    have : k + 1 < 2 ^ 64 := by omega
    rw [Nat.mod_eq_of_lt this]; omega

theorem insert_new_tokens_ids (c : List Int) (lp : List Rat) (n i : Nat) (s : Sequence)
    (h : i + n ≤ c.length) :
    (insert_new_tokens c lp n i s).generated_ids = s.generated_ids ++ (c.drop i).take n := by
  induction n generalizing i s with
  | zero => simp [insert_new_tokens]
  | succ n ih =>
    simp only [insert_new_tokens]
    rw [ih (i + 1) _ (by omega)]
    have hi : i < c.length := by omega
    simp only [Sequence.append_token, List.append_assoc]
    congr 1
    rw [List.drop_eq_getElem_cons hi, List.take_succ_cons]
    simp [List.getD_eq_getElem?_getD, List.getElem?_eq_getElem hi]

theorem insert_new_tokens_grouped_id (c : List Int) (lp : List Rat) (n i : Nat) (s : Sequence) :
    (insert_new_tokens c lp n i s).grouped_id = s.grouped_id := by
  induction n generalizing i s with
  | zero => simp [insert_new_tokens]
  | succ n ih => simp only [insert_new_tokens]; rw [ih]; rfl

theorem kept_len_le (p c : List Int) (hlen : p.length < 2 ^ 64) :
    kept_len p c ≤ min p.length c.length := by
  unfold kept_len size_add
  rcases scan_token_idx_spec p c (min p.length c.length) with ⟨h1, _⟩ | ⟨k, hk, h1, _, _⟩
  · rw [h1]; simp [SIZE_MAX]
  · rw [h1]
    have : k + 1 < 2 ^ 64 := by omega
    rw [Nat.mod_eq_of_lt this]; omega

theorem size_sub_of_le (a b : Nat) (ha : a < 2 ^ 64) (hb : b ≤ a) : size_sub a b = a - b := by
  unfold size_sub
  rw [Nat.mod_eq_of_lt ha, Nat.mod_eq_of_lt (by omega : b < 2 ^ 64)]
  omega

theorem remove_extra_tokens_of_ne (seq : Sequence) (c : List Int)
    (hlen : seq.generated_ids.length < 2 ^ 64)
    (hm : min seq.generated_ids.length c.length ≠ 0) :
    ∃ s', remove_extra_tokens seq c =
        .ok (s', seq.generated_ids.length - kept_len seq.generated_ids c,
          decide (0 < seq.generated_ids.length - kept_len seq.generated_ids c ∧
            kept_len seq.generated_ids c = 0)) ∧
      s'.generated_ids = seq.generated_ids.take (kept_len seq.generated_ids c) ∧
      s'.grouped_id = seq.grouped_id := by
  have hk := kept_len_le seq.generated_ids c hlen
  have hsub := size_sub_of_le seq.generated_ids.length
    (kept_len seq.generated_ids c) hlen (by omega)
  have hdef : remove_extra_tokens seq c =
      if size_sub seq.generated_ids.length (kept_len seq.generated_ids c) > 0 then
        if (seq.remove_last_tokens (size_sub seq.generated_ids.length
            (kept_len seq.generated_ids c))).generated_ids.length < seq.generated_ids.length then
          .ok (seq.remove_last_tokens (size_sub seq.generated_ids.length
            (kept_len seq.generated_ids c)),
            size_sub seq.generated_ids.length (kept_len seq.generated_ids c),
            (seq.remove_last_tokens (size_sub seq.generated_ids.length
              (kept_len seq.generated_ids c))).generated_ids.length == 0)
        else .error .assertion_failed
      else .ok (seq, size_sub seq.generated_ids.length (kept_len seq.generated_ids c), false) := by
    unfold remove_extra_tokens kept_len
    simp only [hm, ne_eq, not_false_eq_true, if_true]
  rw [hdef, hsub]
  generalize kept_len seq.generated_ids c = k at hk hsub
  by_cases hr : 0 < seq.generated_ids.length - k
  · have hl : (seq.remove_last_tokens (seq.generated_ids.length - k)).generated_ids.length = k := by
      simp only [Sequence.remove_last_tokens, List.length_take]
      omega
    have hlt : k < seq.generated_ids.length := by omega
    simp only [gt_iff_lt, hr, if_true, hl, hlt]
    refine ⟨seq.remove_last_tokens (seq.generated_ids.length - k), ?_, ?_, rfl⟩
    · have hd : (k == 0) = decide (k = 0) := by
        by_cases h0 : k = 0 <;> simp [h0]
      rw [hd]; simp
    · simp only [Sequence.remove_last_tokens]
      congr 1; omega
  · have hkeq : k = seq.generated_ids.length := by omega
    simp only [gt_iff_lt, hr, if_false]
    refine ⟨seq, ?_, ?_, rfl⟩
    · simp [hr]
    · rw [hkeq]; simp

theorem insert_candidate_tokens_of_le (s : Sequence) (cand : GeneratedSequence)
    (h : s.generated_ids.length ≤ cand.token_ids.length) :
    ∃ s', insert_candidate_tokens s cand =
        .ok (s', cand.token_ids.length - s.generated_ids.length) ∧
      s'.generated_ids = s.generated_ids ++ cand.token_ids.drop s.generated_ids.length ∧
      s'.grouped_id = s.grouped_id := by
  unfold insert_candidate_tokens
  simp only [ge_iff_le, h, if_true, Nat.min_eq_left h, Nat.max_eq_right h]
  refine ⟨_, rfl, ?_, ?_⟩
  · have hi := insert_new_tokens_ids cand.token_ids cand.log_probs
      (cand.token_ids.length - s.generated_ids.length) s.generated_ids.length s (by omega)
    rw [hi, List.take_of_length_le]
    simp only [List.length_drop]; omega
  · rw [insert_new_tokens_grouped_id]

theorem update_matching_sequence_of_ne (seq : Sequence) (cand : GeneratedSequence)
    (hlen : seq.generated_ids.length < 2 ^ 64)
    (hm : min seq.generated_ids.length cand.token_ids.length ≠ 0) :
    ∃ s', update_matching_sequence seq cand =
        .ok ⟨s', cand.token_ids.length - kept_len seq.generated_ids cand.token_ids,
          seq.generated_ids.length - kept_len seq.generated_ids cand.token_ids,
          decide (0 < seq.generated_ids.length - kept_len seq.generated_ids cand.token_ids ∧
            kept_len seq.generated_ids cand.token_ids = 0)⟩ ∧
      s'.generated_ids = seq.generated_ids.take (kept_len seq.generated_ids cand.token_ids) ++
        cand.token_ids.drop (kept_len seq.generated_ids cand.token_ids) ∧
      s'.grouped_id = seq.grouped_id := by
  have hk := kept_len_le seq.generated_ids cand.token_ids hlen
  obtain ⟨s1, h1, h2, h3⟩ := remove_extra_tokens_of_ne seq cand.token_ids hlen hm
  have hl1 : s1.generated_ids.length = kept_len seq.generated_ids cand.token_ids := by
    rw [h2, List.length_take]; omega
  obtain ⟨s2, h4, h5, h6⟩ := insert_candidate_tokens_of_le s1 cand (by omega)
  refine ⟨s2, ?_, ?_, ?_⟩
  · unfold update_matching_sequence
    rw [h1]; simp only; rw [h4]; simp only [hl1]
  · rw [h5, hl1, h2]
  · rw [h6, h3]

theorem update_matching_sequence_of_nil (seq : Sequence) (cand : GeneratedSequence)
    (hp : seq.generated_ids = []) :
    ∃ s', update_matching_sequence seq cand = .ok ⟨s', cand.token_ids.length, 0, false⟩ ∧
      s'.generated_ids = cand.token_ids ∧ s'.grouped_id = seq.grouped_id := by
  have h1 : remove_extra_tokens seq cand.token_ids = .ok (seq, 0, false) := by
    unfold remove_extra_tokens
    simp [hp]
  obtain ⟨s2, h4, h5, h6⟩ := insert_candidate_tokens_of_le seq cand (by simp [hp])
  refine ⟨s2, ?_, ?_, h6⟩
  · unfold update_matching_sequence
    rw [h1]; simp only; rw [h4]; simp [hp]
  · rw [h5, hp]; simp

theorem update_matching_sequence_of_nil_candidate (seq : Sequence) (cand : GeneratedSequence)
    (hc : cand.token_ids = []) (hp : seq.generated_ids ≠ []) :
    update_matching_sequence seq cand = .error .assertion_failed := by
  have : 0 < seq.generated_ids.length := List.length_pos.mpr hp
  have h1 : remove_extra_tokens seq cand.token_ids = .ok (seq, 0, false) := by
    unfold remove_extra_tokens
    simp [hc]
  unfold update_matching_sequence
  rw [h1]; simp only
  unfold insert_candidate_tokens
  rw [if_neg (by rw [hc]; simp only [List.length_nil]; omega)]

theorem update_requests_split (cand : GeneratedSequence) (pre : List SequenceGroup)
    (req : SequenceGroup) (post : List SequenceGroup)
    (hpre : ∀ r ∈ pre, r.request_id ≠ cand.request_id)
    (hreq : req.request_id = cand.request_id) :
    update_requests cand (pre ++ req :: post) =
      match update_request req cand with
      | .error e => .error e
      | .ok (r, res) => .ok (pre ++ r :: post, res) := by
  induction pre with
  | nil => simp [update_requests, hreq]
  | cons a as ih =>
    have ha : cand.request_id ≠ a.request_id := fun h => hpre a (List.mem_cons_self a as) h.symm
    have ih := ih (fun r hr => hpre r (List.mem_cons_of_mem a hr))
    simp only [List.cons_append, update_requests, ha, if_false, List.append_eq]
    rw [ih]
    cases update_request req cand with
    | error e => rfl
    | ok v => rfl

theorem update_requests_unknown (cand : GeneratedSequence) (l : List SequenceGroup)
    (h : ∀ r ∈ l, r.request_id ≠ cand.request_id) :
    update_requests cand l = .ok (l, ⟨0, 0⟩) := by
  induction l with
  | nil => rfl
  | cons a as ih =>
    have ha : cand.request_id ≠ a.request_id := fun h' => h a (List.mem_cons_self a as) h'.symm
    simp only [update_requests, ha, if_false, ih (fun r hr => h r (List.mem_cons_of_mem a hr))]

theorem update_request_of_match (req : SequenceGroup) (cand : GeneratedSequence)
    (seq : Sequence) (rest : List Sequence)
    (hseq : req.sequences = seq :: rest) (hid : seq.grouped_id = cand.sequence_id) :
    update_request req cand =
      match update_matching_sequence seq cand with
      | .error e => .error e
      | .ok u =>
        .ok (finish_update { req with sequences := u.sequence :: rest }
              u.is_empty_generated_tokens u.to_remove_tokens,
            ⟨u.to_insert_tokens, u.to_remove_tokens⟩) := by
  unfold update_request
  simp only [hseq, hid, if_true, List.tail_cons]
  cases update_matching_sequence seq cand with
  | error e => rfl
  | ok u => rfl

theorem finish_update_sequences (r : SequenceGroup) (b : Bool) (n : Nat) :
    (finish_update r b n).sequences = r.sequences := by
  unfold finish_update
  split
  · rfl
  · split <;> rfl

theorem update_generated_sequence_resolved (q : RequestQueues SequenceGroup)
    (cand : GeneratedSequence) (pre : List SequenceGroup) (req : SequenceGroup)
    (post : List SequenceGroup) (seq : Sequence) (rest : List Sequence)
    (hq : pulled q = pre ++ req :: post)
    (hpre : ∀ r ∈ pre, r.request_id ≠ cand.request_id)
    (hreq : req.request_id = cand.request_id)
    (hseq : req.sequences = seq :: rest) (hid : seq.grouped_id = cand.sequence_id) :
    update_generated_sequence q cand =
      match update_matching_sequence seq cand with
      | .error e => .error e
      | .ok u =>
        .ok (⟨pre ++ finish_update { req with sequences := u.sequence :: rest }
                u.is_empty_generated_tokens u.to_remove_tokens :: post, []⟩,
            ⟨u.to_insert_tokens, u.to_remove_tokens⟩) := by
  unfold pulled at hq
  unfold update_generated_sequence
  simp only [hq, update_requests_split cand pre req post hpre hreq,
    update_request_of_match req cand seq rest hseq hid]
  cases update_matching_sequence seq cand with
  | error e => rfl
  | ok u => rfl

/-! ### Removed count, final ids, acceptance, processed tokens -/

theorem update_matching_sequence_of_prefix_closed (seq : Sequence) (cand : GeneratedSequence)
    (hlen : seq.generated_ids.length < 2 ^ 64)
    (hne : cand.token_ids ≠ [] ∨ seq.generated_ids = [])
    (hdis : ∀ i, common_prefix_len seq.generated_ids cand.token_ids ≤ i →
      i < min seq.generated_ids.length cand.token_ids.length →
      seq.generated_ids.getD i 0 ≠ cand.token_ids.getD i 0) :
    ∃ u, update_matching_sequence seq cand = .ok u ∧
      u.to_remove_tokens =
        seq.generated_ids.length - common_prefix_len seq.generated_ids cand.token_ids ∧
      u.to_insert_tokens =
        cand.token_ids.length - common_prefix_len seq.generated_ids cand.token_ids ∧
      u.sequence.generated_ids =
        seq.generated_ids.take (common_prefix_len seq.generated_ids cand.token_ids) ++
          cand.token_ids.drop (common_prefix_len seq.generated_ids cand.token_ids) ∧
      u.sequence.grouped_id = seq.grouped_id := by
  by_cases hp : seq.generated_ids = []
  · obtain ⟨s', h1, h2, h3⟩ := update_matching_sequence_of_nil seq cand hp
    refine ⟨_, h1, ?_, ?_, ?_, h3⟩
    · simp [hp]
    · simp [hp, common_prefix_len]
    · simp [hp, common_prefix_len, h2]
  · have hc : cand.token_ids ≠ [] := by
      rcases hne with h | h
      · exact h
      · exact absurd h hp
    have hm : min seq.generated_ids.length cand.token_ids.length ≠ 0 := by
      have h1 := List.length_pos.mpr hp
      have h2 := List.length_pos.mpr hc
      omega
    obtain ⟨s', h1, h2, h3⟩ := update_matching_sequence_of_ne seq cand hlen hm
    rw [kept_len_eq_common_prefix_len _ _ hlen hdis] at h1 h2
    exact ⟨_, h1, rfl, rfl, h2, h3⟩

/-- C2 (amended): when the present ids and the candidate ids differ at every
index from the end of their longest common prefix (length `j`) up to the
shorter length, and the candidate is non-empty or nothing is present,
`update_generated_sequence` returns, its removed count is `|present| - j`,
and the matching sequence is left with the first `j` present ids followed by
the inserted tokens. -/
theorem update_generated_sequence_removed_count (q : RequestQueues SequenceGroup)
    (cand : GeneratedSequence) (pre : List SequenceGroup) (req : SequenceGroup)
    (post : List SequenceGroup) (seq : Sequence) (rest : List Sequence)
    (hq : pulled q = pre ++ req :: post)
    (hpre : ∀ r ∈ pre, r.request_id ≠ cand.request_id)
    (hreq : req.request_id = cand.request_id)
    (hseq : req.sequences = seq :: rest) (hid : seq.grouped_id = cand.sequence_id)
    (hlen : seq.generated_ids.length < 2 ^ 64)
    (hne : cand.token_ids ≠ [] ∨ seq.generated_ids = [])
    (hdis : ∀ i, common_prefix_len seq.generated_ids cand.token_ids ≤ i →
      i < min seq.generated_ids.length cand.token_ids.length →
      seq.generated_ids.getD i 0 ≠ cand.token_ids.getD i 0) :
    ∃ q' res req' seq' tail,
      update_generated_sequence q cand = .ok (q', res) ∧
      res.removed_tokens_cnt =
        seq.generated_ids.length - common_prefix_len seq.generated_ids cand.token_ids ∧
      q'.m_requests = pre ++ req' :: post ∧ req'.sequences = seq' :: rest ∧
      seq'.generated_ids =
        seq.generated_ids.take (common_prefix_len seq.generated_ids cand.token_ids) ++ tail ∧
      tail.length = res.inserted_tokens_cnt := by
  obtain ⟨u, h1, h2, h3, h4, _⟩ := update_matching_sequence_of_prefix_closed seq cand hlen hne hdis
  have h := update_generated_sequence_resolved q cand pre req post seq rest hq hpre hreq hseq hid
  rw [h1] at h
  have hle := common_prefix_len_le seq.generated_ids cand.token_ids
  refine ⟨_, _, _, u.sequence, _, h, h2, rfl, ?_, h4, ?_⟩
  · rw [finish_update_sequences]
  · simp only [List.length_drop]; omega

/-- C2, witness: present `[1, 2, 3]` against candidate `[1, 2, 4, 5]`. -/
theorem update_generated_sequence_removed_count_witness :
    ∃ q' res req' seq' tail,
      update_generated_sequence (sample_queue [1, 2, 3]) (sample_candidate [1, 2, 4, 5])
        = .ok (q', res) ∧
      res.removed_tokens_cnt = [1, 2, 3].length - common_prefix_len [1, 2, 3] [1, 2, 4, 5] ∧
      q'.m_requests = [] ++ req' :: [] ∧ req'.sequences = seq' :: [] ∧
      seq'.generated_ids = [1, 2, 3].take (common_prefix_len [1, 2, 3] [1, 2, 4, 5]) ++ tail ∧
      tail.length = res.inserted_tokens_cnt :=
  update_generated_sequence_removed_count (sample_queue [1, 2, 3])
    (sample_candidate [1, 2, 4, 5]) [] (sample_request [1, 2, 3]) []
    ⟨0, [1, 2, 3], [0, 0, 0]⟩ [] rfl (fun _ h => absurd h (List.not_mem_nil _)) rfl rfl rfl
    (by decide) (Or.inl (by decide))
    (by
      have hj : common_prefix_len [1, 2, 3] [1, 2, 4, 5] = 2 := by decide
      intro i h1 h2
      simp only [sample_candidate, hj] at h1 h2
      have hi : i = 2 := by simp at h2; omega
      subst hi
      decide)

/-- C2, counterexample: with present `[1, 2, 3]` and candidate `[9, 2, 3]` the
longest common prefix is empty, yet the call removes nothing; with present
`[1, 2, 3]` and an empty candidate the call does not return at all. -/
theorem update_generated_sequence_removed_count_counterexample :
    ((update_generated_sequence (sample_queue [1, 2, 3]) (sample_candidate [9, 2, 3])).toOption.map
        (fun r => r.2.removed_tokens_cnt) = some 0 ∧
      [1, 2, 3].length - common_prefix_len [1, 2, 3] [9, 2, 3] = 3) ∧
    update_generated_sequence (sample_queue [1, 2, 3]) (sample_candidate [])
      = .error .assertion_failed := by
  refine ⟨⟨?_, ?_⟩, ?_⟩
  · rfl
  · decide
  · rfl

/-- C3 (amended): when the present ids and the candidate ids differ at every
index from the end of their longest common prefix up to the shorter length,
then after `update_generated_sequence` returns the generated ids of the
updated sequence equal the candidate's token ids. -/
theorem update_generated_sequence_ids_eq_candidate (q : RequestQueues SequenceGroup)
    (cand : GeneratedSequence) (pre : List SequenceGroup) (req : SequenceGroup)
    (post : List SequenceGroup) (seq : Sequence) (rest : List Sequence)
    (q' : RequestQueues SequenceGroup) (res : UpdateSeqResult)
    (hq : pulled q = pre ++ req :: post)
    (hpre : ∀ r ∈ pre, r.request_id ≠ cand.request_id)
    (hreq : req.request_id = cand.request_id)
    (hseq : req.sequences = seq :: rest) (hid : seq.grouped_id = cand.sequence_id)
    (hlen : seq.generated_ids.length < 2 ^ 64)
    (hdis : ∀ i, common_prefix_len seq.generated_ids cand.token_ids ≤ i →
      i < min seq.generated_ids.length cand.token_ids.length →
      seq.generated_ids.getD i 0 ≠ cand.token_ids.getD i 0)
    (h : update_generated_sequence q cand = .ok (q', res)) :
    ∃ req' seq', q'.m_requests = pre ++ req' :: post ∧ req'.sequences = seq' :: rest ∧
      seq'.grouped_id = cand.sequence_id ∧ seq'.generated_ids = cand.token_ids := by
  have hr := update_generated_sequence_resolved q cand pre req post seq rest hq hpre hreq hseq hid
  by_cases hne : cand.token_ids ≠ [] ∨ seq.generated_ids = []
  · obtain ⟨u, h1, _, _, h4, h5⟩ :=
      update_matching_sequence_of_prefix_closed seq cand hlen hne hdis
    rw [h1] at hr
    rw [hr] at h
    injection h with h
    injection h with hq' _
    subst hq'
    refine ⟨_, u.sequence, rfl, ?_, ?_, ?_⟩
    · rw [finish_update_sequences]
    · rw [h5, hid]
    · rw [h4, take_common_prefix_len, List.take_append_drop]
  · have hc : cand.token_ids = [] := by
      by_contra hc; exact hne (Or.inl hc)
    have hp : seq.generated_ids ≠ [] := fun hp => hne (Or.inr hp)
    rw [update_matching_sequence_of_nil_candidate seq cand hc hp] at hr
    rw [hr] at h
    cases h

/-- C3, witness: present `[1, 2, 3]` against candidate `[1, 9]`. -/
theorem update_generated_sequence_ids_eq_candidate_witness :
    ∃ req' seq', (⟨[sample_request [1, 9]], []⟩ : RequestQueues SequenceGroup).m_requests
        = [] ++ req' :: [] ∧ req'.sequences = seq' :: [] ∧
      seq'.grouped_id = (sample_candidate [1, 9]).sequence_id ∧
      seq'.generated_ids = (sample_candidate [1, 9]).token_ids :=
  update_generated_sequence_ids_eq_candidate (sample_queue [1, 2, 3])
    (sample_candidate [1, 9]) [] (sample_request [1, 2, 3]) []
    ⟨0, [1, 2, 3], [0, 0, 0]⟩ [] ⟨[sample_request [1, 9]], []⟩ ⟨1, 2⟩
    rfl (fun _ h => absurd h (List.not_mem_nil _)) rfl rfl rfl (by decide)
    (by
      have hj : common_prefix_len [1, 2, 3] [1, 9] = 1 := by decide
      intro i h1 h2
      simp only [sample_candidate, hj] at h1 h2
      have hi : i = 1 := by simp at h2; omega
      subst hi
      decide)
    rfl

/-- C3, counterexample: present `[1, 2, 3]` against candidate `[9, 2, 3]`; the
call returns and the sequence still reads `[1, 2, 3]`. -/
theorem update_generated_sequence_ids_eq_candidate_counterexample :
    (update_generated_sequence (sample_queue [1, 2, 3]) (sample_candidate [9, 2, 3])).toOption.map
        (fun r => r.1.m_requests.map (fun g => g.sequences.map (fun s => s.generated_ids)))
      = some [[[1, 2, 3]]] ∧
    ([1, 2, 3] : List Int) ≠ (sample_candidate [9, 2, 3]).token_ids := by
  refine ⟨rfl, by decide⟩

theorem scan_token_idx_of_agree (p c : List Int) (k : Nat)
    (h : p.getD k 0 = c.getD k 0) : scan_token_idx p c (k + 1) = k := by
  simp only [scan_token_idx, if_pos h]

theorem remove_extra_tokens_of_extension (seq : Sequence) (tail : List Int) :
    remove_extra_tokens seq (seq.generated_ids ++ tail) = .ok (seq, 0, false) := by
  unfold remove_extra_tokens
  by_cases hm : min seq.generated_ids.length (seq.generated_ids ++ tail).length = 0
  · simp only [hm, ne_eq, not_true_eq_false, if_false]
  · have hmin : min seq.generated_ids.length (seq.generated_ids ++ tail).length
        = (seq.generated_ids.length - 1) + 1 := by
      simp only [List.length_append] at hm ⊢
      omega
    have hlt : seq.generated_ids.length - 1 < seq.generated_ids.length := by
      simp only [List.length_append] at hm; omega
    have hag : seq.generated_ids.getD (seq.generated_ids.length - 1) 0
        = (seq.generated_ids ++ tail).getD (seq.generated_ids.length - 1) 0 := by
      simp only [List.getD_eq_getElem?_getD]
      rw [List.getElem?_append_left hlt]
    have hz : size_sub seq.generated_ids.length
        (size_add (seq.generated_ids.length - 1) 1) = 0 := by
      unfold size_sub size_add
      have : seq.generated_ids.length - 1 + 1 = seq.generated_ids.length := by omega
      rw [this]
      omega
    simp only [hm, ne_eq, not_false_eq_true, if_true]
    rw [hmin, scan_token_idx_of_agree _ _ _ hag, hz]
    simp

/-- C4: when the candidate is the present ids followed by a tail,
`update_generated_sequence` returns `removed = 0` and `inserted = |tail|`,
and the sequence's generated ids afterwards equal the candidate. -/
theorem update_generated_sequence_of_extension (q : RequestQueues SequenceGroup)
    (cand : GeneratedSequence) (pre : List SequenceGroup) (req : SequenceGroup)
    (post : List SequenceGroup) (seq : Sequence) (rest : List Sequence) (tail : List Int)
    (hq : pulled q = pre ++ req :: post)
    (hpre : ∀ r ∈ pre, r.request_id ≠ cand.request_id)
    (hreq : req.request_id = cand.request_id)
    (hseq : req.sequences = seq :: rest) (hid : seq.grouped_id = cand.sequence_id)
    (hc : cand.token_ids = seq.generated_ids ++ tail) :
    ∃ q' req' seq',
      update_generated_sequence q cand = .ok (q', ⟨tail.length, 0⟩) ∧
      q'.m_requests = pre ++ req' :: post ∧ req'.sequences = seq' :: rest ∧
      seq'.grouped_id = cand.sequence_id ∧ seq'.generated_ids = cand.token_ids ∧
      req'.num_processed_tokens = req.num_processed_tokens := by
  have hr := update_generated_sequence_resolved q cand pre req post seq rest hq hpre hreq hseq hid
  have h1 : remove_extra_tokens seq cand.token_ids = .ok (seq, 0, false) := by
    rw [hc]; exact remove_extra_tokens_of_extension seq tail
  obtain ⟨s2, h4, h5, h6⟩ := insert_candidate_tokens_of_le seq cand (by rw [hc]; simp)
  have hu : update_matching_sequence seq cand =
      .ok ⟨s2, cand.token_ids.length - seq.generated_ids.length, 0, false⟩ := by
    unfold update_matching_sequence
    rw [h1]; simp only; rw [h4]
  rw [hu] at hr
  have hl : cand.token_ids.length - seq.generated_ids.length = tail.length := by
    rw [hc]; simp
  rw [hl] at hr
  refine ⟨_, _, s2, hr, rfl, ?_, ?_, ?_, ?_⟩
  · rw [finish_update_sequences]
  · rw [h6, hid]
  · rw [h5, hc]; simp
  · simp [finish_update]

/-- C4, witness: present `[1, 2, 3]`, tail `[4, 5]`. -/
theorem update_generated_sequence_of_extension_witness :
    ∃ q' req' seq',
      update_generated_sequence (sample_queue [1, 2, 3]) (sample_candidate [1, 2, 3, 4, 5])
        = .ok (q', ⟨[4, 5].length, 0⟩) ∧
      q'.m_requests = [] ++ req' :: [] ∧ req'.sequences = seq' :: [] ∧
      seq'.grouped_id = (sample_candidate [1, 2, 3, 4, 5]).sequence_id ∧
      seq'.generated_ids = (sample_candidate [1, 2, 3, 4, 5]).token_ids ∧
      req'.num_processed_tokens = (sample_request [1, 2, 3]).num_processed_tokens :=
  update_generated_sequence_of_extension (sample_queue [1, 2, 3])
    (sample_candidate [1, 2, 3, 4, 5]) [] (sample_request [1, 2, 3]) []
    ⟨0, [1, 2, 3], [0, 0, 0]⟩ [] [4, 5]
    rfl (fun _ h => absurd h (List.not_mem_nil _)) rfl rfl rfl rfl

theorem remove_extra_tokens_flag (seq : Sequence) (c : List Int) (s' : Sequence) (n : Nat)
    (b : Bool) (h : remove_extra_tokens seq c = .ok (s', n, b)) :
    (b = true ↔ 0 < n ∧ (seq.remove_last_tokens n).generated_ids = []) ∧
    (n = 0 → b = false) := by
  unfold remove_extra_tokens at h
  simp only at h
  split at h
  · split at h
    · rename_i hpos
      split at h
      · injection h with h
        injection h with h1 h2
        injection h2 with h2 h3
        subst h2
        refine ⟨?_, fun h0 => absurd hpos (by omega)⟩
        rw [← h3]
        constructor
        · intro hb
          refine ⟨hpos, ?_⟩
          have : (seq.remove_last_tokens (size_sub seq.generated_ids.length
              (size_add (scan_token_idx seq.generated_ids c
                (min seq.generated_ids.length c.length)) 1))).generated_ids.length = 0 := by
            simpa using hb
          exact List.length_eq_zero.mp this
        · intro hb
          simp [hb.2]
      · cases h
    · injection h with h
      injection h with h1 h2
      injection h2 with h2 h3
      subst h2
      rename_i hpos
      refine ⟨?_, fun _ => h3.symm⟩
      rw [← h3]
      constructor
      · intro hb; cases hb
      · intro hb; exact absurd hb.1 hpos
  · injection h with h
    injection h with h1 h2
    injection h2 with h2 h3
    subst h2
    refine ⟨?_, fun _ => h3.symm⟩
    rw [← h3]
    constructor
    · intro hb; cases hb
    · intro hb; exact absurd hb.1 (Nat.lt_irrefl 0)

theorem update_matching_sequence_flag (seq : Sequence) (cand : GeneratedSequence)
    (u : SeqUpdate) (h : update_matching_sequence seq cand = .ok u) :
    (u.is_empty_generated_tokens = true ↔
      0 < u.to_remove_tokens ∧ (seq.remove_last_tokens u.to_remove_tokens).generated_ids = []) := by
  unfold update_matching_sequence at h
  cases hr : remove_extra_tokens seq cand.token_ids with
  | error e => rw [hr] at h; cases h
  | ok v =>
    obtain ⟨s1, n, b⟩ := v
    rw [hr] at h
    simp only at h
    cases hi : insert_candidate_tokens s1 cand with
    | error e => rw [hi] at h; cases h
    | ok w =>
      obtain ⟨s2, ins⟩ := w
      rw [hi] at h
      simp only at h
      injection h with h
      subst h
      exact (remove_extra_tokens_flag seq cand.token_ids s1 n b hr).1

theorem update_request_processed_tokens (req : SequenceGroup) (cand : GeneratedSequence)
    (req' : SequenceGroup) (res : UpdateSeqResult)
    (h : update_request req cand = .ok (req', res)) :
    (emptied_by_removal req res.removed_tokens_cnt →
      req'.num_processed_tokens = req.prompt_len) ∧
    (¬ emptied_by_removal req res.removed_tokens_cnt →
      req'.num_processed_tokens = req.num_processed_tokens) := by
  have hnew : ∀ s, fill_new_sequence cand.token_ids cand.log_probs cand.token_ids.length 0
        ⟨cand.sequence_id, [], []⟩ = .ok s →
      (.ok (finish_update (req.add_sequence s) false 0, (⟨0, 0⟩ : UpdateSeqResult))
        : Except Error (SequenceGroup × UpdateSeqResult)) = .ok (req', res) →
      (emptied_by_removal req res.removed_tokens_cnt →
        req'.num_processed_tokens = req.prompt_len) ∧
      (¬ emptied_by_removal req res.removed_tokens_cnt →
        req'.num_processed_tokens = req.num_processed_tokens) := by
    intro s _ h
    injection h with h
    injection h with h1 h2
    subst h1; subst h2
    refine ⟨fun he => absurd he.1 (Nat.lt_irrefl 0), fun _ => rfl⟩
  unfold update_request at h
  cases hs : req.sequences with
  | nil =>
    rw [hs] at h
    simp only at h
    cases hf : fill_new_sequence cand.token_ids cand.log_probs cand.token_ids.length 0
        ⟨cand.sequence_id, [], []⟩ with
    | error e => rw [hf] at h; cases h
    | ok s => rw [hf] at h; exact hnew s hf h
  | cons seq rest =>
    rw [hs] at h
    by_cases hid : cand.sequence_id = seq.grouped_id
    · simp only [hid, if_true] at h
      cases hu : update_matching_sequence seq cand with
      | error e => rw [hu] at h; cases h
      | ok u =>
        rw [hu] at h
        simp only [List.tail_cons] at h
        injection h with h
        injection h with h1 h2
        subst h1; subst h2
        have hflag := update_matching_sequence_flag seq cand u hu
        constructor
        · rintro ⟨hpos, s0, r0, hs0, hemp⟩
          rw [hs] at hs0
          injection hs0 with hs0 _
          subst hs0
          have hb : u.is_empty_generated_tokens = true := hflag.mpr ⟨hpos, hemp⟩
          have hpos' : u.to_remove_tokens > 0 := hpos
          simp [finish_update, hb, hpos', SequenceGroup.update_processed_tokens_num]
        · intro hne
          have hb : u.is_empty_generated_tokens = false := by
            cases hbb : u.is_empty_generated_tokens with
            | false => rfl
            | true =>
              exfalso
              have := hflag.mp hbb
              exact hne ⟨this.1, seq, rest, hs, this.2⟩
          simp [finish_update, hb]
    · simp only [hid, if_false] at h
      cases hf : fill_new_sequence cand.token_ids cand.log_probs cand.token_ids.length 0
          ⟨cand.sequence_id, [], []⟩ with
      | error e => rw [hf] at h; cases h
      | ok s => rw [hf] at h; exact hnew s hf h

theorem update_requests_cases (cand : GeneratedSequence) (l l' : List SequenceGroup)
    (res : UpdateSeqResult) (h : update_requests cand l = .ok (l', res)) :
    ((∀ r ∈ l, r.request_id ≠ cand.request_id) ∧ l' = l ∧ res = ⟨0, 0⟩) ∨
    (∃ pre req post req', l = pre ++ req :: post ∧
      (∀ r ∈ pre, r.request_id ≠ cand.request_id) ∧ req.request_id = cand.request_id ∧
      update_request req cand = .ok (req', res) ∧ l' = pre ++ req' :: post) := by
  induction l generalizing l' with
  | nil =>
    left
    simp only [update_requests] at h
    injection h with h
    injection h with h1 h2
    exact ⟨fun r hr => absurd hr (List.not_mem_nil r), h1.symm, h2.symm⟩
  | cons a as ih =>
    simp only [update_requests] at h
    by_cases ha : cand.request_id = a.request_id
    · right
      simp only [ha, if_true] at h
      cases hu : update_request a cand with
      | error e => rw [hu] at h; cases h
      | ok v =>
        obtain ⟨r', res'⟩ := v
        rw [hu] at h
        simp only at h
        injection h with h
        injection h with h1 h2
        subst h1; subst h2
        exact ⟨[], a, as, r', rfl, fun r hr => absurd hr (List.not_mem_nil r), ha.symm, hu, rfl⟩
    · simp only [ha, if_false] at h
      cases hu : update_requests cand as with
      | error e => rw [hu] at h; cases h
      | ok v =>
        obtain ⟨rest', res'⟩ := v
        rw [hu] at h
        simp only at h
        injection h with h
        injection h with h1 h2
        subst h1; subst h2
        rcases ih rest' hu with ⟨h1, h2, h3⟩ | ⟨pre, req, post, req', h1, h2, h3, h4, h5⟩
        · left
          refine ⟨?_, by rw [h2], h3⟩
          intro r hr
          rcases List.mem_cons.mp hr with hr | hr
          · subst hr; exact fun h' => ha h'.symm
          · exact h1 r hr
        · right
          refine ⟨a :: pre, req, post, req', by rw [h1]; rfl, ?_, h3, h4, by rw [h5]; rfl⟩
          intro r hr
          rcases List.mem_cons.mp hr with hr | hr
          · subst hr; exact fun h' => ha h'.symm
          · exact h2 r hr

/-- C5: whenever `update_generated_sequence` returns, either no pulled
request has the candidate's id and every request is left as it was, or the
first request with that id is the only one changed, and its
`num_processed_tokens` becomes `prompt_len` exactly when at least one token
was removed and the removal left the sequence without generated ids; in
every other case it keeps its value. -/
theorem update_generated_sequence_processed_tokens (q : RequestQueues SequenceGroup)
    (cand : GeneratedSequence) (q' : RequestQueues SequenceGroup) (res : UpdateSeqResult)
    (h : update_generated_sequence q cand = .ok (q', res)) :
    ((∀ r ∈ pulled q, r.request_id ≠ cand.request_id) ∧ q'.m_requests = pulled q ∧
      res = ⟨0, 0⟩) ∨
    (∃ pre req post req', pulled q = pre ++ req :: post ∧
      (∀ r ∈ pre, r.request_id ≠ cand.request_id) ∧ req.request_id = cand.request_id ∧
      q'.m_requests = pre ++ req' :: post ∧
      (emptied_by_removal req res.removed_tokens_cnt →
        req'.num_processed_tokens = req.prompt_len) ∧
      (¬ emptied_by_removal req res.removed_tokens_cnt →
        req'.num_processed_tokens = req.num_processed_tokens)) := by
  unfold update_generated_sequence at h
  simp only at h
  cases hu : update_requests cand
      (_pull_awaiting_requests SequenceGroup.pause_generation q).m_requests with
  | error e => rw [hu] at h; cases h
  | ok v =>
    obtain ⟨l', res'⟩ := v
    rw [hu] at h
    simp only at h
    injection h with h
    injection h with h1 h2
    subst h1; subst h2
    rcases update_requests_cases cand _ l' res' hu with
      ⟨h1, h2, h3⟩ | ⟨pre, req, post, req', h1, h2, h3, h4, h5⟩
    · left; exact ⟨h1, h2, h3⟩
    · right
      have := update_request_processed_tokens req cand req' res' h4
      exact ⟨pre, req, post, req', h1, h2, h3, h5, this.1, this.2⟩

/-- C5, witness: present `[1, 2, 3]` against candidate `[4, 5]`, where all
three tokens are removed and the counter becomes the prompt length. -/
theorem update_generated_sequence_processed_tokens_witness :
    ((∀ r ∈ pulled (sample_queue [1, 2, 3]), r.request_id ≠ (sample_candidate [4, 5]).request_id) ∧
      [(⟨7, 4, [⟨0, [4, 5], [0, 0]⟩], 4, false⟩ : SequenceGroup)] = pulled (sample_queue [1, 2, 3]) ∧
      (⟨2, 3⟩ : UpdateSeqResult) = ⟨0, 0⟩) ∨
    (∃ pre req post req', pulled (sample_queue [1, 2, 3]) = pre ++ req :: post ∧
      (∀ r ∈ pre, r.request_id ≠ (sample_candidate [4, 5]).request_id) ∧
      req.request_id = (sample_candidate [4, 5]).request_id ∧
      [(⟨7, 4, [⟨0, [4, 5], [0, 0]⟩], 4, false⟩ : SequenceGroup)] = pre ++ req' :: post ∧
      (emptied_by_removal req 3 → req'.num_processed_tokens = req.prompt_len) ∧
      (¬ emptied_by_removal req 3 → req'.num_processed_tokens = req.num_processed_tokens)) :=
  update_generated_sequence_processed_tokens (sample_queue [1, 2, 3]) (sample_candidate [4, 5])
    ⟨[⟨7, 4, [⟨0, [4, 5], [0, 0]⟩], 4, false⟩], []⟩ ⟨2, 3⟩ rfl

/-! ### Loops and the token budget -/

theorem for_range_invariant {σ : Type} (P : σ → Prop)
    (body : Nat → σ → Except Error (LoopStep σ))
    (hbody : ∀ i s r, P s → body i s = .ok r → P r.state) :
    ∀ n i s s', P s → for_range body n i s = .ok s' → P s' := by
  intro n
  induction n with
  | zero =>
    intro i s s' hs h
    simp only [for_range] at h
    injection h with h
    subst h
    exact hs
  | succ n ih =>
    intro i s s' hs h
    simp only [for_range] at h
    cases hb : body i s with
    | error e => rw [hb] at h; cases h
    | ok r =>
      rw [hb] at h
      have hr := hbody i s r hs hb
      cases r with
      | next s1 => exact ih (i + 1) s1 s' hr h
      | stop s1 =>
        simp only at h
        injection h with h
        subst h
        exact hr

section SchedulerFacts

variable {G B : Type} (gops : SequenceGroupOps G) (bops : BlockManagerOps B G)

theorem _preempt_by_recompute_frame (self : Scheduler B) (groups : List G) (victim needed : Nat)
    (self' : Scheduler B) (groups' : List G) (freed : Bool)
    (h : _preempt_by_recompute gops bops self groups victim needed = .ok (self', groups', freed)) :
    self'.m_config = self.m_config ∧
    self'.m_can_use_partial_preemption = self.m_can_use_partial_preemption ∧
    groups'.length = groups.length := by
  unfold _preempt_by_recompute at h
  cases hg : groups[victim]? with
  | none => rw [hg] at h; cases h
  | some g =>
    rw [hg] at h
    simp only at h
    split at h
    · injection h with h
      injection h with h1 h2
      injection h2 with h2 h3
      subst h1; subst h2
      exact ⟨rfl, rfl, List.length_set _ _ _⟩
    · split at h
      · cases h
      · injection h with h
        injection h with h1 h2
        injection h2 with h2 h3
        subst h1; subst h2
        exact ⟨rfl, rfl, List.length_set _ _ _⟩

theorem _apply_preemption_frame (id : Nat) :
    ∀ (fuel : Nat) (self : Scheduler B) (groups : List G) (self' : Scheduler B)
      (groups' : List G),
      _apply_preemption gops bops id fuel self groups = .ok (self', groups') →
      self'.m_config = self.m_config ∧
      self'.m_can_use_partial_preemption = self.m_can_use_partial_preemption ∧
      groups'.length = groups.length := by
  intro fuel
  induction fuel with
  | zero =>
    intro self groups self' groups' h
    unfold _apply_preemption at h
    cases hg : groups[id]? with
    | none => rw [hg] at h; cases h
    | some g =>
      rw [hg] at h
      simp only at h
      split at h
      · cases h
      · injection h with h
        injection h with h1 h2
        subst h1; subst h2
        exact ⟨rfl, rfl, rfl⟩
  | succ fuel ih =>
    intro self groups self' groups' h
    unfold _apply_preemption at h
    cases hg : groups[id]? with
    | none => rw [hg] at h; cases h
    | some g =>
      rw [hg] at h
      simp only at h
      split at h
      · split at h
        · injection h with h
          injection h with h1 h2
          subst h1; subst h2
          exact ⟨rfl, rfl, rfl⟩
        · cases hp : _preempt_by_recompute gops bops self groups
              (_get_low_priority_sequence_group_id gops groups)
              (bops.required_blocks_count self.m_block_manager g) with
          | error e => rw [hp] at h; cases h
          | ok v =>
            obtain ⟨s1, g1, f1⟩ := v
            rw [hp] at h
            simp only at h
            have hf := _preempt_by_recompute_frame gops bops _ _ _ _ _ _ _ hp
            split at h
            · injection h with h
              injection h with h1 h2
              subst h1; subst h2
              exact hf
            · have := ih s1 g1 self' groups' h
              exact ⟨this.1.trans hf.1, this.2.1.trans hf.2.1, this.2.2.trans hf.2.2⟩
      · injection h with h
        injection h with h1 h2
        subst h1; subst h2
        exact ⟨rfl, rfl, rfl⟩

end SchedulerFacts

theorem size_sub_eq_sub (a b : Nat) (ha : a < 2 ^ 64) (hb : b ≤ a) : size_sub a b = a - b :=
  size_sub_of_le a b ha hb

theorem size_add_eq_add (a b : Nat) (h : a + b < 2 ^ 64) : size_add a b = a + b := by
  unfold size_add; exact Nat.mod_eq_of_lt h

theorem size_mul_eq_mul (a b : Nat) (h : a * b < 2 ^ 64) : size_mul a b = a * b := by
  unfold size_mul; exact Nat.mod_eq_of_lt h

theorem generate_total_le (mx total n q : Nat) (hmx : mx < 2 ^ 64) (ht : total ≤ mx) :
    size_add total (size_mul (min (size_sub mx total / n) q) n) ≤ mx := by
  rw [size_sub_eq_sub mx total hmx ht]
  have h1 : min ((mx - total) / n) q * n ≤ mx - total :=
    le_trans (Nat.mul_le_mul_right n (Nat.min_le_left _ _)) (Nat.div_mul_le_self _ _)
  rw [size_mul_eq_mul _ _ (by omega), size_add_eq_add _ _ (by omega)]
  omega

theorem prompt_total_le (mx total a c : Nat) (hmx : mx < 2 ^ 64) (ht : total ≤ mx) :
    size_add total (size_mul (min (min (size_sub mx total) a) c) 1) ≤ mx := by
  rw [size_sub_eq_sub mx total hmx ht]
  have h1 : min (min (mx - total) a) c ≤ mx - total :=
    le_trans (Nat.min_le_left _ _) (Nat.min_le_left _ _)
  rw [size_mul_eq_mul _ _ (by omega), size_add_eq_add _ _ (by omega)]
  omega

theorem vllm_total_le (mx total len : Nat) (hmx : mx < 2 ^ 64) (ht : total ≤ mx)
    (hlen : ¬ size_sub mx total < len) : size_add total len ≤ mx := by
  rw [size_sub_eq_sub mx total hmx ht] at hlen
  rw [size_add_eq_add _ _ (by omega)]
  omega



section BudgetFacts

variable {G B : Type} (gops : SequenceGroupOps G) (bops : BlockManagerOps B G)

theorem stop_when_full_state (st : SchedState G B) : (stop_when_full st).state = st := by
  unfold stop_when_full
  split <;> rfl

theorem size_div_ok (a b q : Nat) (h : size_div a b = .ok q) : b ≠ 0 ∧ q = a / b := by
  unfold size_div at h
  split at h
  · cases h
  · rename_i hb
    injection h with h
    exact ⟨hb, h.symm⟩

theorem generate_phase_body_budget (cfg : SchedulerConfig)
    (hmx : cfg.max_num_batched_tokens < 2 ^ 64) (fuel i : Nat) (s : SchedState G B)
    (r : LoopStep (SchedState G B)) (hs : within_budget cfg s)
    (h : generate_phase_body gops bops fuel i s = .ok r) : within_budget cfg r.state := by
  obtain ⟨hc, ht⟩ := hs
  unfold generate_phase_body at h
  cases hg : s.sequence_groups[i]? with
  | none => rw [hg] at h; cases h
  | some g =>
    rw [hg] at h
    simp only at h
    split at h
    · split at h
      · cases h
      · cases hd : size_div (size_sub s.self.m_config.max_num_batched_tokens
            s.scheduler_output.m_total_num_scheduled_tokens) (gops.num_running_seqs g) with
        | error e => rw [hd] at h; cases h
        | ok q =>
          rw [hd] at h
          simp only at h
          have hq := (size_div_ok _ _ _ hd).2
          split at h
          · injection h with h; subst h; exact ⟨hc, ht⟩
          · cases ha : _apply_preemption gops bops i fuel s.self
                (s.sequence_groups.set i (gops.schedule_tokens g
                  (min q (gops.get_num_available_tokens_for_batching g)))) with
            | error e => rw [ha] at h; cases h
            | ok v =>
              obtain ⟨self1, groups1⟩ := v
              rw [ha] at h
              simp only at h
              have hf := _apply_preemption_frame gops bops i fuel _ _ _ _ ha
              cases hg1 : groups1[i]? with
              | none => rw [hg1] at h; cases h
              | some g1 =>
                rw [hg1] at h
                simp only at h
                split at h
                · injection h with h; subst h
                  exact ⟨hf.1.trans hc, ht⟩
                · have hle := generate_total_le cfg.max_num_batched_tokens
                    s.scheduler_output.m_total_num_scheduled_tokens (gops.num_running_seqs g)
                    (gops.get_num_available_tokens_for_batching g) hmx ht
                  rw [hc] at hq
                  rw [← hq] at hle
                  injection h with h; subst h
                  rw [stop_when_full_state]
                  exact ⟨hf.1.trans hc, hle⟩
    · injection h with h; subst h; exact ⟨hc, ht⟩

theorem prompt_phase_dynamic_split_fuse_body_budget (cfg : SchedulerConfig)
    (hmx : cfg.max_num_batched_tokens < 2 ^ 64) (i : Nat) (s : SchedState G B)
    (r : LoopStep (SchedState G B)) (hs : within_budget cfg s)
    (h : prompt_phase_dynamic_split_fuse_body gops bops i s = .ok r) :
    within_budget cfg r.state := by
  obtain ⟨hc, ht⟩ := hs
  unfold prompt_phase_dynamic_split_fuse_body at h
  cases hg : s.sequence_groups[i]? with
  | none => rw [hg] at h; cases h
  | some g =>
    rw [hg] at h
    simp only at h
    split at h
    · split at h
      · cases h
      · rename_i hone
        split at h
        · cases h
        · split at h
          · cases h
          · rename_i nrb hdiv
            have hone' : gops.num_running_seqs g = 1 := by
              by_contra hne; exact hone hne
            have hle := prompt_total_le cfg.max_num_batched_tokens
              s.scheduler_output.m_total_num_scheduled_tokens
              (gops.get_num_available_tokens_for_batching g)
              (size_add (size_sub (size_mul (gops.get_num_blocks g) s.self.m_config.block_size)
                  (size_sub (gops.get_num_processed_tokens g) (gops.get_num_evicted_tokens g)))
                (size_mul (min nrb (bops.num_free_blocks s.self.m_block_manager))
                  s.self.m_config.block_size)) hmx ht
            rw [← hc] at hle
            rw [hone'] at h
            injection h with h; subst h
            rw [stop_when_full_state]
            unfold schedule_prompt_chunk
            split
            · exact ⟨hc, by rw [← hc]; exact hle⟩
            · exact ⟨hc, ht⟩
    · injection h with h; subst h; exact ⟨hc, ht⟩

theorem prompt_phase_vllm_body_budget (cfg : SchedulerConfig)
    (hmx : cfg.max_num_batched_tokens < 2 ^ 64) (i : Nat) (v : VllmState G B)
    (r : LoopStep (VllmState G B)) (hs : within_budget cfg v.st)
    (h : prompt_phase_vllm_body gops bops i v = .ok r) : within_budget cfg r.state.st := by
  obtain ⟨hc, ht⟩ := hs
  unfold prompt_phase_vllm_body at h
  simp only at h
  cases hg : v.st.sequence_groups[i]? with
  | none => rw [hg] at h; cases h
  | some g =>
    rw [hg] at h
    simp only at h
    split at h
    · split at h
      · cases h
      · split at h
        · injection h with h; subst h; exact ⟨hc, ht⟩
        · split at h
          · injection h with h; subst h; exact ⟨hc, ht⟩
          · rename_i hlen
            split at h
            · cases h
            · split at h
              · injection h with h; subst h; exact ⟨hc, ht⟩
              · injection h with h; subst h
                rw [hc] at hlen
                exact ⟨hc, vllm_total_le _ _ _ hmx ht hlen⟩
    · injection h with h; subst h; exact ⟨hc, ht⟩

theorem generate_phase_budget (cfg : SchedulerConfig)
    (hmx : cfg.max_num_batched_tokens < 2 ^ 64) (fuel : Nat) (s s' : SchedState G B)
    (hs : within_budget cfg s)
    (h : _schedule_generate_phase_dynamic_split_fuse gops bops fuel s = .ok s') :
    within_budget cfg s' :=
  for_range_invariant (within_budget cfg) _
    (fun i s r => generate_phase_body_budget gops bops cfg hmx fuel i s r) _ _ _ _ hs h

theorem prompt_phase_dynamic_split_fuse_budget (cfg : SchedulerConfig)
    (hmx : cfg.max_num_batched_tokens < 2 ^ 64) (s s' : SchedState G B)
    (hs : within_budget cfg s)
    (h : _schedule_prompt_phase_dynamic_split_fuse gops bops s = .ok s') :
    within_budget cfg s' :=
  for_range_invariant (within_budget cfg) _
    (fun i s r => prompt_phase_dynamic_split_fuse_body_budget gops bops cfg hmx i s r) _ _ _ _ hs h

theorem prompt_phase_vllm_budget (cfg : SchedulerConfig)
    (hmx : cfg.max_num_batched_tokens < 2 ^ 64) (s s' : SchedState G B)
    (hs : within_budget cfg s)
    (h : _schedule_prompt_phase_vllm gops bops s = .ok s') :
    within_budget cfg s' := by
  unfold _schedule_prompt_phase_vllm at h
  split at h
  · cases h
  · split at h
    · cases h
    · split at h
      · cases h
      · simp only at h
        cases hf : for_range (prompt_phase_vllm_body gops bops) s.sequence_groups.length 0
            ⟨s, _num_running_sequence_groups gops s.sequence_groups⟩ with
        | error e => rw [hf] at h; cases h
        | ok v =>
          rw [hf] at h
          injection h with h; subst h
          exact for_range_invariant (fun v : VllmState G B => within_budget cfg v.st) _
            (fun i s r => prompt_phase_vllm_body_budget gops bops cfg hmx i s r) _ _ _ _ hs hf

theorem schedule_phases_budget (cfg : SchedulerConfig)
    (hmx : cfg.max_num_batched_tokens < 2 ^ 64) (fuel : Nat) (s s' : SchedState G B)
    (hs : within_budget cfg s) (h : schedule_phases gops bops fuel s = .ok s') :
    within_budget cfg s' := by
  unfold schedule_phases at h
  split at h
  · cases hgp : _schedule_generate_phase_dynamic_split_fuse gops bops fuel s with
    | error e => rw [hgp] at h; cases h
    | ok s1 =>
      rw [hgp] at h
      simp only at h
      have h1 := generate_phase_budget gops bops _ hmx fuel _ _ hs hgp
      exact prompt_phase_dynamic_split_fuse_budget gops bops _ hmx _ _ h1 h
  · cases hvp : _schedule_prompt_phase_vllm gops bops s with
    | error e => rw [hvp] at h; cases h
    | ok s1 =>
      rw [hvp] at h
      simp only at h
      have h1 := prompt_phase_vllm_budget gops bops _ hmx _ _ hs hvp
      split at h
      · exact generate_phase_budget gops bops _ hmx fuel _ _ h1 h
      · injection h with h; subst h
        exact h1

/-- C1: whatever the active set, the block manager and the preemption
budget, an output returned by `Scheduler::schedule` has
`m_total_num_scheduled_tokens <= max_num_batched_tokens`, under the vLLM
policy and under the dynamic-split-fuse policy alike (`max_num_batched_tokens`
being a `size_t`). -/
theorem schedule_total_le_max_num_batched_tokens (fuel : Nat) (self : Scheduler B)
    (sequence_groups : List G) (st' : SchedState G B)
    (hmx : self.m_config.max_num_batched_tokens < 2 ^ 64)
    (h : schedule gops bops fuel self sequence_groups = .ok st') :
    st'.scheduler_output.m_total_num_scheduled_tokens ≤ self.m_config.max_num_batched_tokens := by
  have h0 : within_budget self.m_config (⟨self, sequence_groups, {}⟩ : SchedState G B) :=
    ⟨rfl, Nat.zero_le _⟩
  unfold schedule at h
  cases hp : schedule_phases gops bops fuel ⟨self, sequence_groups, {}⟩ with
  | error e => rw [hp] at h; cases h
  | ok s1 =>
    rw [hp] at h
    simp only at h
    injection h with h; subst h
    exact (schedule_phases_budget gops bops _ hmx fuel _ _ h0 hp).2

end BudgetFacts

/-- C1, witness: the vLLM policy on the sample prompts schedules 5 + 3 = 8
tokens out of 8. -/
theorem schedule_total_le_max_num_batched_tokens_witness :
    (sample_scheduler false).m_config.max_num_batched_tokens < 2 ^ 64 ∧
    schedule sample_gops sample_bops 4 (sample_scheduler false) sample_prompts
      = .ok (sample_schedule false) ∧
    (sample_schedule false).scheduler_output.m_total_num_scheduled_tokens
      ≤ (sample_scheduler false).m_config.max_num_batched_tokens :=
  ⟨by decide, rfl,
    schedule_total_le_max_num_batched_tokens sample_gops sample_bops 4 (sample_scheduler false)
      sample_prompts (sample_schedule false) (by decide) rfl⟩

section VllmFacts

variable {G B : Type} (gops : SequenceGroupOps G) (bops : BlockManagerOps B G)

theorem prompt_phase_vllm_body_inv (i : Nat) (v : VllmState G B)
    (r : LoopStep (VllmState G B)) (h : prompt_phase_vllm_body gops bops i v = .ok r) :
    ∃ g, v.st.sequence_groups[i]? = some g ∧
      ((vllm_prompt_candidate gops v.st.self.m_can_use_partial_preemption g = false ∧
          r = .next v) ∨
        (vllm_prompt_candidate gops v.st.self.m_can_use_partial_preemption g = true ∧
          vllm_assertions gops v.st.self.m_config g = true ∧
          ((¬ vllm_limits_hold gops bops v g ∧ r = .stop v) ∨
            (vllm_limits_hold gops bops v g ∧
              r = .next (admit_prompt gops bops i g
                (gops.get_num_available_tokens_for_batching g) v))))) := by
  unfold prompt_phase_vllm_body at h
  simp only at h
  cases hg : v.st.sequence_groups[i]? with
  | none => rw [hg] at h; cases h
  | some g =>
    rw [hg] at h
    simp only at h
    refine ⟨g, rfl, ?_⟩
    split at h
    · rename_i hcand
      right
      split at h
      · cases h
      · rename_i hass
        have hass' : vllm_assertions gops v.st.self.m_config g = true := by
          cases hb : vllm_assertions gops v.st.self.m_config g with
          | true => rfl
          | false => rw [hb] at hass; exact absurd rfl hass
        refine ⟨hcand, hass', ?_⟩
        split at h
        · rename_i hseqs
          injection h with h
          left
          exact ⟨fun hl => absurd hl.1 (by omega), h.symm⟩
        · rename_i hseqs
          split at h
          · rename_i hlen
            injection h with h
            left
            exact ⟨fun hl => hl.2.1 hlen, h.symm⟩
          · rename_i hlen
            split at h
            · cases h
            · rename_i nrb hdiv
              split at h
              · rename_i hcan
                injection h with h
                left
                refine ⟨?_, h.symm⟩
                rintro ⟨_, _, n', hd', hc'⟩
                rw [hdiv] at hd'
                injection hd' with hd'
                subst hd'
                rw [hc'] at hcan
                exact absurd hcan (by decide)
              · rename_i hcan
                injection h with h
                right
                refine ⟨⟨by omega, hlen, nrb, hdiv, ?_⟩, h.symm⟩
                cases hb : bops.can_allocate_blocks v.st.self.m_block_manager nrb with
                | true => rfl
                | false => rw [hb] at hcan; exact absurd rfl hcan
    · rename_i hcand
      left
      injection h with h
      refine ⟨?_, h.symm⟩
      cases hb : vllm_prompt_candidate gops v.st.self.m_can_use_partial_preemption g with
      | true => exact absurd hb hcand
      | false => rfl

theorem _schedule_prompt_phase_vllm_inv (st st' : SchedState G B)
    (h : _schedule_prompt_phase_vllm gops bops st = .ok st') :
    st.self.m_config.dynamic_split_fuse = false ∧
    st.self.m_config.max_num_seqs ≤ st.self.m_config.max_num_batched_tokens ∧
    st.scheduler_output.m_scheduled_sequence_groups_ids = [] ∧
    ∃ v, for_range (prompt_phase_vllm_body gops bops) st.sequence_groups.length 0
        ⟨st, _num_running_sequence_groups gops st.sequence_groups⟩ = .ok v ∧ v.st = st' := by
  unfold _schedule_prompt_phase_vllm at h
  split at h
  · cases h
  · rename_i h1
    split at h
    · cases h
    · rename_i h2
      split at h
      · cases h
      · rename_i h3
        simp only at h
        cases hf : for_range (prompt_phase_vllm_body gops bops) st.sequence_groups.length 0
            ⟨st, _num_running_sequence_groups gops st.sequence_groups⟩ with
        | error e => rw [hf] at h; cases h
        | ok v =>
          rw [hf] at h
          injection h with h
          refine ⟨?_, by omega, ?_, v, rfl, h⟩
          · cases hb : st.self.m_config.dynamic_split_fuse with
            | true => exact absurd hb h1
            | false => rfl
          · by_contra hne; exact h3 hne

/-- C8: the vLLM prompt phase admits at most `max_num_seqs` minus the number
of groups that could generate tokens when it was entered (the subtraction
truncated at 0, so none when that number is already `>= max_num_seqs`). -/
theorem vllm_prompt_phase_admits_at_most (st st' : SchedState G B)
    (h : _schedule_prompt_phase_vllm gops bops st = .ok st') :
    st'.scheduler_output.m_scheduled_sequence_groups_ids.length ≤
      st.self.m_config.max_num_seqs - _num_running_sequence_groups gops st.sequence_groups := by
  obtain ⟨_, _, hids, v, hf, hv⟩ := _schedule_prompt_phase_vllm_inv gops bops st st' h
  have hinv := for_range_invariant
    (fun v : VllmState G B => v.st.self.m_config = st.self.m_config ∧
      v.num_running_sequence_groups = _num_running_sequence_groups gops st.sequence_groups +
        v.st.scheduler_output.m_scheduled_sequence_groups_ids.length ∧
      v.st.scheduler_output.m_scheduled_sequence_groups_ids.length ≤
        st.self.m_config.max_num_seqs - _num_running_sequence_groups gops st.sequence_groups)
    (prompt_phase_vllm_body gops bops)
    (by
      intro i s r hs hb
      obtain ⟨hc, hr, hl⟩ := hs
      obtain ⟨g, _, hcase⟩ := prompt_phase_vllm_body_inv gops bops i s r hb
      rcases hcase with ⟨_, hr'⟩ | ⟨_, _, ⟨_, hr'⟩ | ⟨hlim, hr'⟩⟩
      · subst hr'; exact ⟨hc, hr, hl⟩
      · subst hr'; exact ⟨hc, hr, hl⟩
      · subst hr'
        have h1 := hlim.1
        rw [hc] at h1
        simp only [LoopStep.state, admit_prompt, List.length_append, List.length_singleton]
        refine ⟨hc, by omega, by omega⟩)
    _ _ _ _ ⟨rfl, by simp [hids], by simp [hids]⟩ hf
  rw [← hv]
  exact hinv.2.2

/-- C8, witness: with `max_num_seqs = 2` and no request able to generate, the
sample prompts get two admissions. -/
theorem vllm_prompt_phase_admits_at_most_witness :
    _schedule_prompt_phase_vllm sample_gops sample_bops
        ⟨sample_scheduler false, sample_prompts, {}⟩
      = .ok (result_or (_schedule_prompt_phase_vllm sample_gops sample_bops
          ⟨sample_scheduler false, sample_prompts, {}⟩)
          ⟨sample_scheduler false, sample_prompts, {}⟩) ∧
    (result_or (_schedule_prompt_phase_vllm sample_gops sample_bops
        ⟨sample_scheduler false, sample_prompts, {}⟩)
        ⟨sample_scheduler false, sample_prompts, {}⟩).scheduler_output.m_scheduled_sequence_groups_ids.length
      ≤ (sample_scheduler false).m_config.max_num_seqs -
        _num_running_sequence_groups sample_gops sample_prompts :=
  ⟨rfl, vllm_prompt_phase_admits_at_most sample_gops sample_bops
    ⟨sample_scheduler false, sample_prompts, {}⟩ _ rfl⟩

end VllmFacts

section PhaseSeparation

variable {G B : Type} (gops : SequenceGroupOps G) (bops : BlockManagerOps B G)

theorem generate_phase_body_is_prompt (fuel i : Nat) (s : SchedState G B)
    (r : LoopStep (SchedState G B)) (h : generate_phase_body gops bops fuel i s = .ok r) :
    r.state.scheduler_output.is_prompt = s.scheduler_output.is_prompt := by
  unfold generate_phase_body at h
  simp only at h
  cases hg : s.sequence_groups[i]? with
  | none => rw [hg] at h; cases h
  | some g =>
    rw [hg] at h
    simp only at h
    split at h
    · split at h
      · cases h
      · split at h
        · cases h
        · split at h
          · injection h with h; subst h; rfl
          · split at h
            · cases h
            · split at h
              · cases h
              · split at h
                · injection h with h; subst h; rfl
                · injection h with h; subst h
                  rw [stop_when_full_state]
                  rfl
    · injection h with h; subst h; rfl

theorem generate_phase_is_prompt (fuel : Nat) (s s' : SchedState G B)
    (h : _schedule_generate_phase_dynamic_split_fuse gops bops fuel s = .ok s') :
    s'.scheduler_output.is_prompt = s.scheduler_output.is_prompt :=
  for_range_invariant
    (fun t : SchedState G B => t.scheduler_output.is_prompt = s.scheduler_output.is_prompt) _
    (fun i t r ht hb => (generate_phase_body_is_prompt gops bops fuel i t r hb).trans ht)
    _ _ _ _ rfl h

theorem prompt_phase_vllm_flag (st st' : SchedState G B)
    (hp : st.scheduler_output.is_prompt = false)
    (h : _schedule_prompt_phase_vllm gops bops st = .ok st') :
    (st'.scheduler_output.is_prompt = false → st' = st) ∧
    (st'.scheduler_output.is_prompt = true →
      st'.scheduler_output.m_scheduled_sequence_groups_ids ≠ []) ∧
    st'.scheduler_output.m_block_copy_map = st.scheduler_output.m_block_copy_map := by
  obtain ⟨_, _, _, v, hf, hv⟩ := _schedule_prompt_phase_vllm_inv gops bops st st' h
  have hinv := for_range_invariant
    (fun v : VllmState G B =>
      (v.st.scheduler_output.is_prompt = false → v.st = st) ∧
      (v.st.scheduler_output.is_prompt = true →
        v.st.scheduler_output.m_scheduled_sequence_groups_ids ≠ []) ∧
      v.st.scheduler_output.m_block_copy_map = st.scheduler_output.m_block_copy_map)
    (prompt_phase_vllm_body gops bops)
    (by
      intro i s r hs hb
      obtain ⟨g, _, hcase⟩ := prompt_phase_vllm_body_inv gops bops i s r hb
      rcases hcase with ⟨_, hr'⟩ | ⟨_, _, ⟨_, hr'⟩ | ⟨hlim, hr'⟩⟩
      · subst hr'; exact hs
      · subst hr'; exact hs
      · subst hr'
        refine ⟨?_, ?_, hs.2.2⟩
        · intro hc
          simp only [LoopStep.state, admit_prompt] at hc
          cases hc
        · intro _
          simp [LoopStep.state, admit_prompt])
    st.sequence_groups.length 0
    ⟨st, _num_running_sequence_groups gops st.sequence_groups⟩ v
    (by
      refine ⟨fun _ => rfl, fun hc => ?_, rfl⟩
      simp only at hc
      rw [hp] at hc; cases hc) hf
  rw [← hv]
  exact hinv

/-- C9: under the vLLM policy a returned `schedule` call is one of two runs.
If the output has `is_prompt = true`, it is the output of the prompt phase
alone (the generation phase was not run), it names at least one group and
its block copy map is empty.  If the output has `is_prompt = false`, the
prompt phase returned the state it was given, having admitted no group, and
the output is that of the generation phase run on that state. -/
theorem schedule_vllm_never_mixes_phases (fuel : Nat) (self : Scheduler B)
    (sequence_groups : List G) (st' : SchedState G B)
    (hmode : self.m_config.dynamic_split_fuse = false)
    (h : schedule gops bops fuel self sequence_groups = .ok st') :
    (st'.scheduler_output.is_prompt = true →
      ∃ s1, _schedule_prompt_phase_vllm gops bops ⟨self, sequence_groups, {}⟩ = .ok s1 ∧
        st' = { s1 with sequence_groups := _clear_waiting_sequences gops s1.sequence_groups } ∧
        st'.scheduler_output.m_scheduled_sequence_groups_ids ≠ [] ∧
        st'.scheduler_output.m_block_copy_map = []) ∧
    (st'.scheduler_output.is_prompt = false →
      _schedule_prompt_phase_vllm gops bops ⟨self, sequence_groups, {}⟩
        = .ok ⟨self, sequence_groups, {}⟩ ∧
      ∃ s2, _schedule_generate_phase_dynamic_split_fuse gops bops fuel
          ⟨self, sequence_groups, {}⟩ = .ok s2 ∧
        st' = { s2 with sequence_groups := _clear_waiting_sequences gops s2.sequence_groups }) := by
  unfold schedule at h
  cases hp : schedule_phases gops bops fuel ⟨self, sequence_groups, {}⟩ with
  | error e => rw [hp] at h; cases h
  | ok s =>
    rw [hp] at h
    simp only at h
    injection h with h
    subst h
    unfold schedule_phases at hp
    simp only [hmode, Bool.false_eq_true, if_false] at hp
    cases hv : _schedule_prompt_phase_vllm gops bops ⟨self, sequence_groups, {}⟩ with
    | error e => rw [hv] at hp; cases hp
    | ok s1 =>
      rw [hv] at hp
      simp only at hp
      have hflag := prompt_phase_vllm_flag gops bops _ s1 rfl hv
      cases hb : s1.scheduler_output.is_prompt with
      | true =>
        rw [hb] at hp
        simp only [Bool.not_true, Bool.false_eq_true, if_false] at hp
        injection hp with hp
        subst hp
        constructor
        · intro _
          exact ⟨s1, rfl, rfl, hflag.2.1 hb, hflag.2.2⟩
        · intro hc
          simp only at hc
          rw [hb] at hc; cases hc
      | false =>
        rw [hb] at hp
        simp only [Bool.not_false, if_true] at hp
        have hs1 := hflag.1 hb
        subst hs1
        have hkeep := generate_phase_is_prompt gops bops fuel _ s hp
        constructor
        · intro hc
          simp only at hc
          rw [hkeep] at hc
          cases hc
        · intro _
          exact ⟨rfl, s, hp, rfl⟩

/-- C9, witness: the vLLM policy on the sample prompts. -/
theorem schedule_vllm_never_mixes_phases_witness :
    (sample_scheduler false).m_config.dynamic_split_fuse = false ∧
    schedule sample_gops sample_bops 4 (sample_scheduler false) sample_prompts
      = .ok (sample_schedule false) ∧
    ((sample_schedule false).scheduler_output.is_prompt = true →
      ∃ s1, _schedule_prompt_phase_vllm sample_gops sample_bops
          ⟨sample_scheduler false, sample_prompts, {}⟩ = .ok s1 ∧
        sample_schedule false =
          { s1 with sequence_groups := _clear_waiting_sequences sample_gops s1.sequence_groups } ∧
        (sample_schedule false).scheduler_output.m_scheduled_sequence_groups_ids ≠ [] ∧
        (sample_schedule false).scheduler_output.m_block_copy_map = []) ∧
    ((sample_schedule false).scheduler_output.is_prompt = false →
      _schedule_prompt_phase_vllm sample_gops sample_bops
          ⟨sample_scheduler false, sample_prompts, {}⟩
        = .ok ⟨sample_scheduler false, sample_prompts, {}⟩ ∧
      ∃ s2, _schedule_generate_phase_dynamic_split_fuse sample_gops sample_bops 4
          ⟨sample_scheduler false, sample_prompts, {}⟩ = .ok s2 ∧
        sample_schedule false =
          { s2 with sequence_groups := _clear_waiting_sequences sample_gops s2.sequence_groups }) :=
  ⟨rfl, rfl,
    schedule_vllm_never_mixes_phases sample_gops sample_bops 4 (sample_scheduler false)
      sample_prompts (sample_schedule false) rfl rfl⟩

end PhaseSeparation

section PromptChunk

variable {G B : Type} (gops : SequenceGroupOps G) (bops : BlockManagerOps B G)

theorem ceil_mul_le (r bs : Nat) : (r + bs - 1) / bs * bs ≤ r + bs - 1 :=
  Nat.div_mul_le_self _ _

theorem size_div_eq (a b : Nat) (hb : 0 < b) : size_div a b = .ok (a / b) := by
  unfold size_div
  rw [if_neg (by omega)]

/-- C10: in the dynamic-split-fuse prompt phase, for a group that is looked at
(it cannot generate and is not waiting, has one running sequence and passes
the slot assertion), the iteration returns and schedules
`n = min (max_num_batched_tokens - total) available (free_slots + b * block_size)`
tokens, where `free_slots` are the free slots of the group's blocks,
`b = min (ceil (required / block_size)) free_blocks` and `required` are the
slots still missing for `min (max_num_batched_tokens - total) available`.
When `n > 0` the group is scheduled `n` tokens, `allocate` is called for
exactly `b` blocks (not at all when `b = 0`), the group is recorded and the
total grows by `n`; when `n = 0` nothing changes.  Always
`n <= free_slots + b * block_size` and `b <= free_blocks`.  The arithmetic is
that of `size_t`, for values that fit. -/
theorem prompt_phase_dynamic_split_fuse_chunk (i : Nat) (st : SchedState G B) (g : G)
    (hg : st.sequence_groups[i]? = some g)
    (hgen : gops.can_generate_tokens g = false) (hwait : gops.is_waiting g = false)
    (hone : gops.num_running_seqs g = 1)
    (hbs : 0 < st.self.m_config.block_size)
    (hbudget : st.scheduler_output.m_total_num_scheduled_tokens
      ≤ st.self.m_config.max_num_batched_tokens)
    (hfit : st.self.m_config.max_num_batched_tokens + st.self.m_config.block_size < 2 ^ 64)
    (hslots : gops.get_num_blocks g * st.self.m_config.block_size < 2 ^ 64)
    (hev : gops.get_num_evicted_tokens g ≤ gops.get_num_processed_tokens g)
    (hproc : gops.get_num_processed_tokens g < 2 ^ 64)
    (hocc : gops.get_num_processed_tokens g - gops.get_num_evicted_tokens g
      ≤ gops.get_num_blocks g * st.self.m_config.block_size) :
    let budget := st.self.m_config.max_num_batched_tokens
      - st.scheduler_output.m_total_num_scheduled_tokens
    let available := gops.get_num_available_tokens_for_batching g
    let free_slots := gops.get_num_blocks g * st.self.m_config.block_size
      - (gops.get_num_processed_tokens g - gops.get_num_evicted_tokens g)
    let required := min budget available - free_slots
    let b := min ((required + st.self.m_config.block_size - 1) / st.self.m_config.block_size)
      (bops.num_free_blocks st.self.m_block_manager)
    let n := min (min budget available) (free_slots + b * st.self.m_config.block_size)
    let st' := schedule_prompt_chunk gops bops i g n b 1 st
    prompt_phase_dynamic_split_fuse_body gops bops i st = .ok (stop_when_full st') ∧
    n ≤ free_slots + b * st.self.m_config.block_size ∧
    b ≤ bops.num_free_blocks st.self.m_block_manager ∧
    (0 < n →
      st'.sequence_groups = st.sequence_groups.set i (gops.schedule_tokens g n) ∧
      st'.self.m_block_manager =
        (if 0 < b then
          bops.allocate st.self.m_block_manager (gops.first_sequence_id g) b
            (gops.get_prompt_ids g)
        else st.self.m_block_manager) ∧
      st'.scheduler_output.m_scheduled_sequence_groups_ids =
        st.scheduler_output.m_scheduled_sequence_groups_ids ++ [i] ∧
      st'.scheduler_output.m_total_num_scheduled_tokens =
        st.scheduler_output.m_total_num_scheduled_tokens + n) ∧
    (n = 0 → st' = st) := by
  intro budget available free_slots required b n st'
  have hmx : st.self.m_config.max_num_batched_tokens < 2 ^ 64 := by omega
  have e1 : size_sub st.self.m_config.max_num_batched_tokens
      st.scheduler_output.m_total_num_scheduled_tokens = budget :=
    size_sub_eq_sub _ _ hmx hbudget
  have e2 : size_mul (gops.get_num_blocks g) st.self.m_config.block_size
      = gops.get_num_blocks g * st.self.m_config.block_size := size_mul_eq_mul _ _ hslots
  have e3 : size_sub (gops.get_num_processed_tokens g) (gops.get_num_evicted_tokens g)
      = gops.get_num_processed_tokens g - gops.get_num_evicted_tokens g :=
    size_sub_eq_sub _ _ hproc hev
  have e4 : size_sub (gops.get_num_blocks g * st.self.m_config.block_size)
      (gops.get_num_processed_tokens g - gops.get_num_evicted_tokens g) = free_slots :=
    size_sub_eq_sub _ _ hslots hocc
  have hfs : free_slots < 2 ^ 64 := by
    have : free_slots ≤ gops.get_num_blocks g * st.self.m_config.block_size := Nat.sub_le _ _
    omega
  have hns : min budget available ≤ st.self.m_config.max_num_batched_tokens :=
    le_trans (Nat.min_le_left _ _) (Nat.sub_le _ _)
  have e5 : (if min budget available > free_slots then size_sub (min budget available) free_slots
      else 0) = required := by
    split
    · exact size_sub_eq_sub _ _ (by omega) (by omega)
    · show 0 = min budget available - free_slots
      omega
  have hreq : required ≤ st.self.m_config.max_num_batched_tokens := by
    have : required ≤ min budget available := Nat.sub_le _ _
    omega
  have e6 : size_sub (size_add required st.self.m_config.block_size) 1
      = required + st.self.m_config.block_size - 1 := by
    rw [size_add_eq_add _ _ (by omega), size_sub_eq_sub _ _ (by omega) (by omega)]
  have hb1 : b * st.self.m_config.block_size ≤ required + st.self.m_config.block_size - 1 :=
    le_trans (Nat.mul_le_mul_right _ (Nat.min_le_left _ _))
      (ceil_mul_le required _)
  have hb0 : required = 0 → b = 0 := by
    intro hr
    have : (required + st.self.m_config.block_size - 1) / st.self.m_config.block_size = 0 := by
      rw [hr, Nat.zero_add]
      exact Nat.div_eq_of_lt (by omega)
    show min _ _ = 0
    rw [this]; exact Nat.zero_min _
  have hsum : free_slots + b * st.self.m_config.block_size < 2 ^ 64 := by
    by_cases hr : required = 0
    · rw [hb0 hr]; omega
    · have : free_slots + required = min budget available := by
        show free_slots + (min budget available - free_slots) = _
        have : free_slots < min budget available := by
          by_contra hc
          exact hr (show min budget available - free_slots = 0 by omega)
        omega
      omega
  have e7 : size_mul b st.self.m_config.block_size = b * st.self.m_config.block_size :=
    size_mul_eq_mul _ _ (by omega)
  have e8 : size_add free_slots (b * st.self.m_config.block_size)
      = free_slots + b * st.self.m_config.block_size := size_add_eq_add _ _ hsum
  have hocc' : gops.get_num_blocks g * st.self.m_config.block_size ≥
      gops.get_num_processed_tokens g - gops.get_num_evicted_tokens g := hocc
  refine ⟨?_, Nat.min_le_right _ _, Nat.min_le_right _ _, ?_, ?_⟩
  · unfold prompt_phase_dynamic_split_fuse_body
    simp only [hg, hgen, hwait, hone, Bool.not_false, Bool.and_self, if_true, ne_eq,
      not_true_eq_false, if_false, e1, e2, e3, hocc', not_true, e4, e5, e6,
      size_div_eq _ _ hbs, e7, e8]
  · intro hn
    have hn' : n > 0 := hn
    have hmul : size_mul n 1 = n := by
      rw [size_mul_eq_mul _ _ (by
        have : n ≤ min budget available := Nat.min_le_left _ _
        omega)]
      omega
    have hadd : size_add st.scheduler_output.m_total_num_scheduled_tokens n
        = st.scheduler_output.m_total_num_scheduled_tokens + n := by
      apply size_add_eq_add
      have h1 : n ≤ min budget available := Nat.min_le_left _ _
      have h2 : min budget available ≤ budget := Nat.min_le_left _ _
      omega
    refine ⟨?_, ?_, ?_, ?_⟩
    · show (schedule_prompt_chunk gops bops i g n b 1 st).sequence_groups = _
      unfold schedule_prompt_chunk
      rw [if_pos hn']
    · show (schedule_prompt_chunk gops bops i g n b 1 st).self.m_block_manager = _
      unfold schedule_prompt_chunk
      rw [if_pos hn']
    · show (schedule_prompt_chunk gops bops i g n b 1 st).scheduler_output.m_scheduled_sequence_groups_ids = _
      unfold schedule_prompt_chunk
      rw [if_pos hn']
    · show (schedule_prompt_chunk gops bops i g n b 1
        st).scheduler_output.m_total_num_scheduled_tokens = _
      unfold schedule_prompt_chunk
      rw [if_pos hn']
      show size_add st.scheduler_output.m_total_num_scheduled_tokens (size_mul n 1) = _
      rw [hmul, hadd]
  · intro hn
    show schedule_prompt_chunk gops bops i g n b 1 st = st
    unfold schedule_prompt_chunk
    rw [if_neg (by omega)]

/-- C10, witness: the first sample prompt (5 tokens, no block yet) with 8
tokens of budget, blocks of 4 and 8 free blocks gets `n = 5` tokens and
`b = 2` blocks. -/
theorem prompt_phase_dynamic_split_fuse_chunk_witness :
    prompt_phase_dynamic_split_fuse_body sample_gops sample_bops 0
        ⟨sample_scheduler true, sample_prompts, {}⟩
      = .ok (stop_when_full (schedule_prompt_chunk sample_gops sample_bops 0
          { request_id := 0, prompt_len := 5 } 5 2 1
          ⟨sample_scheduler true, sample_prompts, {}⟩)) ∧
    (schedule_prompt_chunk sample_gops sample_bops 0 { request_id := 0, prompt_len := 5 } 5 2 1
        ⟨sample_scheduler true, sample_prompts, {}⟩).scheduler_output.m_total_num_scheduled_tokens
      = 0 + 5 ∧
    5 ≤ 0 + 2 * 4 ∧ 2 ≤ 8 := by
  have h := prompt_phase_dynamic_split_fuse_chunk sample_gops sample_bops 0
    ⟨sample_scheduler true, sample_prompts, {}⟩ { request_id := 0, prompt_len := 5 }
    rfl rfl rfl rfl (by decide) (by decide) (by decide) (by decide) (by decide) (by decide)
    (by decide)
  exact ⟨h.1, (h.2.2.2.1 (by decide)).2.2.2, h.2.1, h.2.2.1⟩

end PromptChunk

/-! ### The vLLM prompt phase admits a prefix of its candidates -/

theorem for_range_induction {σ : Type} (I : Nat → σ → Prop) (R : σ → Prop)
    (body : Nat → σ → Except Error (LoopStep σ)) (stop_at : Nat)
    (hnext : ∀ i s s', i < stop_at → I i s → body i s = .ok (.next s') → I (i + 1) s')
    (hstop : ∀ i s s', i < stop_at → I i s → body i s = .ok (.stop s') → R s')
    (hend : ∀ s, I stop_at s → R s) :
    ∀ n i s s', i + n = stop_at → I i s → for_range body n i s = .ok s' → R s' := by
  intro n
  induction n with
  | zero =>
    intro i s s' hi hs h
    simp only [for_range] at h
    injection h with h
    subst h
    have : i = stop_at := by omega
    subst this
    exact hend s hs
  | succ n ih =>
    intro i s s' hi hs h
    simp only [for_range] at h
    cases hb : body i s with
    | error e => rw [hb] at h; cases h
    | ok r =>
      rw [hb] at h
      cases r with
      | next s1 =>
        simp only at h
        exact ih (i + 1) s1 s' (by omega) (hnext i s s1 (by omega) hs hb) h
      | stop s1 =>
        simp only at h
        injection h with h
        subst h
        exact hstop i s s1 (by omega) hs hb

theorem filter_range_succ (p : Nat → Bool) (i : Nat) :
    (List.range (i + 1)).filter p = (List.range i).filter p ++ (if p i then [i] else []) := by
  rw [List.range_succ, List.filter_append]
  congr 1
  by_cases h : p i = true
  · simp [h]
  · simp [h]

theorem filter_range_prefix (p : Nat → Bool) (i m : Nat) :
    (List.range i).filter p <+: (List.range (i + m)).filter p := by
  rw [List.range_add, List.filter_append]
  exact List.prefix_append _ _

theorem filter_range_split (p : Nat → Bool) (i m : Nat) (hp : p i = true) :
    ∃ rest, (List.range (i + (m + 1))).filter p = (List.range i).filter p ++ i :: rest := by
  rw [List.range_add, List.filter_append, List.range_succ_eq_map]
  refine ⟨((List.map Nat.succ (List.range m)).map (i + ·)).filter p, ?_⟩
  congr 1
  simp [hp]

theorem mem_filter_range_lt (p : Nat → Bool) (i k : Nat)
    (h : k ∈ (List.range i).filter p) : k < i :=
  List.mem_range.mp (List.mem_filter.mp h).1

theorem pairwise_filter_range (p : Nat → Bool) (i : Nat) :
    ((List.range i).filter p).Pairwise (· < ·) :=
  (List.pairwise_lt_range i).sublist (List.filter_sublist _)

section VllmPrefix

variable {G B : Type} (gops : SequenceGroupOps G) (bops : BlockManagerOps B G)

theorem vllm_assertions_len (cfg : SchedulerConfig) (g : G)
    (h : vllm_assertions gops cfg g = true) :
    gops.get_num_available_tokens_for_batching g ≤ cfg.max_num_batched_tokens := by
  unfold vllm_assertions at h
  simp only [Bool.and_eq_true, decide_eq_true_eq] at h
  exact h.2

theorem whole_tokens_append (groups : List G) (ids : List Nat) (i : Nat) :
    whole_tokens gops groups (ids ++ [i]) =
      whole_tokens gops groups ids + whole_len_at gops groups i := by
  unfold whole_tokens
  simp

theorem blocks_after_admitting_append (groups : List G) (bm : B) (ids : List Nat) (i : Nat) :
    blocks_after_admitting gops bops groups bm (ids ++ [i]) =
      admit_blocks gops bops groups (blocks_after_admitting gops bops groups bm ids) i := by
  unfold blocks_after_admitting
  simp

theorem vllm_trace_group (st0 : SchedState G B) (i : Nat) (v : VllmState G B)
    (htr : vllm_trace gops bops st0 i v) (hi : i < st0.sequence_groups.length) :
    ∃ g0, st0.sequence_groups[i]? = some g0 ∧ v.st.sequence_groups[i]? = some g0 := by
  obtain ⟨_, _, hids, _, _, _, _, hgr, _⟩ := htr
  refine ⟨st0.sequence_groups[i], List.getElem?_eq_getElem hi, ?_⟩
  have := hgr i _ (List.getElem?_eq_getElem hi)
  rw [this]
  have hni : i ∉ v.st.scheduler_output.m_scheduled_sequence_groups_ids := by
    rw [hids]
    intro hmem
    exact absurd (mem_filter_range_lt _ _ _ hmem) (Nat.lt_irrefl i)
  rw [if_neg hni]

theorem vllm_limits_iff (st0 : SchedState G B) (i : Nat) (v : VllmState G B) (g : G)
    (htr : vllm_trace gops bops st0 i v)
    (hbs : 0 < st0.self.m_config.block_size)
    (hfit : st0.self.m_config.max_num_batched_tokens + st0.self.m_config.block_size < 2 ^ 64)
    (hlen : gops.get_num_available_tokens_for_batching g ≤ st0.self.m_config.max_num_batched_tokens) :
    vllm_limits_hold gops bops v g ↔
      vllm_admissible gops bops st0.self st0.sequence_groups
        v.st.scheduler_output.m_scheduled_sequence_groups_ids g := by
  obtain ⟨hc, _, _, hrun, htot, hle, hbm, _, _⟩ := htr
  have hsub : size_sub st0.self.m_config.max_num_batched_tokens
      v.st.scheduler_output.m_total_num_scheduled_tokens =
      st0.self.m_config.max_num_batched_tokens
        - v.st.scheduler_output.m_total_num_scheduled_tokens :=
    size_sub_eq_sub _ _ (by omega) hle
  have hdiv : size_div (size_sub (size_add (gops.get_num_available_tokens_for_batching g)
      st0.self.m_config.block_size) 1) st0.self.m_config.block_size =
      .ok ((gops.get_num_available_tokens_for_batching g + st0.self.m_config.block_size - 1)
        / st0.self.m_config.block_size) := by
    rw [size_add_eq_add _ _ (by omega), size_sub_eq_sub _ _ (by omega) (by omega),
      size_div_eq _ _ hbs]
  unfold vllm_limits_hold vllm_admissible
  rw [hc, hrun, hsub, hdiv, hbm, ← htot]
  constructor
  · rintro ⟨h1, h2, n, h3, h4⟩
    injection h3 with h3
    subst h3
    exact ⟨h1, by omega, h4⟩
  · rintro ⟨h1, h2, h3⟩
    exact ⟨h1, by omega, _, rfl, h3⟩

theorem vllm_trace_skip (st0 : SchedState G B) (i : Nat) (v : VllmState G B)
    (htr : vllm_trace gops bops st0 i v)
    (hc : vllm_candidate_at gops st0.self.m_can_use_partial_preemption st0.sequence_groups i
      = false) :
    vllm_trace gops bops st0 (i + 1) v := by
  obtain ⟨h1, h2, h3, h4, h5, h6, h7, h8, h9⟩ := htr
  refine ⟨h1, h2, ?_, h4, h5, h6, h7, h8, h9⟩
  rw [filter_range_succ, hc, h3]
  simp

theorem vllm_trace_admit (st0 : SchedState G B) (i : Nat) (v : VllmState G B) (g0 : G)
    (htr : vllm_trace gops bops st0 i v)
    (hg0 : st0.sequence_groups[i]? = some g0)
    (hc : vllm_candidate_at gops st0.self.m_can_use_partial_preemption st0.sequence_groups i
      = true)
    (hfit : st0.self.m_config.max_num_batched_tokens < 2 ^ 64)
    (hadm : vllm_admissible gops bops st0.self st0.sequence_groups
      v.st.scheduler_output.m_scheduled_sequence_groups_ids g0) :
    vllm_trace gops bops st0 (i + 1)
      (admit_prompt gops bops i g0 (gops.get_num_available_tokens_for_batching g0) v) := by
  have htr' := htr
  obtain ⟨h1, h2, h3, h4, h5, h6, h7, h8, h9⟩ := htr
  have hlen_at : whole_len_at gops st0.sequence_groups i
      = gops.get_num_available_tokens_for_batching g0 := by
    unfold whole_len_at; rw [hg0]
  have hbud := hadm.2.1
  rw [← h5] at hbud
  have hi : i < st0.sequence_groups.length := by
    by_contra hge
    have : st0.sequence_groups[i]? = none := List.getElem?_eq_none (by omega)
    rw [this] at hg0; cases hg0
  have hvi : i < v.st.sequence_groups.length := by
    obtain ⟨g', _, hv⟩ := vllm_trace_group gops bops st0 i v htr' hi
    by_contra hge
    have : v.st.sequence_groups[i]? = none := List.getElem?_eq_none (by omega)
    rw [this] at hv; cases hv
  refine ⟨h1, h2, ?_, ?_, ?_, ?_, ?_, ?_, ?_⟩
  · show v.st.scheduler_output.m_scheduled_sequence_groups_ids ++ [i] = _
    rw [filter_range_succ, hc, h3]
    simp
  · show v.num_running_sequence_groups + 1 = _ +
      (v.st.scheduler_output.m_scheduled_sequence_groups_ids ++ [i]).length
    rw [h4]; simp; omega
  · show size_add v.st.scheduler_output.m_total_num_scheduled_tokens
        (gops.get_num_available_tokens_for_batching g0) =
      whole_tokens gops st0.sequence_groups
        (v.st.scheduler_output.m_scheduled_sequence_groups_ids ++ [i])
    rw [whole_tokens_append, hlen_at, ← h5, size_add_eq_add _ _ (by omega)]
  · show size_add v.st.scheduler_output.m_total_num_scheduled_tokens
        (gops.get_num_available_tokens_for_batching g0) ≤ _
    rw [size_add_eq_add _ _ (by omega)]
    omega
  · show (bops.append_slots v.st.self.m_block_manager
        (gops.schedule_tokens g0 (gops.get_num_available_tokens_for_batching g0))).1 =
      blocks_after_admitting gops bops st0.sequence_groups st0.self.m_block_manager
        (v.st.scheduler_output.m_scheduled_sequence_groups_ids ++ [i])
    rw [blocks_after_admitting_append, ← h7]
    unfold admit_blocks
    rw [hg0]
  · intro k g hk
    show (v.st.sequence_groups.set i
        (gops.schedule_tokens g0 (gops.get_num_available_tokens_for_batching g0)))[k]? =
      some (if k ∈ v.st.scheduler_output.m_scheduled_sequence_groups_ids ++ [i] then _ else _)
    by_cases hki : k = i
    · subst hki
      rw [hg0] at hk
      injection hk with hk
      subst hk
      rw [List.getElem?_set_self hvi]
      rw [if_pos (by simp)]
    · rw [List.getElem?_set_ne (fun h => hki h.symm)]
      rw [h8 k g hk]
      by_cases hmem : k ∈ v.st.scheduler_output.m_scheduled_sequence_groups_ids
      · rw [if_pos hmem, if_pos (by simp [hmem])]
      · rw [if_neg hmem, if_neg (by simp [hmem, hki])]
  · intro j hj g hg
    have hj' : j < (v.st.scheduler_output.m_scheduled_sequence_groups_ids ++ [i]).length := hj
    simp only [List.length_append, List.length_singleton] at hj'
    have hgoal : ∀ (l : List Nat) (hl : l = v.st.scheduler_output.m_scheduled_sequence_groups_ids ++ [i])
        (hjl : j < l.length), st0.sequence_groups[l[j]]? = some g →
        vllm_admissible gops bops st0.self st0.sequence_groups (l.take j) g := by
      intro l hl hjl hgl
      subst hl
      by_cases hlt : j < v.st.scheduler_output.m_scheduled_sequence_groups_ids.length
      · rw [List.getElem_append_left hlt] at hgl
        rw [List.take_append_of_le_length (by omega)]
        exact h9 j hlt g hgl
      · have hje : j = v.st.scheduler_output.m_scheduled_sequence_groups_ids.length := by omega
        subst hje
        rw [List.getElem_append_right (Nat.le_refl _)] at hgl
        simp only [Nat.sub_self, List.getElem_cons_zero] at hgl
        rw [hg0] at hgl
        injection hgl with hgl
        subst hgl
        rw [List.take_left]
        exact hadm
    exact hgoal _ rfl hj hg

theorem vllm_candidate_at_eq (st0 : SchedState G B) (i : Nat) (v : VllmState G B) (g0 : G)
    (htr : vllm_trace gops bops st0 i v) (hg0 : st0.sequence_groups[i]? = some g0) :
    vllm_candidate_at gops st0.self.m_can_use_partial_preemption st0.sequence_groups i =
      vllm_prompt_candidate gops v.st.self.m_can_use_partial_preemption g0 := by
  unfold vllm_candidate_at
  rw [hg0, htr.2.1]

theorem vllm_outcome_of_stop (st0 : SchedState G B) (i : Nat) (v : VllmState G B) (g0 : G)
    (htr : vllm_trace gops bops st0 i v) (hi : i < st0.sequence_groups.length)
    (hg0 : st0.sequence_groups[i]? = some g0)
    (hc : vllm_candidate_at gops st0.self.m_can_use_partial_preemption st0.sequence_groups i
      = true)
    (hnot : ¬ vllm_admissible gops bops st0.self st0.sequence_groups
      v.st.scheduler_output.m_scheduled_sequence_groups_ids g0) :
    vllm_outcome gops bops st0 v.st := by
  obtain ⟨h1, h2, h3, h4, h5, h6, h7, h8, h9⟩ := htr
  have hn : i + (st0.sequence_groups.length - i) = st0.sequence_groups.length := by omega
  refine ⟨?_, ?_, h5, h7, h8, h9, ?_⟩
  · rw [h3]
    unfold vllm_candidates
    rw [← hn]
    exact filter_range_prefix _ i _
  · rw [h3]
    exact pairwise_filter_range _ i
  · intro i' rest g hE hg
    obtain ⟨rest', hr⟩ := filter_range_split _ i (st0.sequence_groups.length - i - 1) hc
    have hm' : i + (st0.sequence_groups.length - i - 1 + 1) = st0.sequence_groups.length := by
      omega
    rw [hm', ← h3] at hr
    unfold vllm_candidates at hE
    rw [hr] at hE
    have := List.append_cancel_left hE
    injection this with this _
    subst this
    rw [hg0] at hg
    injection hg with hg
    subst hg
    exact hnot

theorem vllm_outcome_of_end (st0 : SchedState G B) (v : VllmState G B)
    (htr : vllm_trace gops bops st0 st0.sequence_groups.length v) :
    vllm_outcome gops bops st0 v.st := by
  obtain ⟨h1, h2, h3, h4, h5, h6, h7, h8, h9⟩ := htr
  refine ⟨?_, ?_, h5, h7, h8, h9, ?_⟩
  · rw [h3]
    exact List.prefix_refl _
  · rw [h3]
    exact pairwise_filter_range _ _
  · intro i' rest g hE hg
    exfalso
    have hlen := congrArg List.length hE
    unfold vllm_candidates at hlen
    rw [← h3] at hlen
    simp at hlen

theorem vllm_trace_start (st0 : SchedState G B)
    (hids : st0.scheduler_output.m_scheduled_sequence_groups_ids = [])
    (h0 : st0.scheduler_output.m_total_num_scheduled_tokens = 0) :
    vllm_trace gops bops st0 0 ⟨st0, _num_running_sequence_groups gops st0.sequence_groups⟩ := by
  refine ⟨rfl, rfl, ?_, ?_, ?_, ?_, ?_, ?_, ?_⟩
  · simp [hids]
  · simp [hids]
  · simp [hids, h0, whole_tokens]
  · simp [h0]
  · simp [hids, blocks_after_admitting]
  · intro k g hk
    simp [hids, hk]
  · intro j hj
    simp [hids] at hj

/-- C7: when the vLLM prompt phase returns (entered with nothing scheduled,
`block_size > 0` and sizes that fit a `size_t`), the groups it scheduled are
a prefix of its candidates taken in the order of the active set, with
strictly increasing ids; every scheduled group carries its whole available
token count and the total is the sum of those counts; each was admitted with
fewer than `max_num_seqs` running groups, a remaining budget `>=` its count
and `can_allocate_blocks(ceil(count / block_size))` true in the block manager
left by the admissions before it; and the first candidate that was not
scheduled, if any, fails one of these limits, no group after it being
scheduled. -/
theorem vllm_prompt_phase_admits_prefix (st st' : SchedState G B)
    (h0 : st.scheduler_output.m_total_num_scheduled_tokens = 0)
    (hbs : 0 < st.self.m_config.block_size)
    (hfit : st.self.m_config.max_num_batched_tokens + st.self.m_config.block_size < 2 ^ 64)
    (h : _schedule_prompt_phase_vllm gops bops st = .ok st') :
    st'.scheduler_output.m_scheduled_sequence_groups_ids <+:
      vllm_candidates gops st.self.m_can_use_partial_preemption st.sequence_groups ∧
    st'.scheduler_output.m_scheduled_sequence_groups_ids.Pairwise (· < ·) ∧
    st'.scheduler_output.m_total_num_scheduled_tokens =
      whole_tokens gops st.sequence_groups st'.scheduler_output.m_scheduled_sequence_groups_ids ∧
    st'.self.m_block_manager = blocks_after_admitting gops bops st.sequence_groups
      st.self.m_block_manager st'.scheduler_output.m_scheduled_sequence_groups_ids ∧
    (∀ k g, st.sequence_groups[k]? = some g → st'.sequence_groups[k]? = some
      (if k ∈ st'.scheduler_output.m_scheduled_sequence_groups_ids then
        gops.schedule_tokens g (gops.get_num_available_tokens_for_batching g) else g)) ∧
    (∀ j (hj : j < st'.scheduler_output.m_scheduled_sequence_groups_ids.length) g,
      st.sequence_groups[st'.scheduler_output.m_scheduled_sequence_groups_ids[j]]? = some g →
      vllm_admissible gops bops st.self st.sequence_groups
        (st'.scheduler_output.m_scheduled_sequence_groups_ids.take j) g) ∧
    (∀ i rest g,
      vllm_candidates gops st.self.m_can_use_partial_preemption st.sequence_groups =
        st'.scheduler_output.m_scheduled_sequence_groups_ids ++ i :: rest →
      st.sequence_groups[i]? = some g →
      ¬ vllm_admissible gops bops st.self st.sequence_groups
        st'.scheduler_output.m_scheduled_sequence_groups_ids g) := by
  obtain ⟨_, _, hids, v, hf, hv⟩ := _schedule_prompt_phase_vllm_inv gops bops st st' h
  have hout : vllm_outcome gops bops st v.st := by
    refine for_range_induction (vllm_trace gops bops st)
      (fun v => vllm_outcome gops bops st v.st) (prompt_phase_vllm_body gops bops)
      st.sequence_groups.length ?_ ?_ ?_ st.sequence_groups.length 0 _ v (by omega)
      (vllm_trace_start gops bops st hids h0) hf
    · intro i s s' hi htr hb
      obtain ⟨g0, hg0, hsg⟩ := vllm_trace_group gops bops st i s htr hi
      have hceq := vllm_candidate_at_eq gops bops st i s g0 htr hg0
      obtain ⟨g, hg, hcase⟩ := prompt_phase_vllm_body_inv gops bops i s _ hb
      rw [hsg] at hg
      injection hg with hg
      subst hg
      rcases hcase with ⟨hc, hr⟩ | ⟨hc, hass, ⟨_, hr⟩ | ⟨hlim, hr⟩⟩
      · injection hr with hr
        subst hr
        exact vllm_trace_skip gops bops st i _ htr (hceq.trans hc)
      · cases hr
      · injection hr with hr
        subst hr
        have hlen := vllm_assertions_len gops _ _ hass
        rw [htr.1] at hlen
        exact vllm_trace_admit gops bops st i _ g0 htr hg0 (hceq.trans hc) (by omega)
          ((vllm_limits_iff gops bops st i _ g0 htr hbs hfit hlen).mp hlim)
    · intro i s s' hi htr hb
      obtain ⟨g0, hg0, hsg⟩ := vllm_trace_group gops bops st i s htr hi
      have hceq := vllm_candidate_at_eq gops bops st i s g0 htr hg0
      obtain ⟨g, hg, hcase⟩ := prompt_phase_vllm_body_inv gops bops i s _ hb
      rw [hsg] at hg
      injection hg with hg
      subst hg
      rcases hcase with ⟨hc, hr⟩ | ⟨hc, hass, ⟨hnl, hr⟩ | ⟨hlim, hr⟩⟩
      · cases hr
      · injection hr with hr
        subst hr
        have hlen := vllm_assertions_len gops _ _ hass
        rw [htr.1] at hlen
        exact vllm_outcome_of_stop gops bops st i s' g0 htr hi hg0 (hceq.trans hc)
          (fun hadm => hnl ((vllm_limits_iff gops bops st i s' g0 htr hbs hfit hlen).mpr hadm))
      · cases hr
    · intro s htr
      exact vllm_outcome_of_end gops bops st s htr
  rw [hv] at hout
  exact hout

/-- C7, witness: on the sample prompts the candidates are `[0, 1, 2]`, the
phase schedules `[0, 1]`, and group 2 fails the `max_num_seqs = 2` limit. -/
theorem vllm_prompt_phase_admits_prefix_witness :
    vllm_candidates sample_gops true sample_prompts = [0, 1, 2] ∧
    (result_or (_schedule_prompt_phase_vllm sample_gops sample_bops
        ⟨sample_scheduler false, sample_prompts, {}⟩)
        ⟨sample_scheduler false, [], {}⟩).scheduler_output.m_scheduled_sequence_groups_ids
      = [0, 1] ∧
    (result_or (_schedule_prompt_phase_vllm sample_gops sample_bops
        ⟨sample_scheduler false, sample_prompts, {}⟩)
        ⟨sample_scheduler false, [], {}⟩).scheduler_output.m_total_num_scheduled_tokens
      = whole_tokens sample_gops sample_prompts [0, 1] ∧
    ¬ vllm_admissible sample_gops sample_bops (sample_scheduler false) sample_prompts [0, 1]
      { request_id := 2, prompt_len := 2 } := by
  have h := vllm_prompt_phase_admits_prefix sample_gops sample_bops
    ⟨sample_scheduler false, sample_prompts, {}⟩
    (result_or (_schedule_prompt_phase_vllm sample_gops sample_bops
        ⟨sample_scheduler false, sample_prompts, {}⟩) ⟨sample_scheduler false, [], {}⟩)
    rfl (by decide) (by decide) rfl
  exact ⟨rfl, rfl, h.2.2.1, h.2.2.2.2.2.2 2 [] _ rfl rfl⟩

end VllmPrefix

/-! ### The out-of-memory exit of `step` -/

section OutOfMemory

variable {G B W : Type} (gops : SequenceGroupOps G) (bops : BlockManagerOps B G)
  (pops : PipelineOps G W)

theorem free_non_running_fold (l : List G) (hl : ∀ g ∈ l, non_running gops g = true)
    (acc : ContinuousBatchingImpl G B W) :
    (l.foldl
      (fun p request =>
        if non_running gops request then
          { p with
            m_scheduler := { p.m_scheduler with
              m_block_manager := free_request_sequences gops bops p.m_scheduler.m_block_manager
                request }
            world := pops.clear_beam_search_info p.world (gops.get_request_id request)
            reaped := p.reaped ++ [request] }
        else { p with m_requests := p.m_requests ++ [request] }) acc).m_requests
        = acc.m_requests ∧
    (l.foldl
      (fun p request =>
        if non_running gops request then
          { p with
            m_scheduler := { p.m_scheduler with
              m_block_manager := free_request_sequences gops bops p.m_scheduler.m_block_manager
                request }
            world := pops.clear_beam_search_info p.world (gops.get_request_id request)
            reaped := p.reaped ++ [request] }
        else { p with m_requests := p.m_requests ++ [request] }) acc).reaped
        = acc.reaped ++ l ∧
    (l.foldl
      (fun p request =>
        if non_running gops request then
          { p with
            m_scheduler := { p.m_scheduler with
              m_block_manager := free_request_sequences gops bops p.m_scheduler.m_block_manager
                request }
            world := pops.clear_beam_search_info p.world (gops.get_request_id request)
            reaped := p.reaped ++ [request] }
        else { p with m_requests := p.m_requests ++ [request] }) acc).calls
        = acc.calls := by
  induction l generalizing acc with
  | nil => simp
  | cons a as ih =>
    have ha : non_running gops a = true := hl a (List.mem_cons_self a as)
    have has : ∀ g ∈ as, non_running gops g = true :=
      fun g hg => hl g (List.mem_cons_of_mem a hg)
    simp only [List.foldl_cons, ha, if_true]
    obtain ⟨h1, h2, h3⟩ := ih has
      { acc with
        m_scheduler := { acc.m_scheduler with
          m_block_manager := free_request_sequences gops bops acc.m_scheduler.m_block_manager a }
        world := pops.clear_beam_search_info acc.world (gops.get_request_id a)
        reaped := acc.reaped ++ [a] }
    refine ⟨h1, ?_, h3⟩
    rw [h2]
    simp

theorem _free_non_running_requests_all (p : ContinuousBatchingImpl G B W)
    (hl : ∀ g ∈ p.m_requests, non_running gops g = true) :
    (_free_non_running_requests gops bops pops p).m_requests = [] ∧
    (_free_non_running_requests gops bops pops p).reaped = p.reaped ++ p.m_requests ∧
    (_free_non_running_requests gops bops pops p).calls = p.calls := by
  unfold _free_non_running_requests
  exact free_non_running_fold gops bops pops p.m_requests hl { p with m_requests := [] }

/-- C6: when `schedule` returns an output with
`m_total_num_scheduled_tokens == 0` in an iteration of the loop of `step`,
then `step` returns from that iteration; every group of the active set has
been marked out of memory and notified and is erased in that state, the
active set is empty, and the only collaborator called in the iteration is the
cache manager (`copy_blocks`): neither the forward pass nor the sampler runs.
`out_of_memory()` is taken to hold of a group after `set_out_of_memory()` and
`notify_handle()`. -/
theorem step_out_of_memory (sched_fuel fuel iteration_number : Nat)
    (p : ContinuousBatchingImpl G B W) (st : SchedState G B)
    (hlaw : ∀ g, gops.out_of_memory (gops.notify_handle (gops.set_out_of_memory g)) = true)
    (hs : schedule gops bops sched_fuel p.m_scheduler p.m_requests = .ok st)
    (h0 : st.scheduler_output.m_total_num_scheduled_tokens = 0) :
    ∃ p', step_loop gops bops pops sched_fuel (fuel + 1) iteration_number p = .ok p' ∧
      p'.m_requests = [] ∧
      p'.reaped = p.reaped ++
        st.sequence_groups.map (fun g => gops.notify_handle (gops.set_out_of_memory g)) ∧
      (∀ g ∈ st.sequence_groups,
        gops.out_of_memory (gops.notify_handle (gops.set_out_of_memory g)) = true) ∧
      p'.calls = p.calls ++ [PipelineCall.copy_blocks] := by
  have hall : ∀ g ∈ mark_out_of_memory gops st.sequence_groups, non_running gops g = true := by
    intro g hg
    unfold mark_out_of_memory at hg
    obtain ⟨g0, _, hg0⟩ := List.mem_map.mp hg
    subst hg0
    unfold non_running
    rw [hlaw g0]
    simp
  obtain ⟨h1, h2, h3⟩ := _free_non_running_requests_all gops bops pops
    { m_requests := mark_out_of_memory gops st.sequence_groups
      m_awaiting_requests := p.m_awaiting_requests
      m_scheduler := st.self
      m_is_validation_mode_enabled := p.m_is_validation_mode_enabled
      world := pops.copy_blocks p.world st.scheduler_output.m_block_copy_map
      calls := p.calls ++ [PipelineCall.copy_blocks]
      reaped := p.reaped } hall
  refine ⟨_, ?_, h1, h2, fun g _ => hlaw g, h3⟩
  simp only [step_loop, hs, h0, if_true]

/-- C6, witness: the sample pipeline has no free block, so its two requests
get nothing scheduled; `step` erases both and calls only `copy_blocks`. -/
theorem step_out_of_memory_witness :
    (step sample_gops sample_bops sample_pops 4 1 sample_pipeline).toOption.map
        (fun p => (p.m_requests, p.reaped.map (fun g => (g.out_of_memory, g.notifications)),
          p.calls))
      = some ([], [(true, 1), (true, 1)], [PipelineCall.copy_blocks]) ∧
    ∃ p', step_loop sample_gops sample_bops sample_pops 4 (0 + 1) 0
        (pull_awaiting_requests sample_gops sample_pipeline) = .ok p' ∧
      p'.m_requests = [] ∧
      p'.reaped = (pull_awaiting_requests sample_gops sample_pipeline).reaped ++
        (result_or (schedule sample_gops sample_bops 4
            (pull_awaiting_requests sample_gops sample_pipeline).m_scheduler
            (pull_awaiting_requests sample_gops sample_pipeline).m_requests)
          ⟨sample_pipeline.m_scheduler, [], {}⟩).sequence_groups.map
          (fun g => sample_gops.notify_handle (sample_gops.set_out_of_memory g)) ∧
      (∀ g ∈ (result_or (schedule sample_gops sample_bops 4
            (pull_awaiting_requests sample_gops sample_pipeline).m_scheduler
            (pull_awaiting_requests sample_gops sample_pipeline).m_requests)
          ⟨sample_pipeline.m_scheduler, [], {}⟩).sequence_groups,
        sample_gops.out_of_memory
          (sample_gops.notify_handle (sample_gops.set_out_of_memory g)) = true) ∧
      p'.calls = (pull_awaiting_requests sample_gops sample_pipeline).calls ++
        [PipelineCall.copy_blocks] :=
  ⟨rfl,
    step_out_of_memory sample_gops sample_bops sample_pops 4 0 0
      (pull_awaiting_requests sample_gops sample_pipeline)
      (result_or (schedule sample_gops sample_bops 4
          (pull_awaiting_requests sample_gops sample_pipeline).m_scheduler
          (pull_awaiting_requests sample_gops sample_pipeline).m_requests)
        ⟨sample_pipeline.m_scheduler, [], {}⟩)
      (fun _ => rfl) rfl rfl⟩

end OutOfMemory

section GenerateTokens

variable {G B : Type} (gops : SequenceGroupOps G) (bops : BlockManagerOps B G)

theorem _preempt_by_recompute_get (self : Scheduler B) (groups : List G) (victim needed : Nat)
    (self' : Scheduler B) (groups' : List G) (freed : Bool)
    (h : _preempt_by_recompute gops bops self groups victim needed = .ok (self', groups', freed))
    (k : Nat) (hk : k ≠ victim) : groups'[k]? = groups[k]? := by
  unfold _preempt_by_recompute at h
  cases hg : groups[victim]? with
  | none => rw [hg] at h; cases h
  | some g =>
    rw [hg] at h
    simp only at h
    split at h
    · injection h with h
      injection h with h1 h2
      injection h2 with h2 h3
      subst h2
      exact List.getElem?_set_ne (fun e => hk e.symm)
    · split at h
      · cases h
      · injection h with h
        injection h with h1 h2
        injection h2 with h2 h3
        subst h2
        exact List.getElem?_set_ne (fun e => hk e.symm)

theorem _apply_preemption_get (id : Nat) :
    ∀ (fuel : Nat) (self : Scheduler B) (groups : List G) (self' : Scheduler B)
      (groups' : List G),
      _apply_preemption gops bops id fuel self groups = .ok (self', groups') →
      ∀ k, k ≤ id → groups'[k]? = groups[k]? := by
  intro fuel
  induction fuel with
  | zero =>
    intro self groups self' groups' h k _
    unfold _apply_preemption at h
    cases hg : groups[id]? with
    | none => rw [hg] at h; cases h
    | some g =>
      rw [hg] at h
      simp only at h
      split at h
      · cases h
      · injection h with h
        injection h with h1 h2
        subst h2
        rfl
  | succ fuel ih =>
    intro self groups self' groups' h k hk
    unfold _apply_preemption at h
    cases hg : groups[id]? with
    | none => rw [hg] at h; cases h
    | some g =>
      rw [hg] at h
      simp only at h
      split at h
      · split at h
        · injection h with h
          injection h with h1 h2
          subst h2
          rfl
        · rename_i hgt
          cases hp : _preempt_by_recompute gops bops self groups
              (_get_low_priority_sequence_group_id gops groups)
              (bops.required_blocks_count self.m_block_manager g) with
          | error e => rw [hp] at h; cases h
          | ok v =>
            obtain ⟨s1, g1, f1⟩ := v
            rw [hp] at h
            simp only at h
            have hget := _preempt_by_recompute_get gops bops _ _ _ _ _ _ _ hp k (by omega)
            split at h
            · injection h with h
              injection h with h1 h2
              subst h2
              exact hget
            · exact (ih s1 g1 self' groups' h k hk).trans hget
      · injection h with h
        injection h with h1 h2
        subst h2
        rfl

/-- C11: in the generation phase, for a group that is looked at (it can
generate, is not waiting) with `n >= 1` running sequences and a total within
the budget, an iteration that returns does one of three things.  If
`floor((max_num_batched_tokens - total) / n)` is 0 the group is not scheduled
and nothing changes.  Otherwise the group is scheduled
`per = min (floor ((max_num_batched_tokens - total) / n)) available` tokens
per sequence and the preemption loop runs; if the group still cannot append
slots it is cleared and the output is unchanged, else it is admitted: it
keeps `per` scheduled tokens, its index is recorded and the total grows by
exactly `per * n`. -/
theorem generate_phase_body_tokens (fuel i : Nat) (st : SchedState G B) (g : G)
    (r : LoopStep (SchedState G B))
    (hg : st.sequence_groups[i]? = some g)
    (hgen : gops.can_generate_tokens g = true) (hwait : gops.is_waiting g = false)
    (hn : 1 ≤ gops.num_running_seqs g)
    (hmx : st.self.m_config.max_num_batched_tokens < 2 ^ 64)
    (hbudget : st.scheduler_output.m_total_num_scheduled_tokens
      ≤ st.self.m_config.max_num_batched_tokens)
    (h : generate_phase_body gops bops fuel i st = .ok r) :
    let n := gops.num_running_seqs g
    let floor := (st.self.m_config.max_num_batched_tokens
      - st.scheduler_output.m_total_num_scheduled_tokens) / n
    let per := min floor (gops.get_num_available_tokens_for_batching g)
    (floor = 0 → r = .next st) ∧
    (0 < floor →
      ∃ self' groups',
        _apply_preemption gops bops i fuel st.self
          (st.sequence_groups.set i (gops.schedule_tokens g per)) = .ok (self', groups') ∧
        groups'[i]? = some (gops.schedule_tokens g per) ∧
        ((bops.can_append_slots self'.m_block_manager (gops.schedule_tokens g per) = false ∧
            r = .next ⟨self', groups'.set i
              (gops.clear_scheduled_tokens (gops.schedule_tokens g per)),
              st.scheduler_output⟩) ∨
          (bops.can_append_slots self'.m_block_manager (gops.schedule_tokens g per) = true ∧
            r = stop_when_full (schedule_generation gops bops i (gops.schedule_tokens g per)
              per n ⟨self', groups', st.scheduler_output⟩) ∧
            r.state.sequence_groups[i]? = some (gops.schedule_tokens g per) ∧
            r.state.scheduler_output.m_scheduled_sequence_groups_ids =
              st.scheduler_output.m_scheduled_sequence_groups_ids ++ [i] ∧
            r.state.scheduler_output.m_total_num_scheduled_tokens =
              st.scheduler_output.m_total_num_scheduled_tokens + per * n))) := by
  intro n floor per
  have hsub : size_sub st.self.m_config.max_num_batched_tokens
      st.scheduler_output.m_total_num_scheduled_tokens =
      st.self.m_config.max_num_batched_tokens
        - st.scheduler_output.m_total_num_scheduled_tokens := size_sub_eq_sub _ _ hmx hbudget
  have hdiv : size_div (st.self.m_config.max_num_batched_tokens
      - st.scheduler_output.m_total_num_scheduled_tokens) (gops.num_running_seqs g)
      = .ok floor := size_div_eq _ _ hn
  have hi : i < st.sequence_groups.length := by
    by_contra hge
    have : st.sequence_groups[i]? = none := List.getElem?_eq_none (by omega)
    rw [this] at hg; cases hg
  unfold generate_phase_body at h
  simp only [hg, hgen, hwait, Bool.not_false, Bool.and_self, if_true, hsub, hdiv] at h
  split at h
  · cases h
  · by_cases hf : floor = 0
    · simp only [hf, if_true] at h
      injection h with h
      exact ⟨fun _ => h.symm, fun hpos => absurd hf (by omega)⟩
    · simp only [hf, if_false] at h
      refine ⟨fun h0 => absurd h0 hf, fun _ => ?_⟩
      cases ha : _apply_preemption gops bops i fuel st.self
          (st.sequence_groups.set i (gops.schedule_tokens g per)) with
      | error e =>
        rw [show min floor (gops.get_num_available_tokens_for_batching g) = per from rfl] at h
        rw [ha] at h; cases h
      | ok v =>
        obtain ⟨self1, groups1⟩ := v
        rw [show min floor (gops.get_num_available_tokens_for_batching g) = per from rfl] at h
        rw [ha] at h
        simp only at h
        have hget := _apply_preemption_get gops bops i fuel _ _ _ _ ha i (Nat.le_refl i)
        rw [List.getElem?_set_self hi] at hget
        rw [hget] at h
        simp only at h
        refine ⟨self1, groups1, rfl, hget, ?_⟩
        cases hc : bops.can_append_slots self1.m_block_manager (gops.schedule_tokens g per) with
        | false =>
          rw [hc] at h
          simp only [Bool.not_false, if_true] at h
          injection h with h
          left
          exact ⟨rfl, h.symm⟩
        | true =>
          rw [hc] at h
          simp only [Bool.not_true, Bool.false_eq_true, if_false] at h
          injection h with h
          right
          have hper : per * n ≤ st.self.m_config.max_num_batched_tokens
              - st.scheduler_output.m_total_num_scheduled_tokens :=
            le_trans (Nat.mul_le_mul_right n (Nat.min_le_left _ _)) (Nat.div_mul_le_self _ _)
          refine ⟨rfl, h.symm, ?_, ?_, ?_⟩
          · rw [← h, stop_when_full_state]
            exact hget
          · rw [← h, stop_when_full_state]
            rfl
          · rw [← h, stop_when_full_state]
            show size_add st.scheduler_output.m_total_num_scheduled_tokens (size_mul per n) = _
            rw [size_mul_eq_mul _ _ (by omega), size_add_eq_add _ _ (by omega)]

/-- C11, witness: with 8 tokens of budget, one running sequence and one
available token, request 0 is admitted with 1 token and the total becomes 1. -/
theorem generate_phase_body_tokens_witness :
    generate_phase_body sample_gops sample_bops 4 0
        ⟨sample_generating_scheduler, [sample_generating], {}⟩
      = .ok (stop_when_full (schedule_generation sample_gops sample_bops 0
          (sample_gops.schedule_tokens sample_generating 1) 1 1
          ⟨sample_generating_scheduler,
            [sample_gops.schedule_tokens sample_generating 1], {}⟩)) ∧
    (stop_when_full (schedule_generation sample_gops sample_bops 0
          (sample_gops.schedule_tokens sample_generating 1) 1 1
          ⟨sample_generating_scheduler,
            [sample_gops.schedule_tokens sample_generating 1],
            {}⟩)).state.scheduler_output.m_total_num_scheduled_tokens = 0 + 1 * 1 := by
  have h := generate_phase_body_tokens sample_gops sample_bops 4 0
    ⟨sample_generating_scheduler, [sample_generating], {}⟩ sample_generating
    (stop_when_full (schedule_generation sample_gops sample_bops 0
          (sample_gops.schedule_tokens sample_generating 1) 1 1
          ⟨sample_generating_scheduler,
            [sample_gops.schedule_tokens sample_generating 1], {}⟩))
    rfl rfl rfl (by decide) (by decide) (by decide) rfl
  obtain ⟨self', groups', ha, _, hcase⟩ := h.2 (by decide)
  have e : (Except.ok (self', groups') : Except Error _) =
      .ok (sample_generating_scheduler, [sample_gops.schedule_tokens sample_generating 1]) :=
    ha.symm.trans (by rfl)
  injection e with e
  injection e with e1 e2
  subst e1
  rcases hcase with ⟨hc, _⟩ | ⟨_, _, _, _, ht⟩
  · exact absurd hc (by decide)
  · exact ⟨rfl, ht⟩

end GenerateTokens

section PreemptionVictim

variable {G B : Type} (gops : SequenceGroupOps G) (bops : BlockManagerOps B G)

theorem low_priority_scan_none (groups : List G) :
    ∀ n, (∀ k x, k < n → groups[k]? = some x → gops.get_num_processed_tokens x = 0) →
      low_priority_scan gops groups n = SIZE_MAX := by
  intro n
  induction n with
  | zero => intro _; rfl
  | succ n ih =>
    intro h
    have hrec := ih (fun k x hk => h k x (by omega))
    unfold low_priority_scan
    cases hg : groups[n]? with
    | none => exact hrec
    | some x =>
      simp only
      rw [if_neg (by rw [h n x (by omega) hg]; decide)]
      exact hrec

theorem low_priority_scan_greatest (groups : List G) (v : Nat) (gv : G)
    (hv : groups[v]? = some gv) (hpos : 0 < gops.get_num_processed_tokens gv)
    (hmax : ∀ k x, v < k → groups[k]? = some x → gops.get_num_processed_tokens x = 0) :
    ∀ n, v < n → low_priority_scan gops groups n = v := by
  intro n
  induction n with
  | zero => intro h; omega
  | succ n ih =>
    intro hn
    unfold low_priority_scan
    by_cases hnv : n = v
    · subst hnv
      rw [hv]
      simp only
      rw [if_pos hpos]
    · have hlt : v < n := by omega
      cases hg : groups[n]? with
      | none => exact ih hlt
      | some x =>
        simp only
        rw [if_neg (by rw [hmax n x hlt hg]; decide)]
        exact ih hlt

/-- C12: one turn of the loop of `_apply_preemption` for a current group `i`
that cannot append slots.  When `v` is the greatest index of a group with
processed tokens, `v <= i` stops the loop with nothing changed and `v > i`
makes `sequence_groups[v]` the victim of `_preempt_by_recompute`.  When no
group at all has processed tokens, the sentinel `SIZE_MAX` returned by
`_get_low_priority_sequence_group_id` passes the test
`evicted_sequence_group_id <= sequence_group_id` and `sequence_groups[SIZE_MAX]`
is read, outside the active set. -/
theorem _apply_preemption_victim (fuel i : Nat) (self : Scheduler B) (groups : List G) (g : G)
    (hg : groups[i]? = some g)
    (hc : bops.can_append_slots self.m_block_manager g = false)
    (hlen : groups.length ≤ SIZE_MAX) :
    ((∀ x ∈ groups, gops.get_num_processed_tokens x = 0) →
      _apply_preemption gops bops i (fuel + 1) self groups = .error .out_of_range) ∧
    (∀ v gv, groups[v]? = some gv → 0 < gops.get_num_processed_tokens gv →
      (∀ k x, v < k → groups[k]? = some x → gops.get_num_processed_tokens x = 0) →
      (v ≤ i → _apply_preemption gops bops i (fuel + 1) self groups = .ok (self, groups)) ∧
      (i < v → _apply_preemption gops bops i (fuel + 1) self groups =
        match _preempt_by_recompute gops bops self groups v
            (bops.required_blocks_count self.m_block_manager g) with
        | .error e => .error e
        | .ok (self1, groups1, freed) =>
          if !freed then .ok (self1, groups1)
          else _apply_preemption gops bops i fuel self1 groups1)) := by
  have hi : i < groups.length := by
    by_contra hge
    have : groups[i]? = none := List.getElem?_eq_none (by omega)
    rw [this] at hg; cases hg
  refine ⟨fun hall => ?_, fun v gv hv hpos hmax => ⟨fun hvi => ?_, fun hiv => ?_⟩⟩
  · have hscan : _get_low_priority_sequence_group_id gops groups = SIZE_MAX :=
      low_priority_scan_none gops groups _
        (fun k x _ hk => hall x (List.mem_iff_getElem?.2 ⟨k, hk⟩))
    have hnot : ¬ SIZE_MAX ≤ i := by omega
    have hout : groups[SIZE_MAX]? = none := List.getElem?_eq_none hlen
    unfold _apply_preemption
    simp only [hg, hc, Bool.not_false, if_true, hscan, if_neg hnot]
    unfold _preempt_by_recompute
    rw [hout]
  · have hvl : v < groups.length := by
      by_contra hge
      have : groups[v]? = none := List.getElem?_eq_none (by omega)
      rw [this] at hv; cases hv
    have hscan : _get_low_priority_sequence_group_id gops groups = v :=
      low_priority_scan_greatest gops groups v gv hv hpos hmax _ hvl
    unfold _apply_preemption
    simp only [hg, hc, Bool.not_false, if_true, hscan, if_pos hvi]
  · have hvl : v < groups.length := by
      by_contra hge
      have : groups[v]? = none := List.getElem?_eq_none (by omega)
      rw [this] at hv; cases hv
    have hscan : _get_low_priority_sequence_group_id gops groups = v :=
      low_priority_scan_greatest gops groups v gv hv hpos hmax _ hvl
    have hnot : ¬ v ≤ i := by omega
    conv_lhs => unfold _apply_preemption
    simp only [hg, hc, Bool.not_false, if_true, hscan, if_neg hnot]

/-- C12, failing input: the only active group has no processed token and
cannot append slots; the loop reads `sequence_groups[SIZE_MAX]`. -/
theorem _apply_preemption_victim_witness :
    [sample_unprocessed][0]? = some sample_unprocessed ∧
    sample_bops.can_append_slots sample_exhausted_scheduler.m_block_manager
      sample_unprocessed = false ∧
    _apply_preemption sample_gops sample_bops 0 (0 + 1) sample_exhausted_scheduler
      [sample_unprocessed] = .error .out_of_range :=
  ⟨rfl, by decide,
    (_apply_preemption_victim sample_gops sample_bops 0 0 sample_exhausted_scheduler
      [sample_unprocessed] sample_unprocessed rfl (by decide) (by decide)).1
      (by decide)⟩

end PreemptionVictim

section PreemptByRecompute

variable {G B : Type} (gops : SequenceGroupOps G) (bops : BlockManagerOps B G)

theorem _preempt_by_recompute_full_eq (self : Scheduler B) (groups : List G)
    (victim needed : Nat) (g : G) (hg : groups[victim]? = some g)
    (hb : full_recompute gops bops self g needed = true) :
    _preempt_by_recompute gops bops self groups victim needed =
      .ok ({ self with m_block_manager :=
              free_sequences bops self.m_block_manager (gops.get_not_finished_sequences g) },
        groups.set victim (gops.set_waiting
          (if gops.get_num_evicted_tokens g != 0 then
            gops.reset_eviction_token_count
              (gops.preempt_tokens g (gops.get_num_processed_tokens g))
           else gops.preempt_tokens g (gops.get_num_processed_tokens g))),
        decide (bops.num_free_blocks (free_sequences bops self.m_block_manager
          (gops.get_not_finished_sequences g)) > bops.num_free_blocks self.m_block_manager)) := by
  unfold full_recompute at hb
  unfold _preempt_by_recompute
  simp only [hg]
  rw [if_pos hb]
  rfl

theorem _preempt_by_recompute_partial_eq (self : Scheduler B) (groups : List G)
    (victim needed : Nat) (g : G) (hg : groups[victim]? = some g)
    (hb : full_recompute gops bops self g needed = false)
    (hbs : self.m_config.block_size ≠ 0) :
    _preempt_by_recompute gops bops self groups victim needed =
      .ok ({ self with m_block_manager := partial_block_manager gops bops self g needed },
        groups.set victim (gops.set_waiting (gops.preempt_tokens g
          (partial_amount gops bops self g needed))),
        decide (bops.num_free_blocks (partial_block_manager gops bops self g needed)
          > bops.num_free_blocks self.m_block_manager)) := by
  unfold full_recompute at hb
  unfold _preempt_by_recompute
  simp only [hg]
  rw [if_neg (by rw [hb]; decide), if_neg hbs]
  rfl

theorem partial_preempted_tokens_eq (processed block_size released : Nat)
    (h1 : 1 ≤ released) (hint : released < 2 ^ 31)
    (hfit : tokens_in_last_block processed block_size + (released - 1) * block_size < 2 ^ 64) :
    partial_preempted_tokens processed block_size released =
      tokens_in_last_block processed block_size + (released - 1) * block_size := by
  have hcast : to_int released = (released : Int) := by
    unfold to_int
    have hm : released % 2 ^ 32 = released := Nat.mod_eq_of_lt (by omega)
    rw [hm, if_pos hint]
  have hsz : to_size_t (to_int released - 1) = released - 1 := by
    rw [hcast]
    unfold to_size_t
    have h2 : ((released : Int) - 1) = ((released - 1 : Nat) : Int) := by omega
    rw [h2]
    have h3 : (((released - 1 : Nat) : Int) % 2 ^ 64) = ((released - 1 : Nat) : Int) :=
      Int.emod_eq_of_lt (by omega) (by omega)
    rw [h3]
    rfl
  unfold partial_preempted_tokens
  rw [hsz, Nat.max_eq_left (Nat.zero_le _)]
  have hmul : (released - 1) * block_size < 2 ^ 64 := by omega
  rw [size_mul_eq_mul _ _ hmul, size_add_eq_add _ _ hfit]

/-- C13: when the victim occupies at most `blocks_needed` blocks, or partial
preemption is disabled, or the victim has a non-zero evicted-token count,
`_preempt_by_recompute` returns after calling `free_sequence` on every
sequence of `get_not_finished_sequences()` of the victim, the victim is
waiting and its `num_processed_tokens` is 0.  The counters of the group are
those of a `SequenceGroup`: `preempt_tokens(n)` with `n <= processed`
subtracts `n`, `reset_eviction_token_count` and `set_waiting` keep the
counter, and the group is waiting after `set_waiting`. -/
theorem _preempt_by_recompute_full_recompute (self : Scheduler B) (groups : List G)
    (victim needed : Nat) (g : G) (hg : groups[victim]? = some g)
    (hbranch : bops.get_number_of_blocks_occupied_by_sequence self.m_block_manager g ≤ needed
      ∨ self.m_can_use_partial_preemption = false ∨ gops.get_num_evicted_tokens g ≠ 0)
    (hpre : ∀ x n, n ≤ gops.get_num_processed_tokens x →
      gops.get_num_processed_tokens (gops.preempt_tokens x n)
        = gops.get_num_processed_tokens x - n)
    (hreset : ∀ x, gops.get_num_processed_tokens (gops.reset_eviction_token_count x)
      = gops.get_num_processed_tokens x)
    (hwait : ∀ x, gops.get_num_processed_tokens (gops.set_waiting x)
      = gops.get_num_processed_tokens x)
    (hset : ∀ x, gops.is_waiting (gops.set_waiting x) = true) :
    ∃ g' freed,
      _preempt_by_recompute gops bops self groups victim needed =
        .ok ({ self with m_block_manager :=
                free_sequences bops self.m_block_manager (gops.get_not_finished_sequences g) },
          groups.set victim g', freed) ∧
      gops.is_waiting g' = true ∧ gops.get_num_processed_tokens g' = 0 := by
  have hb : full_recompute gops bops self g needed = true := by
    unfold full_recompute
    rcases hbranch with h | h | h
    · simp [h]
    · simp [h]
    · simp [h]
  refine ⟨_, _, _preempt_by_recompute_full_eq gops bops self groups victim needed g hg hb,
    hset _, ?_⟩
  rw [hwait]
  split
  · rw [hreset, hpre _ _ (Nat.le_refl _), Nat.sub_self]
  · rw [hpre _ _ (Nat.le_refl _), Nat.sub_self]

/-- C13, witness: request 1 holds one block and one block is needed; its
sequence is freed, it waits and has no processed token. -/
theorem _preempt_by_recompute_full_recompute_witness :
    ∃ g' freed,
      _preempt_by_recompute sample_gops sample_bops (sample_full_scheduler true)
          sample_victims 1 1 =
        .ok ({ sample_full_scheduler true with m_block_manager := ⟨4, 1, [(0, 1)]⟩ },
          sample_victims.set 1 g', freed) ∧
      sample_gops.is_waiting g' = true ∧ sample_gops.get_num_processed_tokens g' = 0 :=
  _preempt_by_recompute_full_recompute sample_gops sample_bops (sample_full_scheduler true)
    sample_victims 1 1 _ rfl (Or.inl (by decide)) (fun _ _ _ => rfl) (fun _ => rfl)
    (fun _ => rfl) (fun _ => rfl)

/-- C14: in the partial branch, when the block manager released
`released >= 1` logical blocks (a count that fits an `int`) and the vLLM
prompt fallback does not apply, `preempt_tokens` is called with exactly
`tokens_in_last_block + (released - 1) * block_size`, where
`tokens_in_last_block` is `processed mod block_size`, or `block_size` when
that remainder is 0; the victim's `num_processed_tokens` goes down by that
amount when it is at most the processed count. -/
theorem _preempt_by_recompute_partial_rollback (self : Scheduler B) (groups : List G)
    (victim needed : Nat) (g : G) (hg : groups[victim]? = some g)
    (hb : full_recompute gops bops self g needed = false)
    (hbs : 0 < self.m_config.block_size)
    (h1 : 1 ≤ (partial_free gops bops self.m_block_manager g needed).2)
    (hint : (partial_free gops bops self.m_block_manager g needed).2 < 2 ^ 31)
    (hfit : tokens_in_last_block (gops.get_num_processed_tokens g) self.m_config.block_size
      + ((partial_free gops bops self.m_block_manager g needed).2 - 1)
        * self.m_config.block_size < 2 ^ 64)
    (hno : prompt_fallback gops bops self g needed = false)
    (hpre : ∀ x n, n ≤ gops.get_num_processed_tokens x →
      gops.get_num_processed_tokens (gops.preempt_tokens x n)
        = gops.get_num_processed_tokens x - n)
    (hwait : ∀ x, gops.get_num_processed_tokens (gops.set_waiting x)
      = gops.get_num_processed_tokens x) :
    let processed := gops.get_num_processed_tokens g
    let block_size := self.m_config.block_size
    let released := (partial_free gops bops self.m_block_manager g needed).2
    let amount := (if processed % block_size = 0 then block_size else processed % block_size)
      + (released - 1) * block_size
    ∃ self' freed,
      _preempt_by_recompute gops bops self groups victim needed =
        .ok (self', groups.set victim (gops.set_waiting (gops.preempt_tokens g amount)),
          freed) ∧
      (amount ≤ processed →
        gops.get_num_processed_tokens (gops.set_waiting (gops.preempt_tokens g amount))
          = processed - amount) := by
  intro processed block_size released amount
  have heq := _preempt_by_recompute_partial_eq gops bops self groups victim needed g hg hb
    (by omega)
  have hamount : partial_amount gops bops self g needed = amount := by
    unfold partial_amount
    rw [hno]
    exact partial_preempted_tokens_eq _ _ _ h1 hint hfit
  rw [hamount] at heq
  exact ⟨_, _, heq, fun hle => by rw [hwait, hpre _ _ hle]⟩

/-- C14, witness: request 1 has processed 11 tokens in 3 blocks of 4 and 2
blocks are released: it is rolled back by 3 + 1 * 4 = 7 tokens, to 4. -/
theorem _preempt_by_recompute_partial_rollback_witness :
    ∃ self' freed,
      _preempt_by_recompute sample_gops sample_bops (sample_long_scheduler true)
          sample_long_victims 1 2 =
        .ok (self', sample_long_victims.set 1
          (sample_gops.set_waiting (sample_gops.preempt_tokens
            { request_id := 1, prompt_len := 4, generated_len := 8,
              num_processed_tokens := 11 } (3 + (2 - 1) * 4))), freed) ∧
      (3 + (2 - 1) * 4 ≤ 11 →
        sample_gops.get_num_processed_tokens (sample_gops.set_waiting
          (sample_gops.preempt_tokens
            { request_id := 1, prompt_len := 4, generated_len := 8,
              num_processed_tokens := 11 } (3 + (2 - 1) * 4))) = 11 - (3 + (2 - 1) * 4)) :=
  _preempt_by_recompute_partial_rollback sample_gops sample_bops (sample_long_scheduler true)
    sample_long_victims 1 2 _ rfl (by decide) (by decide) (by decide) (by decide) (by decide)
    (by decide) (fun _ _ _ => rfl) (fun _ => rfl)

/-- C15: under the vLLM policy (`dynamic_split_fuse = false`) a call of
`_preempt_by_recompute` returns with the victim's `num_processed_tokens`
either 0 or at least its prompt length.  For a victim with a non-empty
prompt, a count of 0 comes with the frees of the branch taken: in the full
branch `free_sequence` on every sequence of `get_not_finished_sequences()`,
in the partial branch, after the partial free, `free_sequence` on each of
those sequences that has a block table.  The counters of the group are those
of a `SequenceGroup`, and the partial branch is taken to preempt no more
tokens than the victim has processed. -/
theorem _preempt_by_recompute_vllm (self : Scheduler B) (groups : List G)
    (victim needed : Nat) (g : G) (hg : groups[victim]? = some g)
    (hdsf : self.m_config.dynamic_split_fuse = false)
    (hbs : 0 < self.m_config.block_size)
    (hp : gops.get_num_processed_tokens g < 2 ^ 64)
    (hle : full_recompute gops bops self g needed = false →
      partial_preempted_tokens (gops.get_num_processed_tokens g) self.m_config.block_size
        (partial_free gops bops self.m_block_manager g needed).2
          ≤ gops.get_num_processed_tokens g)
    (hpre : ∀ x n, n ≤ gops.get_num_processed_tokens x →
      gops.get_num_processed_tokens (gops.preempt_tokens x n)
        = gops.get_num_processed_tokens x - n)
    (hreset : ∀ x, gops.get_num_processed_tokens (gops.reset_eviction_token_count x)
      = gops.get_num_processed_tokens x)
    (hwait : ∀ x, gops.get_num_processed_tokens (gops.set_waiting x)
      = gops.get_num_processed_tokens x) :
    ∃ self' g' freed,
      _preempt_by_recompute gops bops self groups victim needed =
        .ok (self', groups.set victim g', freed) ∧
      (gops.get_num_processed_tokens g' = 0
        ∨ gops.get_prompt_len g ≤ gops.get_num_processed_tokens g') ∧
      (gops.get_num_processed_tokens g' = 0 → 0 < gops.get_prompt_len g →
        (full_recompute gops bops self g needed = true ∧
          self'.m_block_manager = free_sequences bops self.m_block_manager
            (gops.get_not_finished_sequences g)) ∨
        (full_recompute gops bops self g needed = false ∧
          self'.m_block_manager = free_sequences_with_table bops
            (partial_free gops bops self.m_block_manager g needed).1
            (gops.get_not_finished_sequences g))) := by
  cases hb : full_recompute gops bops self g needed with
  | true =>
    have hzero : gops.get_num_processed_tokens (gops.set_waiting
        (if gops.get_num_evicted_tokens g != 0 then
          gops.reset_eviction_token_count
            (gops.preempt_tokens g (gops.get_num_processed_tokens g))
         else gops.preempt_tokens g (gops.get_num_processed_tokens g))) = 0 := by
      rw [hwait]
      split
      · rw [hreset, hpre _ _ (Nat.le_refl _), Nat.sub_self]
      · rw [hpre _ _ (Nat.le_refl _), Nat.sub_self]
    exact ⟨_, _, _, _preempt_by_recompute_full_eq gops bops self groups victim needed g hg hb,
      Or.inl hzero, fun _ _ => Or.inl ⟨rfl, rfl⟩⟩
  | false =>
    have heq := _preempt_by_recompute_partial_eq gops bops self groups victim needed g hg hb
      (by omega)
    cases hf : prompt_fallback gops bops self g needed with
    | true =>
      have hamount : partial_amount gops bops self g needed
          = gops.get_num_processed_tokens g := by
        unfold partial_amount; rw [hf]; rfl
      have hbm : partial_block_manager gops bops self g needed
          = free_sequences_with_table bops
            (partial_free gops bops self.m_block_manager g needed).1
            (gops.get_not_finished_sequences g) := by
        unfold partial_block_manager; rw [hf]; rfl
      have hzero : gops.get_num_processed_tokens (gops.set_waiting (gops.preempt_tokens g
          (partial_amount gops bops self g needed))) = 0 := by
        rw [hwait, hamount, hpre _ _ (Nat.le_refl _), Nat.sub_self]
      exact ⟨_, _, _, heq, Or.inl hzero, fun _ _ => Or.inr ⟨rfl, hbm⟩⟩
    | false =>
      have hamount : partial_amount gops bops self g needed
          = partial_preempted_tokens (gops.get_num_processed_tokens g)
              self.m_config.block_size
              (partial_free gops bops self.m_block_manager g needed).2 := by
        unfold partial_amount; rw [hf]; rfl
      have hle2 := hle hb
      have hkeep : gops.get_prompt_len g ≤ gops.get_num_processed_tokens g
          - partial_preempted_tokens (gops.get_num_processed_tokens g)
              self.m_config.block_size
              (partial_free gops bops self.m_block_manager g needed).2 := by
        unfold prompt_fallback at hf
        rw [hdsf] at hf
        simp only [Bool.not_false, Bool.true_and, decide_eq_false_iff_not, not_lt] at hf
        rw [size_sub_eq_sub _ _ hp hle2] at hf
        exact hf
      have hval : gops.get_num_processed_tokens (gops.set_waiting (gops.preempt_tokens g
          (partial_amount gops bops self g needed))) = gops.get_num_processed_tokens g
          - partial_preempted_tokens (gops.get_num_processed_tokens g)
              self.m_config.block_size
              (partial_free gops bops self.m_block_manager g needed).2 := by
        rw [hwait, hamount, hpre _ _ hle2]
      refine ⟨_, _, _, heq, Or.inr (by rw [hval]; exact hkeep), fun h0 hpos => ?_⟩
      rw [hval] at h0
      omega

/-- C15, witness: request 1 has a prompt of 6 tokens and 9 processed
tokens in 3 blocks; releasing 2 blocks would leave 4 tokens of the prompt,
so the victim is rolled back to 0 and its sequence is freed. -/
theorem _preempt_by_recompute_vllm_witness :
    ∃ self' g' freed,
      _preempt_by_recompute sample_gops sample_bops (sample_long_scheduler false)
          sample_prompt_victims 1 2 =
        .ok (self', sample_prompt_victims.set 1 g', freed) ∧
      (sample_gops.get_num_processed_tokens g' = 0
        ∨ 6 ≤ sample_gops.get_num_processed_tokens g') ∧
      (sample_gops.get_num_processed_tokens g' = 0 → 0 < 6 →
        (full_recompute sample_gops sample_bops (sample_long_scheduler false)
            { request_id := 1, prompt_len := 6, generated_len := 4,
              num_processed_tokens := 9 } 2 = true ∧
          self'.m_block_manager = ⟨4, 3, [(0, 1)]⟩) ∨
        (full_recompute sample_gops sample_bops (sample_long_scheduler false)
            { request_id := 1, prompt_len := 6, generated_len := 4,
              num_processed_tokens := 9 } 2 = false ∧
          self'.m_block_manager = ⟨4, 3, [(0, 1)]⟩)) :=
  _preempt_by_recompute_vllm sample_gops sample_bops (sample_long_scheduler false)
    sample_prompt_victims 1 2 _ rfl rfl (by decide) (by decide) (fun _ => by decide)
    (fun _ _ _ => rfl) (fun _ => rfl) (fun _ => rfl)

end PreemptByRecompute

section PreemptionEffect

variable {G B : Type} (gops : SequenceGroupOps G) (bops : BlockManagerOps B G)

end PreemptionEffect

section Eviction

variable {G B W : Type} (gops : SequenceGroupOps G) (bops : BlockManagerOps B G)
  (pops : PipelineOps G W)

theorem maybe_evict_cache_blocks_eq (p : ContinuousBatchingImpl G B W) :
    maybe_evict_cache_blocks gops bops pops p =
      match evict_sequences gops bops pops p.m_scheduler.m_config.block_size p.m_requests
          (pops.get_last_attention_scores p.world)
          (p.world, p.m_scheduler.m_block_manager, []) with
      | .error e => .error e
      | .ok (world, bm, evicted) =>
        .ok { p with
          world := world
          m_scheduler := { p.m_scheduler with m_block_manager := bm }
          m_requests := notify_evictions gops p.m_scheduler.m_config.block_size
            p.m_requests evicted } := by
  unfold maybe_evict_cache_blocks
  simp only
  generalize evict_sequences gops bops pops p.m_scheduler.m_config.block_size p.m_requests
    (pops.get_last_attention_scores p.world) (p.world, p.m_scheduler.m_block_manager, []) = x
  cases x <;> rfl

theorem evict_sequences_cons (block_size : Nat) (requests : List G) (seq_id : Nat)
    (scores : pops.Scores) (rest : List (Nat × pops.Scores)) (world : W) (bm : B)
    (evicted : List (Nat × Nat)) (r : W × B × List (Nat × Nat))
    (h : evict_sequences gops bops pops block_size requests ((seq_id, scores) :: rest)
      (world, bm, evicted) = .ok r) :
    ∃ group layer0,
      find_group_with_sequence gops requests seq_id = some group ∧
      (pops.evict_logical_blocks world block_size seq_id scores).2[0]? = some layer0 ∧
      ((∃ e, evicted.find? (fun e => e.1 == group) = some e ∧ e.2 = layer0.length ∧
          evict_sequences gops bops pops block_size requests rest
            ((pops.evict_logical_blocks world block_size seq_id scores).1,
              bops.free_blocks_from_sequence bm seq_id
                (pops.evict_logical_blocks world block_size seq_id scores).2, evicted)
            = .ok r) ∨
        (evicted.find? (fun e => e.1 == group) = none ∧
          evict_sequences gops bops pops block_size requests rest
            ((pops.evict_logical_blocks world block_size seq_id scores).1,
              bops.free_blocks_from_sequence bm seq_id
                (pops.evict_logical_blocks world block_size seq_id scores).2,
              evicted ++ [(group, layer0.length)]) = .ok r)) := by
  unfold evict_sequences at h
  simp only at h
  cases hf : find_group_with_sequence gops requests seq_id with
  | none => rw [hf] at h; cases h
  | some group =>
    rw [hf] at h
    simp only at h
    cases hl : (pops.evict_logical_blocks world block_size seq_id scores).2[0]? with
    | none => rw [hl] at h; cases h
    | some layer0 =>
      rw [hl] at h
      simp only at h
      refine ⟨group, layer0, rfl, rfl, ?_⟩
      cases he : evicted.find? (fun e => e.1 == group) with
      | none =>
        rw [he] at h
        exact Or.inr ⟨rfl, h⟩
      | some e =>
        rw [he] at h
        simp only at h
        split at h
        · rename_i heq
          exact Or.inl ⟨e, rfl, heq, h⟩
        · cases h

theorem scored_evictions_cons (block_size : Nat) (requests : List G) (seq_id : Nat)
    (scores : pops.Scores) (rest : List (Nat × pops.Scores)) (world : W) :
    scored_evictions gops pops block_size requests ((seq_id, scores) :: rest) world =
      (find_group_with_sequence gops requests seq_id,
        ((pops.evict_logical_blocks world block_size seq_id scores).2[0]?).map List.length)
      :: scored_evictions gops pops block_size requests rest
          (pops.evict_logical_blocks world block_size seq_id scores).1 := rfl

theorem evict_sequences_spec (block_size : Nat) (requests : List G) :
    ∀ (scores : List (Nat × pops.Scores)) (world : W) (bm : B) (evicted : List (Nat × Nat))
      (r : W × B × List (Nat × Nat)),
      evict_sequences gops bops pops block_size requests scores (world, bm, evicted) = .ok r →
      ((evicted.map Prod.fst).Nodup → (r.2.2.map Prod.fst).Nodup) ∧
      (∀ x ∈ evicted, x ∈ r.2.2) ∧
      (∀ x ∈ r.2.2, x ∈ evicted ∨
        (some x.1, some x.2) ∈ scored_evictions gops pops block_size requests scores world) ∧
      (∀ e ∈ scored_evictions gops pops block_size requests scores world,
        ∃ i n, e = (some i, some n) ∧ (i, n) ∈ r.2.2) := by
  intro scores
  induction scores with
  | nil =>
    intro world bm evicted r h
    unfold evict_sequences at h
    injection h with h
    subst h
    exact ⟨fun hn => hn, fun x hx => hx, fun x hx => Or.inl hx,
      fun e he => by simp [scored_evictions] at he⟩
  | cons head rest ih =>
    intro world bm evicted r h
    obtain ⟨seq_id, scores⟩ := head
    obtain ⟨group, layer0, hf, hl, hcase⟩ :=
      evict_sequences_cons gops bops pops block_size requests seq_id scores rest world bm
        evicted r h
    rw [scored_evictions_cons, hf, hl]
    rcases hcase with ⟨e, he, heq, hrec⟩ | ⟨he, hrec⟩
    · obtain ⟨h1, h2, h3, h4⟩ := ih _ _ _ _ hrec
      have hmem : (group, layer0.length) ∈ evicted := by
        have hin := List.mem_of_find?_eq_some he
        have hk := List.find?_some he
        simp only [beq_iff_eq] at hk
        have : e = (group, layer0.length) := Prod.ext hk heq
        rw [← this]
        exact hin
      refine ⟨h1, h2, fun x hx => ?_, fun e' he' => ?_⟩
      · rcases h3 x hx with hx1 | hx1
        · exact Or.inl hx1
        · exact Or.inr (List.mem_cons_of_mem _ hx1)
      · rcases List.mem_cons.1 he' with hh | ht
        · exact ⟨group, layer0.length, hh, h2 _ hmem⟩
        · exact h4 e' ht
    · obtain ⟨h1, h2, h3, h4⟩ := ih _ _ _ _ hrec
      have hnot : group ∉ evicted.map Prod.fst := by
        intro hin
        obtain ⟨x, hx, hxg⟩ := List.mem_map.1 hin
        have := List.find?_eq_none.1 he x hx
        simp only [beq_iff_eq] at this
        exact this hxg
      refine ⟨fun hn => h1 ?_, fun x hx => h2 x (List.mem_append_left _ hx),
        fun x hx => ?_, fun e' he' => ?_⟩
      · rw [List.map_append, List.nodup_append]
        refine ⟨hn, List.nodup_singleton _, ?_⟩
        intro a ha hb
        simp only [List.map_cons, List.map_nil, List.mem_singleton] at hb
        subst hb
        exact hnot ha
      · rcases h3 x hx with hx1 | hx1
        · rcases List.mem_append.1 hx1 with hx2 | hx2
          · exact Or.inl hx2
          · simp only [List.mem_singleton] at hx2
            subst hx2
            exact Or.inr (List.mem_cons_self _ _)
        · exact Or.inr (List.mem_cons_of_mem _ hx1)
      · rcases List.mem_cons.1 he' with hh | ht
        · exact ⟨group, layer0.length, hh,
            h2 _ (List.mem_append_right _ (List.mem_singleton.2 rfl))⟩
        · exact h4 e' ht

theorem evict_sequences_ok (block_size : Nat) (requests : List G) :
    ∀ (scores : List (Nat × pops.Scores)) (world : W) (bm : B) (evicted : List (Nat × Nat)),
      (∀ e ∈ scored_evictions gops pops block_size requests scores world,
        ∃ i n, e = (some i, some n)) →
      (∀ i n m, (some i, some n) ∈ scored_evictions gops pops block_size requests scores world →
        (some i, some m) ∈ scored_evictions gops pops block_size requests scores world →
        n = m) →
      (∀ i n m, (some i, some n) ∈ scored_evictions gops pops block_size requests scores world →
        (i, m) ∈ evicted → m = n) →
      ∃ r, evict_sequences gops bops pops block_size requests scores (world, bm, evicted)
        = .ok r := by
  intro scores
  induction scores with
  | nil =>
    intro world bm evicted _ _ _
    exact ⟨_, rfl⟩
  | cons head rest ih =>
    intro world bm evicted hall hcons hev
    obtain ⟨seq_id, scores⟩ := head
    rw [scored_evictions_cons] at hall hcons hev
    obtain ⟨i, n, hin⟩ := hall _ (List.mem_cons_self _ _)
    injection hin with hfind hlen
    cases hl : (pops.evict_logical_blocks world block_size seq_id scores).2[0]? with
    | none => rw [hl] at hlen; cases hlen
    | some layer0 =>
      rw [hl] at hlen hcons hev
      rw [hfind] at hcons hev
      simp only [Option.map_some'] at hlen hcons hev
      unfold evict_sequences
      simp only [hfind, hl]
      cases he : evicted.find? (fun e => e.1 == i) with
      | some e =>
        simp only
        have hin := List.mem_of_find?_eq_some he
        have hk := List.find?_some he
        simp only [beq_iff_eq] at hk
        have h2 : e.2 = layer0.length :=
          hev i layer0.length e.2 (List.mem_cons_self _ _) (by rw [← hk]; exact hin)
        rw [if_pos h2]
        exact ih _ _ _ (fun e' he' => hall e' (List.mem_cons_of_mem _ he'))
          (fun i' n' m' h1 h2 => hcons i' n' m' (List.mem_cons_of_mem _ h1)
            (List.mem_cons_of_mem _ h2))
          (fun i' n' m' h1 h2 => hev i' n' m' (List.mem_cons_of_mem _ h1) h2)
      | none =>
        simp only
        refine ih _ _ _ (fun e' he' => hall e' (List.mem_cons_of_mem _ he'))
          (fun i' n' m' h1 h2 => hcons i' n' m' (List.mem_cons_of_mem _ h1)
            (List.mem_cons_of_mem _ h2))
          (fun i' n' m' h1 h2 => ?_)
        rcases List.mem_append.1 h2 with h3 | h3
        · exact hev i' n' m' (List.mem_cons_of_mem _ h1) h3
        · simp only [List.mem_singleton] at h3
          injection h3 with h4 h5
          subst h4
          subst h5
          exact hcons _ _ _ (List.mem_cons_self _ _) (List.mem_cons_of_mem _ h1)

theorem notify_evictions_get (block_size : Nat) :
    ∀ (evicted : List (Nat × Nat)) (requests : List G), (evicted.map Prod.fst).Nodup →
      ∀ i, ((∀ n, (i, n) ∉ evicted) →
          (notify_evictions gops block_size requests evicted)[i]? = requests[i]?) ∧
        (∀ n, (i, n) ∈ evicted →
          (notify_evictions gops block_size requests evicted)[i]? =
            (requests[i]?).map
              (fun g => gops.register_token_eviction g (size_mul n block_size))) := by
  intro evicted
  induction evicted with
  | nil =>
    intro requests _ i
    exact ⟨fun _ => rfl, fun n hn => by cases hn⟩
  | cons e rest ih =>
    intro requests hnd i
    rw [List.map_cons, List.nodup_cons] at hnd
    obtain ⟨hfresh, hnd⟩ := hnd
    have hstep : ∀ j, (match requests[e.1]? with
        | some g => requests.set e.1
            (gops.register_token_eviction g (size_mul e.2 block_size))
        | none => requests)[j]? =
          if j = e.1 then (requests[j]?).map
            (fun g => gops.register_token_eviction g (size_mul e.2 block_size))
          else requests[j]? := by
      intro j
      cases hg : requests[e.1]? with
      | none =>
        simp only
        split
        · rename_i hj
          rw [hj, hg]; rfl
        · rfl
      | some g =>
        simp only
        have hlt : e.1 < requests.length := by
          by_contra hge
          have : requests[e.1]? = none := List.getElem?_eq_none (by omega)
          rw [this] at hg; cases hg
        split
        · rename_i hj
          rw [hj, List.getElem?_set_self hlt, hg]; rfl
        · rename_i hj
          exact List.getElem?_set_ne (fun h => hj h.symm)
    have hunfold : notify_evictions gops block_size requests (e :: rest) =
        notify_evictions gops block_size (match requests[e.1]? with
          | some g => requests.set e.1
              (gops.register_token_eviction g (size_mul e.2 block_size))
          | none => requests) rest := rfl
    rw [hunfold]
    obtain ⟨ih1, ih2⟩ := ih (match requests[e.1]? with
          | some g => requests.set e.1
              (gops.register_token_eviction g (size_mul e.2 block_size))
          | none => requests) hnd i
    refine ⟨fun hno => ?_, fun n hn => ?_⟩
    · have hne : i ≠ e.1 := fun h => hno e.2 (by rw [h]; exact List.mem_cons_self _ _)
      rw [ih1 (fun n hn => hno n (List.mem_cons_of_mem _ hn)), hstep, if_neg hne]
    · rcases List.mem_cons.1 hn with hhead | htail
      · have hnone : ∀ m, (i, m) ∉ rest := by
          intro m hm
          apply hfresh
          rw [← hhead]
          exact List.mem_map.2 ⟨(i, m), hm, rfl⟩
        rw [ih1 hnone, hstep, ← hhead, if_pos rfl]
      · have hne : i ≠ e.1 := by
          intro h
          apply hfresh
          rw [← h]
          exact List.mem_map.2 ⟨(i, n), htail, rfl⟩
        rw [ih2 n htail, hstep, if_neg hne]

theorem find_group_with_sequence_some (requests : List G) (seq_id i : Nat)
    (h : find_group_with_sequence gops requests seq_id = some i) :
    ∃ g, requests[i]? = some g ∧ gops.has_sequence_with_id g seq_id = true := by
  unfold find_group_with_sequence at h
  have hp := List.find?_some h
  cases hg : requests[i]? with
  | none => rw [hg] at hp; cases hp
  | some g =>
    rw [hg] at hp
    exact ⟨g, rfl, hp⟩

theorem scored_evictions_group (block_size : Nat) (requests : List G) :
    ∀ (scores : List (Nat × pops.Scores)) (world : W) (i : Nat) (n : Option Nat),
      (some i, n) ∈ scored_evictions gops pops block_size requests scores world →
      ∃ entry ∈ scores, find_group_with_sequence gops requests entry.1 = some i := by
  intro scores
  induction scores with
  | nil =>
    intro world i n h
    simp [scored_evictions] at h
  | cons head rest ih =>
    intro world i n h
    obtain ⟨seq_id, scores⟩ := head
    rw [scored_evictions_cons] at h
    rcases List.mem_cons.1 h with hh | ht
    · injection hh with h1 h2
      exact ⟨(seq_id, scores), List.mem_cons_self _ _, h1.symm⟩
    · obtain ⟨entry, he, hf⟩ := ih _ i n ht
      exact ⟨entry, List.mem_cons_of_mem _ he, hf⟩

/-- C17: the effect of `maybe_evict_cache_blocks`.  The trace lists, for each
sequence with attention scores, the group that owns it and the number of
logical blocks evicted from it on layer 0.  When the call returns, every
scored sequence had an owner and a layer 0, the sequences of one group all
evicted the same number `n` of blocks, the group is the result of one call of
`register_token_eviction(n * block_size)` (a `size_t` product) on what it was
before, and a group without scored sequence is unchanged.  When two scored
sequences of one group evicted different numbers of blocks the call fails.
When every scored sequence has an owner and a layer 0 and the numbers agree
within each group, the call returns. -/
theorem maybe_evict_cache_blocks_notifies (p : ContinuousBatchingImpl G B W) :
    let block_size := p.m_scheduler.m_config.block_size
    let trace := scored_evictions gops pops block_size p.m_requests
      (pops.get_last_attention_scores p.world) p.world
    (∀ p', maybe_evict_cache_blocks gops bops pops p = .ok p' →
      (∀ e ∈ trace, ∃ i n, e = (some i, some n)) ∧
      (∀ i n m, (some i, some n) ∈ trace → (some i, some m) ∈ trace → n = m) ∧
      (∀ i n, (some i, some n) ∈ trace →
        (∃ entry ∈ pops.get_last_attention_scores p.world, ∃ g,
          p.m_requests[i]? = some g ∧ gops.has_sequence_with_id g entry.1 = true ∧
          p'.m_requests[i]? =
            some (gops.register_token_eviction g (size_mul n block_size)))) ∧
      (∀ i, (∀ n, (some i, some n) ∉ trace) → p'.m_requests[i]? = p.m_requests[i]?)) ∧
    (∀ i n m, (some i, some n) ∈ trace → (some i, some m) ∈ trace → n ≠ m →
      ∃ e, maybe_evict_cache_blocks gops bops pops p = .error e) ∧
    ((∀ e ∈ trace, ∃ i n, e = (some i, some n)) →
      (∀ i n m, (some i, some n) ∈ trace → (some i, some m) ∈ trace → n = m) →
      ∃ p', maybe_evict_cache_blocks gops bops pops p = .ok p') := by
  intro block_size trace
  have hsucc : ∀ p', maybe_evict_cache_blocks gops bops pops p = .ok p' →
      (∀ e ∈ trace, ∃ i n, e = (some i, some n)) ∧
      (∀ i n m, (some i, some n) ∈ trace → (some i, some m) ∈ trace → n = m) ∧
      (∀ i n, (some i, some n) ∈ trace →
        (∃ entry ∈ pops.get_last_attention_scores p.world, ∃ g,
          p.m_requests[i]? = some g ∧ gops.has_sequence_with_id g entry.1 = true ∧
          p'.m_requests[i]? =
            some (gops.register_token_eviction g (size_mul n block_size)))) ∧
      (∀ i, (∀ n, (some i, some n) ∉ trace) → p'.m_requests[i]? = p.m_requests[i]?) := by
    intro p' h
    rw [maybe_evict_cache_blocks_eq] at h
    cases hx : evict_sequences gops bops pops p.m_scheduler.m_config.block_size p.m_requests
        (pops.get_last_attention_scores p.world)
        (p.world, p.m_scheduler.m_block_manager, []) with
    | error e => rw [hx] at h; cases h
    | ok r =>
      obtain ⟨world1, bm1, evicted⟩ := r
      rw [hx] at h
      simp only at h
      injection h with h
      subst h
      obtain ⟨h1, _, h3, h4⟩ := evict_sequences_spec gops bops pops _ _ _ _ _ _ _ hx
      have hnd : (evicted.map Prod.fst).Nodup := h1 List.nodup_nil
      have hrec : ∀ i n, (some i, some n) ∈ trace → (i, n) ∈ evicted := by
        intro i n hin
        obtain ⟨i', n', heq, hmem⟩ := h4 _ hin
        injection heq with e1 e2
        injection e1 with e1
        injection e2 with e2
        subst e1
        subst e2
        exact hmem
      refine ⟨fun e he => ?_, fun i n m hn hm => ?_, fun i n hn => ?_, fun i hno => ?_⟩
      · obtain ⟨i, n, heq, _⟩ := h4 e he
        exact ⟨i, n, heq⟩
      · have := List.inj_on_of_nodup_map hnd (hrec i n hn) (hrec i m hm) rfl
        injection this
      · obtain ⟨entry, hentry, hfind⟩ :=
          scored_evictions_group gops pops _ _ _ _ i (some n) hn
        obtain ⟨g, hg, hhas⟩ := find_group_with_sequence_some gops _ _ _ hfind
        refine ⟨entry, hentry, g, hg, hhas, ?_⟩
        have := (notify_evictions_get gops block_size evicted p.m_requests hnd i).2 n
          (hrec i n hn)
        rw [hg] at this
        exact this
      · refine (notify_evictions_get gops block_size evicted p.m_requests hnd i).1
          (fun n hn => ?_)
        rcases h3 _ hn with hx1 | hx1
        · cases hx1
        · exact hno n hx1
  refine ⟨hsucc, fun i n m hn hm hne => ?_, fun hall hcons => ?_⟩
  · cases hr : maybe_evict_cache_blocks gops bops pops p with
    | error e => exact ⟨e, rfl⟩
    | ok p' => exact absurd ((hsucc p' hr).2.1 i n m hn hm) hne
  · obtain ⟨r, hr⟩ := evict_sequences_ok gops bops pops block_size p.m_requests
      (pops.get_last_attention_scores p.world) p.world p.m_scheduler.m_block_manager []
      hall hcons (fun _ _ _ _ h => by cases h)
    rw [maybe_evict_cache_blocks_eq]
    obtain ⟨world1, bm1, evicted⟩ := r
    exact ⟨_, by rw [hr]⟩

/-- C17, witness: sequence 0 gives up one logical block of 4 tokens; its
request is notified of 4 evicted tokens and request 1 is unchanged. -/
theorem maybe_evict_cache_blocks_notifies_witness :
    (result_or (maybe_evict_cache_blocks sample_gops sample_bops scored_pops
        sample_scored_pipeline) sample_scored_pipeline).m_requests =
      [{ request_id := 0, prompt_len := 4, generated_len := 9, num_processed_tokens := 12,
         num_evicted_tokens := 4 },
       { request_id := 1, prompt_len := 4, num_processed_tokens := 4 }] ∧
    ∃ entry ∈ scored_pops.get_last_attention_scores sample_scored_pipeline.world, ∃ g,
      sample_scored_pipeline.m_requests[0]? = some g ∧
      sample_gops.has_sequence_with_id g entry.1 = true ∧
      (result_or (maybe_evict_cache_blocks sample_gops sample_bops scored_pops
        sample_scored_pipeline) sample_scored_pipeline).m_requests[0]? =
        some (sample_gops.register_token_eviction g (size_mul 1 4)) :=
  ⟨by decide,
    ((maybe_evict_cache_blocks_notifies sample_gops sample_bops scored_pops
      sample_scored_pipeline).1 _ rfl).2.2.1 0 1 (by decide)⟩

end Eviction

/-- C18, counterexample: for a draft request with 4 inserted and 1 removed
token the value handed to `update_acceptance_rate` is 75, which is neither
`1 - 1 / 4` nor in `[0, 1]`. -/
theorem record_acceptance_counterexample :
    (record_acceptance [0] 0 ⟨[(0, ⟨4, 1⟩)], [], []⟩).metrics =
      [MetricsCall.update_acceptance_rate 0 75,
       MetricsCall.update_draft_accepted_tokens 0 3] ∧
    (75 : Rat) ≠ 1 - 1 / 4 ∧ ¬ ((75 : Rat) ≤ 1) := by
  refine ⟨?_, by norm_num, by norm_num⟩
  simp only [record_acceptance, info_at, map_assign, size_sub]
  norm_num

/-- C18: one iteration of the loop of `SpeculativeDecodingImpl::step` over
the draft requests.  For a request whose inserted count is 0 no call is made
to the metrics.  For an inserted count `> 0` the iteration calls
`update_acceptance_rate` once, with `(1 - removed / inserted) * 100` (float
arithmetic taken without rounding), and `update_draft_accepted_tokens` once
with the `size_t` difference `inserted - removed`; the recorded rate is at
most 100, and it is at least 0 when `removed <= inserted`. -/
theorem record_acceptance_metrics (main_generated_requests : List Nat) (request_id : Nat)
    (st : AcceptanceState) :
    let info := info_at st.update_sequence_info request_id
    let rate : Rat :=
      (1 - (info.removed_tokens_cnt : Rat) / (info.inserted_tokens_cnt : Rat)) * 100
    (info.inserted_tokens_cnt = 0 →
      (record_acceptance main_generated_requests request_id st).metrics = st.metrics) ∧
    (0 < info.inserted_tokens_cnt →
      (record_acceptance main_generated_requests request_id st).metrics = st.metrics ++
        [MetricsCall.update_acceptance_rate request_id rate,
         MetricsCall.update_draft_accepted_tokens request_id
          (size_sub info.inserted_tokens_cnt info.removed_tokens_cnt)] ∧
      rate ≤ 100 ∧
      (info.removed_tokens_cnt ≤ info.inserted_tokens_cnt → 0 ≤ rate)) := by
  intro info rate
  refine ⟨fun h0 => ?_, fun hpos => ⟨?_, ?_, fun hle => ?_⟩⟩
  · have h0' : (info_at st.update_sequence_info request_id).inserted_tokens_cnt = 0 := h0
    unfold record_acceptance
    cases hc : main_generated_requests.contains request_id <;>
      simp only [Bool.not_true, Bool.not_false, if_true, if_false, Bool.false_eq_true] <;>
      rw [if_pos h0']
  · have hne : ¬ (info_at st.update_sequence_info request_id).inserted_tokens_cnt = 0 :=
      fun h => absurd hpos (by rw [show info.inserted_tokens_cnt = 0 from h]; decide)
    unfold record_acceptance
    cases hc : main_generated_requests.contains request_id <;>
      simp only [Bool.not_true, Bool.not_false, if_true, if_false, Bool.false_eq_true] <;>
      rw [if_neg hne]
  · have hq : (0 : Rat) ≤ (info.removed_tokens_cnt : Rat) / (info.inserted_tokens_cnt : Rat) :=
      div_nonneg (Nat.cast_nonneg _) (Nat.cast_nonneg _)
    show (1 - (info.removed_tokens_cnt : Rat) / (info.inserted_tokens_cnt : Rat)) * 100 ≤ 100
    linarith
  · have hi : (0 : Rat) < (info.inserted_tokens_cnt : Rat) := Nat.cast_pos.2 hpos
    have hq : (info.removed_tokens_cnt : Rat) / (info.inserted_tokens_cnt : Rat) ≤ 1 := by
      rw [div_le_one hi]
      exact_mod_cast hle
    show 0 ≤ (1 - (info.removed_tokens_cnt : Rat) / (info.inserted_tokens_cnt : Rat)) * 100
    nlinarith

/-- C18, witness: 4 inserted and 1 removed token record the rate
`(1 - 1 / 4) * 100` and 3 accepted tokens. -/
theorem record_acceptance_metrics_witness :
    (record_acceptance [0] 0 ⟨[(0, ⟨4, 1⟩)], [], []⟩).metrics = [] ++
      [MetricsCall.update_acceptance_rate 0 ((1 - ((1 : Nat) : Rat) / ((4 : Nat) : Rat)) * 100),
       MetricsCall.update_draft_accepted_tokens 0 (size_sub 4 1)] ∧
    (1 - ((1 : Nat) : Rat) / ((4 : Nat) : Rat)) * 100 ≤ 100 ∧
    (1 ≤ 4 → (0 : Rat) ≤ (1 - ((1 : Nat) : Rat) / ((4 : Nat) : Rat)) * 100) :=
  (record_acceptance_metrics [0] 0 ⟨[(0, ⟨4, 1⟩)], [], []⟩).2 (by decide)

theorem insert_new_tokens_log_probs (c : List Int) (lp : List Rat) (n i : Nat) (s : Sequence) :
    (insert_new_tokens c lp n i s).generated_log_probs = s.generated_log_probs ++
      (List.range' i n).map (fun j => if j < lp.length then lp.getD j 0 else 0) := by
  induction n generalizing i s with
  | zero => simp [insert_new_tokens]
  | succ n ih =>
    simp only [insert_new_tokens]
    rw [ih (i + 1) _]
    simp only [Sequence.append_token, List.append_assoc, List.range'_succ, List.map_cons,
      List.singleton_append]

theorem remove_extra_tokens_sequence (seq : Sequence) (c : List Int) (s' : Sequence) (n : Nat)
    (b : Bool) (h : remove_extra_tokens seq c = .ok (s', n, b)) :
    s' = seq.remove_last_tokens n := by
  have hid : seq.remove_last_tokens 0 = seq := by
    unfold Sequence.remove_last_tokens
    simp
  unfold remove_extra_tokens at h
  simp only at h
  split at h
  · split at h
    · split at h
      · injection h with h
        injection h with h1 h2
        injection h2 with h2 h3
        subst h2
        exact h1.symm
      · cases h
    · rename_i hpos
      injection h with h
      injection h with h1 h2
      injection h2 with h2 h3
      subst h2
      have h0 : size_sub seq.generated_ids.length
          (size_add (scan_token_idx seq.generated_ids c
            (min seq.generated_ids.length c.length)) 1) = 0 := by omega
      rw [h0, hid]
      exact h1.symm
  · injection h with h
    injection h with h1 h2
    injection h2 with h2 h3
    subst h2
    rw [hid]
    exact h1.symm

/-- C19: when `update_generated_sequence` returns for a candidate that
matches the first sequence of its request, that sequence is what
`remove_last_tokens(removed)` left of it, of length `p`, followed by the
tokens `candidate[p..]` in order; the token of candidate index `i` has the
log-prob `candidate.log_probs[i]` when `i < |candidate.log_probs|` and 0
otherwise, and the returned inserted count is the number of tokens
appended. -/
theorem update_generated_sequence_appended (q : RequestQueues SequenceGroup)
    (cand : GeneratedSequence) (pre : List SequenceGroup) (req : SequenceGroup)
    (post : List SequenceGroup) (seq : Sequence) (rest : List Sequence)
    (q' : RequestQueues SequenceGroup) (res : UpdateSeqResult)
    (hq : pulled q = pre ++ req :: post)
    (hpre : ∀ r ∈ pre, r.request_id ≠ cand.request_id)
    (hreq : req.request_id = cand.request_id)
    (hseq : req.sequences = seq :: rest) (hid : seq.grouped_id = cand.sequence_id)
    (h : update_generated_sequence q cand = .ok (q', res)) :
    let kept := seq.remove_last_tokens res.removed_tokens_cnt
    let p := kept.generated_ids.length
    ∃ req' seq',
      q'.m_requests = pre ++ req' :: post ∧ req'.sequences = seq' :: rest ∧
      p ≤ cand.token_ids.length ∧
      seq'.generated_ids = kept.generated_ids ++ cand.token_ids.drop p ∧
      seq'.generated_log_probs = kept.generated_log_probs ++
        (List.range' p (cand.token_ids.length - p)).map
          (fun i => if i < cand.log_probs.length then cand.log_probs.getD i 0 else 0) ∧
      res.inserted_tokens_cnt = (cand.token_ids.drop p).length := by
  intro kept p
  rw [update_generated_sequence_resolved q cand pre req post seq rest hq hpre hreq hseq hid] at h
  cases hu : update_matching_sequence seq cand with
  | error e => rw [hu] at h; cases h
  | ok u =>
    rw [hu] at h
    simp only at h
    injection h with h
    injection h with h1 h2
    subst h1
    subst h2
    unfold update_matching_sequence at hu
    cases hr : remove_extra_tokens seq cand.token_ids with
    | error e => rw [hr] at hu; cases hu
    | ok v =>
      obtain ⟨s1, n, b⟩ := v
      rw [hr] at hu
      simp only at hu
      have hs1 := remove_extra_tokens_sequence seq cand.token_ids s1 n b hr
      cases hi : insert_candidate_tokens s1 cand with
      | error e => rw [hi] at hu; cases hu
      | ok w =>
        obtain ⟨s2, k⟩ := w
        rw [hi] at hu
        simp only at hu
        injection hu with hu
        subst hu
        unfold insert_candidate_tokens at hi
        simp only at hi
        split at hi
        · rename_i hge
          injection hi with hi
          injection hi with hi1 hi2
          have hkept : kept = s1 := hs1.symm
          have hp : p = s1.generated_ids.length := by
            show kept.generated_ids.length = _
            rw [hkept]
          have hle : s1.generated_ids.length ≤ cand.token_ids.length := hge
          rw [Nat.min_eq_left hle, Nat.max_eq_right hle] at hi1 hi2
          refine ⟨_, s2, rfl, ?_, ?_, ?_, ?_, ?_⟩
          · rw [finish_update_sequences]
          · rw [hp]; exact hle
          · rw [hkept, hp, ← hi1, insert_new_tokens_ids _ _ _ _ _ (by omega),
              List.take_of_length_le]
            simp only [List.length_drop]; omega
          · rw [hkept, hp, ← hi1, insert_new_tokens_log_probs]
          · show k = _
            rw [← hi2, hp, List.length_drop]
        · cases hi

/-- C19, witness: present `[1, 2, 3]`, candidate `[1, 2, 7, 8]` with three
log-probs: one token is removed, `[7, 8]` is appended with the log-probs
`-3` (candidate index 2) and `0` (index 3, past the log-probs). -/
theorem update_generated_sequence_appended_witness :
    ∃ req' seq',
      [(⟨7, 4, [⟨0, [1, 2, 7, 8], [0, 0, -3, 0]⟩], 9, false⟩ : SequenceGroup)]
        = [] ++ req' :: [] ∧
      req'.sequences = seq' :: [] ∧
      ((⟨0, [1, 2, 3], [0, 0, 0]⟩ : Sequence).remove_last_tokens 1).generated_ids.length
        ≤ [(1 : Int), 2, 7, 8].length ∧
      seq'.generated_ids =
        ((⟨0, [1, 2, 3], [0, 0, 0]⟩ : Sequence).remove_last_tokens 1).generated_ids
          ++ [(1 : Int), 2, 7, 8].drop
            ((⟨0, [1, 2, 3], [0, 0, 0]⟩ : Sequence).remove_last_tokens 1).generated_ids.length ∧
      seq'.generated_log_probs =
        ((⟨0, [1, 2, 3], [0, 0, 0]⟩ : Sequence).remove_last_tokens 1).generated_log_probs
          ++ (List.range'
            ((⟨0, [1, 2, 3], [0, 0, 0]⟩ : Sequence).remove_last_tokens 1).generated_ids.length
            ([(1 : Int), 2, 7, 8].length -
              ((⟨0, [1, 2, 3], [0, 0, 0]⟩ : Sequence).remove_last_tokens
                1).generated_ids.length)).map
            (fun i => if i < [(-1 : Rat), -2, -3].length then [(-1 : Rat), -2, -3].getD i 0
              else 0) ∧
      2 = ([(1 : Int), 2, 7, 8].drop
        ((⟨0, [1, 2, 3], [0, 0, 0]⟩ : Sequence).remove_last_tokens 1).generated_ids.length).length :=
  update_generated_sequence_appended (sample_queue [1, 2, 3])
    (sample_scored_candidate [1, 2, 7, 8] [-1, -2, -3]) [] (sample_request [1, 2, 3]) []
    ⟨0, [1, 2, 3], [0, 0, 0]⟩ []
    ⟨[⟨7, 4, [⟨0, [1, 2, 7, 8], [0, 0, -3, 0]⟩], 9, false⟩], []⟩ ⟨2, 1⟩
    rfl (fun _ h => absurd h (List.not_mem_nil _)) rfl rfl rfl rfl

section Generate

variable {G B W : Type} (gops : SequenceGroupOps G) (bops : BlockManagerOps B G)
  (pops : PipelineOps G W) (rops : RequestOps G B)

/-- C20: `generate` throws, leaving the awaiting queue and the active set
(the whole pipeline) as they were, whenever the pipeline has an awaiting
or an active request or the number of input tensors differs from the number
of sampling-parameter entries; under the same conditions, read on its main
pipeline, `SpeculativeDecodingImpl::generate` throws at one of its first two
assertions, before it adds a request. -/
theorem generate_rejects (sched_fuel step_fuel fuel : Nat) (p : ContinuousBatchingImpl G B W)
    (sd : SpeculativeDecodingImpl G B W)
    (input_ids : List Tensor) (sampling_params : List rops.SamplingParams)
    (streamer : Option rops.Streamer) :
    ((p.m_awaiting_requests ≠ [] ∨ p.m_requests ≠ []
        ∨ input_ids.length ≠ sampling_params.length) →
      generate gops bops pops rops sched_fuel step_fuel fuel p input_ids sampling_params
        streamer = .rejected .assertion_failed p) ∧
    ((sd.m_main_pipeline.m_awaiting_requests ≠ [] ∨ sd.m_main_pipeline.m_requests ≠ []
        ∨ input_ids.length ≠ sampling_params.length) →
      sd.generate_entry input_ids.length sampling_params.length = .error .assertion_failed) := by
  have hnf : ∀ q : ContinuousBatchingImpl G B W,
      has_non_finished_requests q = false → q.m_awaiting_requests = [] ∧ q.m_requests = [] := by
    intro q hq
    unfold has_non_finished_requests at hq
    simp only [Bool.or_eq_false_iff, Bool.not_eq_false', List.isEmpty_iff] at hq
    exact hq
  refine ⟨fun h => ?_, fun h => ?_⟩
  · unfold generate
    cases hc : has_non_finished_requests p with
    | true => simp only [if_true]
    | false =>
      obtain ⟨h1, h2⟩ := hnf p hc
      rcases h with h | h | h
      · exact absurd h1 h
      · exact absurd h2 h
      · simp only [Bool.false_eq_true, if_false, h, ne_eq, not_false_eq_true, if_true]
  · unfold SpeculativeDecodingImpl.generate_entry SpeculativeDecodingImpl.has_non_finished_requests
    cases hc : OvGenai.has_non_finished_requests sd.m_main_pipeline with
    | true => simp only [if_true]
    | false =>
      obtain ⟨h1, h2⟩ := hnf sd.m_main_pipeline hc
      rcases h with h | h | h
      · exact absurd h1 h
      · exact absurd h2 h
      · simp only [Bool.false_eq_true, if_false, h, ne_eq, not_false_eq_true, if_true]

/-- C20, witness: the sample pipeline has two awaiting requests; `generate`
with one input throws and leaves the pipeline as it was. -/
theorem generate_rejects_witness :
    generate sample_gops sample_bops sample_pops sample_rops 4 4 4 sample_pipeline
      [⟨[1, 3], [5, 6, 7]⟩] [(1 : Nat)] none = .rejected .assertion_failed sample_pipeline :=
  (generate_rejects sample_gops sample_bops sample_pops sample_rops 4 4 4 sample_pipeline
    ⟨sample_pipeline, sample_pipeline⟩ [⟨[1, 3], [5, 6, 7]⟩] [(1 : Nat)] none).1
    (Or.inl (by decide))

end Generate

section GenerateSkipped

variable {G B : Type} (gops : SequenceGroupOps G) (bops : BlockManagerOps B G)

/-- C21: in the generation phase, a group that was given `per` tokens and
that still cannot append slots when the preemption loop has returned is
skipped: the iteration goes on to the next group with
`clear_scheduled_tokens()` called on the group and with the output of the
scheduler as it was, so that the index of the group is not added to the
scheduled ids, no block table is recorded for it and the total number of
scheduled tokens is unchanged. -/
theorem generate_phase_body_skipped (fuel i : Nat) (st : SchedState G B) (g : G)
    (floor : Nat) (self' : Scheduler B) (groups' : List G)
    (hg : st.sequence_groups[i]? = some g)
    (hgen : gops.can_generate_tokens g = true) (hwait : gops.is_waiting g = false)
    (hfin : gops.has_finished g = false)
    (hdiv : size_div (size_sub st.self.m_config.max_num_batched_tokens
      st.scheduler_output.m_total_num_scheduled_tokens) (gops.num_running_seqs g) = .ok floor)
    (hpos : floor ≠ 0)
    (ha : _apply_preemption gops bops i fuel st.self
      (st.sequence_groups.set i (gops.schedule_tokens g
        (min floor (gops.get_num_available_tokens_for_batching g)))) = .ok (self', groups'))
    (hc : bops.can_append_slots self'.m_block_manager (gops.schedule_tokens g
        (min floor (gops.get_num_available_tokens_for_batching g))) = false) :
    ∃ r, generate_phase_body gops bops fuel i st = .ok (.next r) ∧
      r.sequence_groups[i]? = some (gops.clear_scheduled_tokens (gops.schedule_tokens g
        (min floor (gops.get_num_available_tokens_for_batching g)))) ∧
      r.scheduler_output = st.scheduler_output ∧
      (i ∉ st.scheduler_output.m_scheduled_sequence_groups_ids →
        i ∉ r.scheduler_output.m_scheduled_sequence_groups_ids) ∧
      r.scheduler_output.m_block_tables = st.scheduler_output.m_block_tables ∧
      r.scheduler_output.m_total_num_scheduled_tokens
        = st.scheduler_output.m_total_num_scheduled_tokens := by
  have hi : i < st.sequence_groups.length := by
    by_contra hge
    have : st.sequence_groups[i]? = none := List.getElem?_eq_none (by omega)
    rw [this] at hg; cases hg
  have hget := _apply_preemption_get gops bops i fuel _ _ _ _ ha i (Nat.le_refl i)
  rw [List.getElem?_set_self hi] at hget
  have hlen : i < groups'.length := by
    by_contra hge
    have : groups'[i]? = none := List.getElem?_eq_none (by omega)
    rw [this] at hget; cases hget
  refine ⟨⟨self', groups'.set i (gops.clear_scheduled_tokens (gops.schedule_tokens g
    (min floor (gops.get_num_available_tokens_for_batching g)))), st.scheduler_output⟩,
    ?_, List.getElem?_set_self hlen, rfl, fun h => h, rfl, rfl⟩
  unfold generate_phase_body
  simp only [hg, hgen, hwait, hfin, Bool.not_false, Bool.and_self, if_true, hdiv, hpos,
    Bool.false_eq_true, if_false, ha, hget, hc]

/-- C21, witness: request 0 holds the only block and needs a second one for
its next token; no other group can be preempted, so it is skipped. -/
theorem generate_phase_body_skipped_witness :
    ∃ r, generate_phase_body sample_gops sample_bops 4 0
        ⟨sample_blocked_scheduler, [sample_blocked], {}⟩ = .ok (.next r) ∧
      r.sequence_groups[0]? = some (sample_gops.clear_scheduled_tokens
        (sample_gops.schedule_tokens sample_blocked
          (min 8 (sample_gops.get_num_available_tokens_for_batching sample_blocked)))) ∧
      r.scheduler_output = {} ∧
      (0 ∉ ([] : List Nat) → 0 ∉ r.scheduler_output.m_scheduled_sequence_groups_ids) ∧
      r.scheduler_output.m_block_tables = [] ∧
      r.scheduler_output.m_total_num_scheduled_tokens = 0 :=
  generate_phase_body_skipped sample_gops sample_bops 4 0
    ⟨sample_blocked_scheduler, [sample_blocked], {}⟩ sample_blocked 8
    sample_blocked_scheduler [sample_gops.schedule_tokens sample_blocked 1]
    rfl rfl rfl rfl rfl (by decide) rfl (by decide)

end GenerateSkipped

theorem fill_new_sequence_ok (toks : List Int) (lps : List Rat) :
    ∀ (n i : Nat) (s s' : Sequence), fill_new_sequence toks lps n i s = .ok s' →
      s'.grouped_id = s.grouped_id ∧
      s'.generated_ids = s.generated_ids ++ (toks.drop i).take n ∧
      s'.generated_log_probs = s.generated_log_probs ++ (lps.drop i).take n := by
  intro n
  induction n with
  | zero =>
    intro i s s' h
    unfold fill_new_sequence at h
    injection h with h
    subst h
    simp
  | succ n ih =>
    intro i s s' h
    unfold fill_new_sequence at h
    cases ht : toks[i]? with
    | none => simp only [ht] at h; cases h
    | some t =>
      cases hp : lps[i]? with
      | none => simp only [ht, hp] at h; cases h
      | some p =>
        simp only [ht, hp] at h
        obtain ⟨h1, h2, h3⟩ := ih (i + 1) _ s' h
        have hti : i < toks.length := by
          by_contra hge
          have : toks[i]? = none := List.getElem?_eq_none (by omega)
          rw [this] at ht; cases ht
        have hpi : i < lps.length := by
          by_contra hge
          have : lps[i]? = none := List.getElem?_eq_none (by omega)
          rw [this] at hp; cases hp
        have et : toks[i] = t := by
          rw [List.getElem?_eq_getElem hti] at ht
          injection ht
        have ep : lps[i] = p := by
          rw [List.getElem?_eq_getElem hpi] at hp
          injection hp
        refine ⟨h1, ?_, ?_⟩
        · rw [h2, List.drop_eq_getElem_cons hti, List.take_succ_cons, et]
          simp [Sequence.append_token]
        · rw [h3, List.drop_eq_getElem_cons hpi, List.take_succ_cons, ep]
          simp [Sequence.append_token]

/-- C23, failing input: request 7 holds the single sequence of grouped id 0.
A candidate for sequence 1 adds a sequence of id 1 to it; on the request so
obtained the next candidate for sequence 1 is not applied to that sequence,
which keeps its ids `[2]`, and a third sequence, again of id 1, is added. -/
theorem update_generated_sequence_repeated_id :
    update_generated_sequence ⟨[⟨7, 4, [⟨0, [1], [0]⟩], 6, false⟩], []⟩ ⟨7, 1, [2], [0]⟩
      = .ok (sample_two_sequences, ⟨0, 0⟩) ∧
    update_generated_sequence sample_two_sequences ⟨7, 1, [2, 5], [0, 0]⟩ =
      .ok (⟨[⟨7, 4, [⟨0, [1], [0]⟩, ⟨1, [2], [0]⟩, ⟨1, [2, 5], [0, 0]⟩], 6, false⟩], []⟩,
        ⟨0, 0⟩) :=
  ⟨rfl, rfl⟩

/-- C23: `update_generated_sequence` compares the candidate's sequence id
with the grouped id of the first sequence of the request only, because the
loop over the sequences leaves at the end of its first iteration.  When the
ids are equal the candidate is applied to that sequence and the other
sequences are kept.  When they differ, or the request has no sequence, every
sequence of the request is kept as it is, whatever its id: the candidate is
not applied to a later sequence that has its id, a new sequence with the
candidate's id, tokens and log-probs is added at the end, and the call
returns `(0, 0)`. -/
theorem update_generated_sequence_first_sequence (q : RequestQueues SequenceGroup)
    (cand : GeneratedSequence) (pre : List SequenceGroup) (req : SequenceGroup)
    (post : List SequenceGroup) (q' : RequestQueues SequenceGroup) (res : UpdateSeqResult)
    (hq : pulled q = pre ++ req :: post)
    (hpre : ∀ r ∈ pre, r.request_id ≠ cand.request_id)
    (hreq : req.request_id = cand.request_id)
    (h : update_generated_sequence q cand = .ok (q', res)) :
    (∀ seq rest, req.sequences = seq :: rest → seq.grouped_id = cand.sequence_id →
      ∃ u req', update_matching_sequence seq cand = .ok u ∧
        q'.m_requests = pre ++ req' :: post ∧ req'.sequences = u.sequence :: rest ∧
        res = ⟨u.to_insert_tokens, u.to_remove_tokens⟩) ∧
    ((req.sequences = [] ∨ ∃ seq rest, req.sequences = seq :: rest ∧
        seq.grouped_id ≠ cand.sequence_id) →
      ∃ new_sequence,
        q'.m_requests = pre ++ { req with sequences := req.sequences ++ [new_sequence] } :: post ∧
        new_sequence.grouped_id = cand.sequence_id ∧
        new_sequence.generated_ids = cand.token_ids ∧
        new_sequence.generated_log_probs = cand.log_probs.take cand.token_ids.length ∧
        res = ⟨0, 0⟩) := by
  have hq2 : (_pull_awaiting_requests SequenceGroup.pause_generation q).m_requests
      = pre ++ req :: post := hq
  unfold update_generated_sequence at h
  simp only [hq2, update_requests_split cand pre req post hpre hreq] at h
  cases hu : update_request req cand with
  | error e => rw [hu] at h; cases h
  | ok v =>
    obtain ⟨r1, res1⟩ := v
    rw [hu] at h
    simp only at h
    injection h with h
    injection h with h1 h2
    subst h1
    subst h2
    refine ⟨fun seq rest hseq hid => ?_, fun hno => ?_⟩
    · rw [update_request_of_match req cand seq rest hseq hid] at hu
      cases hm : update_matching_sequence seq cand with
      | error e => rw [hm] at hu; cases hu
      | ok u =>
        rw [hm] at hu
        simp only at hu
        injection hu with hu
        injection hu with hu1 hu2
        refine ⟨u, r1, rfl, rfl, ?_, hu2.symm⟩
        rw [← hu1, finish_update_sequences]
    · unfold update_request at hu
      have hu' : (match fill_new_sequence cand.token_ids cand.log_probs cand.token_ids.length 0
              ⟨cand.sequence_id, [], []⟩ with
          | .error e => .error e
          | .ok new_sequence =>
            .ok (finish_update (req.add_sequence new_sequence) false 0, ⟨0, 0⟩))
          = (Except.ok (r1, res1) : Except Error (SequenceGroup × UpdateSeqResult)) := by
        rcases hno with hnil | ⟨seq, rest, hseq, hne⟩
        · simp only [hnil] at hu
          exact hu
        · have hne' : ¬ cand.sequence_id = seq.grouped_id := fun e => hne e.symm
          simp only [hseq, hne', if_false] at hu
          exact hu
      clear hu
      rename' hu' => hu
      cases hf : fill_new_sequence cand.token_ids cand.log_probs cand.token_ids.length 0
          ⟨cand.sequence_id, [], []⟩ with
      | error e => rw [hf] at hu; cases hu
      | ok new_sequence =>
        rw [hf] at hu
        simp only at hu
        injection hu with hu
        injection hu with hu1 hu2
        obtain ⟨g1, g2, g3⟩ := fill_new_sequence_ok _ _ _ _ _ _ hf
        refine ⟨new_sequence, ?_, g1, ?_, ?_, hu2.symm⟩
        · rw [← hu1]
          rfl
        · rw [g2]
          simp
        · rw [g3]
          simp

/-- C23, witness: request 7 holds the sequences of grouped ids 0 and 1 and
the candidate is for sequence 1, which is not the first one: both sequences
are kept as they are and a third sequence, again of id 1, is added. -/
theorem update_generated_sequence_first_sequence_witness :
    ∃ new_sequence,
      [(⟨7, 4, [⟨0, [1], [0]⟩, ⟨1, [2], [0]⟩, ⟨1, [2, 5], [0, 0]⟩], 6, false⟩ : SequenceGroup)]
        = [] ++ { (⟨7, 4, [⟨0, [1], [0]⟩, ⟨1, [2], [0]⟩], 6, false⟩ : SequenceGroup) with
            sequences := [⟨0, [1], [0]⟩, ⟨1, [2], [0]⟩] ++ [new_sequence] } :: [] ∧
      new_sequence.grouped_id = 1 ∧
      new_sequence.generated_ids = [2, 5] ∧
      new_sequence.generated_log_probs = [0, 0] ∧
      (⟨0, 0⟩ : UpdateSeqResult) = ⟨0, 0⟩ :=
  (update_generated_sequence_first_sequence sample_two_sequences ⟨7, 1, [2, 5], [0, 0]⟩ []
    ⟨7, 4, [⟨0, [1], [0]⟩, ⟨1, [2], [0]⟩], 6, false⟩ []
    ⟨[⟨7, 4, [⟨0, [1], [0]⟩, ⟨1, [2], [0]⟩, ⟨1, [2, 5], [0, 0]⟩], 6, false⟩], []⟩ ⟨0, 0⟩
    rfl (fun _ h => absurd h (List.not_mem_nil _)) rfl rfl).2
    (Or.inr ⟨⟨0, [1], [0]⟩, [⟨1, [2], [0]⟩], rfl, by decide⟩)

theorem split_cache_size_main (cache_size main_h draft_h : Nat) (hm : 0 < main_h)
    (hd : 0 < draft_h) (hfit : main_h + draft_h < 2 ^ 64) :
    let k : Rat := (draft_h : Rat) / ((size_add main_h draft_h : Nat) : Rat)
    (Int.ceil ((cache_size : Rat) * (1 - k))).toNat ≤ cache_size ∧
    (0 < cache_size → 0 < (Int.ceil ((cache_size : Rat) * (1 - k))).toNat) := by
  intro k
  have hsum : size_add main_h draft_h = main_h + draft_h := size_add_eq_add _ _ hfit
  have hk : k = (draft_h : Rat) / ((main_h : Rat) + (draft_h : Rat)) := by
    show (draft_h : Rat) / ((size_add main_h draft_h : Nat) : Rat) = _
    rw [hsum]
    push_cast
    rfl
  have hmq : (0 : Rat) < main_h := Nat.cast_pos.2 hm
  have hdq : (0 : Rat) < draft_h := Nat.cast_pos.2 hd
  have hk0 : 0 < k := by rw [hk]; positivity
  have hk1 : k < 1 := by
    rw [hk, div_lt_one (by positivity)]
    linarith
  have hc : (0 : Rat) ≤ cache_size := Nat.cast_nonneg _
  constructor
  · have hle : (cache_size : Rat) * (1 - k) ≤ ((cache_size : Int) : Rat) := by
      push_cast
      nlinarith
    have hceil : Int.ceil ((cache_size : Rat) * (1 - k)) ≤ (cache_size : Int) :=
      Int.ceil_le.2 hle
    omega
  · intro hpos
    have hcq : (0 : Rat) < cache_size := Nat.cast_pos.2 hpos
    have hprod : (0 : Rat) < (cache_size : Rat) * (1 - k) := by nlinarith
    have hceil : 0 < Int.ceil ((cache_size : Rat) * (1 - k)) := Int.ceil_pos.2 hprod
    omega

/-- C24, counterexample: with `cache_size = 1` and hidden sizes 3 and 1 the
main model gets 1 and the draft model gets 1: the two sizes add up to 2. -/
theorem split_cache_size_counterexample :
    split_cache_size 1 3 1 = (1, 1) ∧ (1 : Nat) + 1 ≠ 1 := by
  refine ⟨?_, by decide⟩
  have hceil : Int.ceil (((1 : Nat) : Rat) * (1 - ((1 : Nat) : Rat)
      / ((size_add 3 1 : Nat) : Rat))) = 1 := by
    rw [Int.ceil_eq_iff]
    have : size_add 3 1 = 4 := by decide
    rw [this]
    norm_num
  unfold split_cache_size
  simp only [hceil]
  decide

/-- C24 (amended): when the draft scheduler configuration is left at its
default, the constructor of `SpeculativeDecodingImpl` splits `cache_size` so
that `main_cache_size + draft_cache_size == cache_size` for every
`cache_size` other than 1 and every pair of positive hidden sizes (the ratio
taken as an exact rational); for `cache_size == 1` both sizes are 1.  In
every case the draft size is at least 1 when `cache_size` is. -/
theorem split_cache_size_sum (cache_size main_h draft_h : Nat) (hm : 0 < main_h)
    (hd : 0 < draft_h) (hfit : main_h + draft_h < 2 ^ 64) (hc : cache_size < 2 ^ 64) :
    (cache_size ≠ 1 →
      (split_cache_size cache_size main_h draft_h).1
        + (split_cache_size cache_size main_h draft_h).2 = cache_size) ∧
    (cache_size = 1 → split_cache_size cache_size main_h draft_h = (1, 1)) ∧
    (0 < cache_size → 1 ≤ (split_cache_size cache_size main_h draft_h).2) := by
  obtain ⟨hle, hpos⟩ := split_cache_size_main cache_size main_h draft_h hm hd hfit
  generalize hM : (Int.ceil ((cache_size : Rat) * (1 - (draft_h : Rat)
    / ((size_add main_h draft_h : Nat) : Rat)))).toNat = M at hle hpos
  have hmod : M % 2 ^ 64 = M := Nat.mod_eq_of_lt (by omega)
  have hsub : size_sub cache_size M = cache_size - M := size_sub_eq_sub _ _ hc hle
  have hdef : split_cache_size cache_size main_h draft_h =
      if cache_size - M = 0 ∧ M > 0 then (M - (if M > 1 then 1 else 0), 1)
      else (M, cache_size - M) := by
    unfold split_cache_size
    simp only [hM, hmod, hsub]
  rw [hdef]
  refine ⟨fun hne => ?_, fun h1 => ?_, fun h0 => ?_⟩
  · split
    · rename_i hcond
      have hM1 : M > 1 := by
        have := hpos (by omega)
        omega
      simp only [hM1, if_true]
      omega
    · simp only
      omega
  · have := hpos (by omega)
    have hM1 : M = 1 := by omega
    subst hM1
    subst h1
    rfl
  · have := hpos h0
    split
    · simp
    · rename_i hcond
      simp only
      omega

/-- C24, witness: a cache of 10 with hidden sizes 3 and 1 is split into two
sizes that add up to 10. -/
theorem split_cache_size_sum_witness :
    (split_cache_size 10 3 1).1 + (split_cache_size 10 3 1).2 = 10 :=
  (split_cache_size_sum 10 3 1 (by decide) (by decide) (by decide) (by decide)).1 (by decide)

theorem update_matching_sequence_result (seq : Sequence) (cand : GeneratedSequence)
    (u : SeqUpdate) (hlen : seq.generated_ids.length < 2 ^ 64)
    (h : update_matching_sequence seq cand = .ok u) :
    u.sequence.grouped_id = seq.grouped_id ∧
    u.sequence.generated_ids.length = cand.token_ids.length ∧
    (0 < cand.token_ids.length →
      u.sequence.generated_ids.getD (cand.token_ids.length - 1) 0
        = cand.token_ids.getD (cand.token_ids.length - 1) 0) := by
  by_cases hm : min seq.generated_ids.length cand.token_ids.length = 0
  · by_cases hp : seq.generated_ids = []
    · obtain ⟨s', heq, hids, hgid⟩ := update_matching_sequence_of_nil seq cand hp
      rw [heq] at h
      injection h with h
      subst h
      exact ⟨hgid, by rw [hids], fun _ => by rw [hids]⟩
    · have hc : cand.token_ids = [] := by
        have hpos : 0 < seq.generated_ids.length := List.length_pos.mpr hp
        have : cand.token_ids.length = 0 := by omega
        exact List.length_eq_zero.mp this
      rw [update_matching_sequence_of_nil_candidate seq cand hc hp] at h
      cases h
  · obtain ⟨s', heq, hids, hgid⟩ := update_matching_sequence_of_ne seq cand hlen hm
    rw [heq] at h
    injection h with h
    subst h
    have hk := kept_len_le seq.generated_ids cand.token_ids hlen
    refine ⟨hgid, ?_, fun hpos => ?_⟩
    · show s'.generated_ids.length = _
      rw [hids, List.length_append, List.length_take, List.length_drop]
      omega
    · show s'.generated_ids.getD _ 0 = _
      rw [hids]
      by_cases hlt : kept_len seq.generated_ids cand.token_ids ≤ cand.token_ids.length - 1
      · have hlt2 : (seq.generated_ids.take
            (kept_len seq.generated_ids cand.token_ids)).length
            ≤ cand.token_ids.length - 1 := by
          rw [List.length_take]; omega
        simp only [List.getD_eq_getElem?_getD]
        rw [List.getElem?_append_right hlt2, List.getElem?_drop, List.length_take]
        congr 2
        omega
      · have hkeq : kept_len seq.generated_ids cand.token_ids = cand.token_ids.length := by
          omega
        have hscan : ∃ j, j < min seq.generated_ids.length cand.token_ids.length ∧
            kept_len seq.generated_ids cand.token_ids = j + 1 ∧
            seq.generated_ids.getD j 0 = cand.token_ids.getD j 0 := by
          rcases scan_token_idx_spec seq.generated_ids cand.token_ids
              (min seq.generated_ids.length cand.token_ids.length) with
            ⟨h1, _⟩ | ⟨j, hj, h1, h2, _⟩
          · exfalso
            have : kept_len seq.generated_ids cand.token_ids = 0 := by
              unfold kept_len size_add
              rw [h1]
              simp [SIZE_MAX]
            omega
          · refine ⟨j, hj, ?_, h2⟩
            unfold kept_len size_add
            rw [h1]
            exact Nat.mod_eq_of_lt (by omega)
        obtain ⟨j, hj, hkj, hag⟩ := hscan
        have hj1 : cand.token_ids.length - 1 = j := by omega
        rw [hj1]
        have hjt : j < (seq.generated_ids.take
            (kept_len seq.generated_ids cand.token_ids)).length := by
          rw [List.length_take]; omega
        simp only [List.getD_eq_getElem?_getD] at hag ⊢
        rw [List.getElem?_append_left hjt, List.getElem?_take_of_lt (by omega)]
        exact hag

theorem update_matching_sequence_again (s : Sequence) (cand : GeneratedSequence)
    (hclen : cand.token_ids.length < 2 ^ 64)
    (hl : s.generated_ids.length = cand.token_ids.length)
    (hag : 0 < cand.token_ids.length →
      s.generated_ids.getD (cand.token_ids.length - 1) 0
        = cand.token_ids.getD (cand.token_ids.length - 1) 0) :
    update_matching_sequence s cand = .ok ⟨s, 0, 0, false⟩ := by
  have hrem : remove_extra_tokens s cand.token_ids = .ok (s, 0, false) := by
    unfold remove_extra_tokens
    by_cases h0 : cand.token_ids.length = 0
    · simp only [hl, h0, Nat.min_self, ne_eq, not_true_eq_false, if_false]
    · have hmin : min s.generated_ids.length cand.token_ids.length
          = (cand.token_ids.length - 1) + 1 := by
        rw [hl, Nat.min_self]; omega
      have hscan := scan_token_idx_of_agree s.generated_ids cand.token_ids
        (cand.token_ids.length - 1) (hag (by omega))
      have hadd : size_add (cand.token_ids.length - 1) 1 = cand.token_ids.length := by
        rw [size_add_eq_add _ _ (by omega)]; omega
      have hsub : size_sub s.generated_ids.length cand.token_ids.length = 0 := by
        rw [hl, size_sub_eq_sub _ _ hclen (Nat.le_refl _)]; omega
      simp only [hmin, ne_eq, Nat.succ_ne_zero, not_false_eq_true, if_true, hscan, hadd, hsub,
        gt_iff_lt, Nat.lt_irrefl, if_false, Nat.add_one_ne_zero]
  have hins : insert_candidate_tokens s cand = .ok (s, 0) := by
    unfold insert_candidate_tokens
    simp only [hl, ge_iff_le, Nat.le_refl, if_true, Nat.min_self, Nat.max_self, Nat.sub_self]
    rfl
  unfold update_matching_sequence
  rw [hrem]
  simp only
  rw [hins]

theorem pulled_is_paused (q : RequestQueues SequenceGroup) :
    ∀ r ∈ pulled q, r.is_paused = false := by
  intro r hr
  unfold pulled _pull_awaiting_requests at hr
  simp only [List.mem_map] at hr
  obtain ⟨r0, _, h⟩ := hr
  rw [← h]
  rfl

theorem finish_update_frame (r : SequenceGroup) (b : Bool) (n : Nat) :
    (finish_update r b n).request_id = r.request_id ∧
    (finish_update r b n).is_paused = r.is_paused := by
  unfold finish_update
  split
  · exact ⟨rfl, rfl⟩
  · split <;> exact ⟨rfl, rfl⟩

theorem map_pause_generation_id (l : List SequenceGroup) (h : ∀ r ∈ l, r.is_paused = false) :
    l.map (fun r => SequenceGroup.pause_generation r false) = l := by
  induction l with
  | nil => rfl
  | cons a as ih =>
    have ha := h a (List.mem_cons_self _ _)
    rw [List.map_cons, ih (fun r hr => h r (List.mem_cons_of_mem _ hr))]
    congr 1
    cases a with
    | mk request_id prompt_len sequences num_processed_tokens is_paused =>
      have ha' : is_paused = false := ha
      subst ha'
      rfl

/-- C25: `update_generated_sequence` is idempotent in the candidate.  When a
first call with a candidate for the first sequence of its request returns,
a second call with the same candidate returns `(inserted = 0, removed = 0)`
and leaves the pipeline's requests exactly as the first call left them: the
generated ids of the sequence and the `num_processed_tokens` of the request
are unchanged.  Stated for lists whose lengths are `size_t` values. -/
theorem update_generated_sequence_idempotent (q : RequestQueues SequenceGroup)
    (cand : GeneratedSequence) (pre : List SequenceGroup) (req : SequenceGroup)
    (post : List SequenceGroup) (seq : Sequence) (rest : List Sequence)
    (q1 : RequestQueues SequenceGroup) (res : UpdateSeqResult)
    (hq : pulled q = pre ++ req :: post)
    (hpre : ∀ r ∈ pre, r.request_id ≠ cand.request_id)
    (hreq : req.request_id = cand.request_id)
    (hseq : req.sequences = seq :: rest) (hid : seq.grouped_id = cand.sequence_id)
    (hlen : seq.generated_ids.length < 2 ^ 64)
    (hclen : cand.token_ids.length < 2 ^ 64)
    (h : update_generated_sequence q cand = .ok (q1, res)) :
    update_generated_sequence q1 cand = .ok (q1, ⟨0, 0⟩) := by
  rw [update_generated_sequence_resolved q cand pre req post seq rest hq hpre hreq hseq hid] at h
  cases hu : update_matching_sequence seq cand with
  | error e => rw [hu] at h; cases h
  | ok u =>
    rw [hu] at h
    simp only at h
    injection h with h
    injection h with h1 h2
    subst h1
    obtain ⟨hgid, hl, hag⟩ := update_matching_sequence_result seq cand u hlen hu
    have hpaused := pulled_is_paused q
    rw [hq] at hpaused
    obtain ⟨hfid, hfp⟩ := finish_update_frame { req with sequences := u.sequence :: rest }
      u.is_empty_generated_tokens u.to_remove_tokens
    have hfs := finish_update_sequences { req with sequences := u.sequence :: rest }
      u.is_empty_generated_tokens u.to_remove_tokens
    generalize hr' : finish_update { req with sequences := u.sequence :: rest }
      u.is_empty_generated_tokens u.to_remove_tokens = req' at hfid hfp hfs
    have hq1 : pulled ⟨pre ++ req' :: post, []⟩ = pre ++ req' :: post := by
      unfold pulled _pull_awaiting_requests
      simp only [List.append_nil]
      apply map_pause_generation_id
      intro r hr
      rcases List.mem_append.1 hr with hr1 | hr1
      · exact hpaused r (List.mem_append_left _ hr1)
      · rcases List.mem_cons.1 hr1 with hr2 | hr2
        · rw [hr2, hfp]
          exact hpaused req (List.mem_append_right _ (List.mem_cons_self _ _))
        · exact hpaused r (List.mem_append_right _ (List.mem_cons_of_mem _ hr2))
    rw [update_generated_sequence_resolved ⟨pre ++ req' :: post, []⟩ cand pre req' post
      u.sequence rest hq1 hpre (by rw [hfid]; exact hreq) hfs (by rw [hgid]; exact hid),
      update_matching_sequence_again u.sequence cand hclen hl hag]
    simp only
    have hsame : ({ req' with sequences := u.sequence :: rest } : SequenceGroup) = req' := by
      cases req'
      simp only at hfs
      rw [hfs]
    rw [hsame]
    rfl

/-- C25, witness: present `[1, 2, 3]`, candidate `[1, 2, 7, 8]`; the first
call removes 1 token and inserts 2, the second changes nothing. -/
theorem update_generated_sequence_idempotent_witness :
    update_generated_sequence ⟨[⟨7, 4, [⟨0, [1, 2, 7, 8], [0, 0, 0, 0]⟩], 9, false⟩], []⟩
        (sample_candidate [1, 2, 7, 8]) =
      .ok (⟨[⟨7, 4, [⟨0, [1, 2, 7, 8], [0, 0, 0, 0]⟩], 9, false⟩], []⟩, ⟨0, 0⟩) :=
  update_generated_sequence_idempotent (sample_queue [1, 2, 3]) (sample_candidate [1, 2, 7, 8])
    [] (sample_request [1, 2, 3]) [] ⟨0, [1, 2, 3], [0, 0, 0]⟩ []
    ⟨[⟨7, 4, [⟨0, [1, 2, 7, 8], [0, 0, 0, 0]⟩], 9, false⟩], []⟩ ⟨2, 1⟩
    rfl (fun _ h => absurd h (List.not_mem_nil _)) rfl rfl rfl (by decide) (by decide) rfl

theorem tokens_in_last_block_spec (processed block_size : Nat) (hp : 1 ≤ processed)
    (hbs : 1 ≤ block_size) :
    1 ≤ tokens_in_last_block processed block_size ∧
    tokens_in_last_block processed block_size ≤ block_size ∧
    1 ≤ (processed + block_size - 1) / block_size ∧
    processed = ((processed + block_size - 1) / block_size - 1) * block_size
      + tokens_in_last_block processed block_size := by
  have hdm := Nat.div_add_mod processed block_size
  have hmod := Nat.mod_lt processed hbs
  unfold tokens_in_last_block
  by_cases h0 : processed % block_size = 0
  · rw [if_pos h0]
    rw [h0, Nat.add_zero] at hdm
    have hd : 1 ≤ processed / block_size := by
      by_contra hlt
      have : processed / block_size = 0 := Nat.eq_zero_of_not_pos hlt
      rw [this, Nat.mul_zero] at hdm
      omega
    have hc : (processed + block_size - 1) / block_size = processed / block_size := by
      have e : processed + block_size - 1
          = (block_size - 1) + block_size * (processed / block_size) := by
        generalize block_size * (processed / block_size) = m at hdm
        omega
      rw [e, Nat.add_mul_div_left _ _ hbs, Nat.div_eq_of_lt (by omega), Nat.zero_add]
    rw [hc]
    refine ⟨hbs, Nat.le_refl _, hd, ?_⟩
    have : (processed / block_size - 1) * block_size + block_size
        = (processed / block_size) * block_size := by
      have h1 : processed / block_size = (processed / block_size - 1) + 1 := by omega
      rw [h1, Nat.add_mul, Nat.one_mul]
      simp
    rw [this, Nat.mul_comm]
    exact hdm.symm
  · rw [if_neg h0]
    have hc : (processed + block_size - 1) / block_size = processed / block_size + 1 := by
      have e : processed + block_size - 1
          = (processed % block_size - 1) + block_size * (processed / block_size + 1) := by
        rw [Nat.mul_add, Nat.mul_one]
        generalize block_size * (processed / block_size) = m at hdm
        omega
      rw [e, Nat.add_mul_div_left _ _ hbs, Nat.div_eq_of_lt (by omega), Nat.zero_add]
    rw [hc]
    refine ⟨by omega, by omega, Nat.le_add_left 1 _, ?_⟩
    rw [Nat.add_sub_cancel, Nat.mul_comm]
    exact hdm.symm

/-- C26: for `processed >= 1`, `block_size >= 1` and
`1 <= released <= ceil(processed / block_size)` the preempted token count
computed in the partial branch of `_preempt_by_recompute` is at most
`processed`, and `processed - preempted` is
`(ceil(processed / block_size) - released) * block_size`, a multiple of
`block_size`.  Stated for machine values: `processed` is a `size_t` and
`released` survives the conversion `(int)released`. -/
theorem partial_preempted_tokens_le (processed block_size released : Nat)
    (hp : 1 ≤ processed) (hbs : 1 ≤ block_size) (h1 : 1 ≤ released)
    (hr : released ≤ (processed + block_size - 1) / block_size)
    (hint : released < 2 ^ 31) (hsize : processed < 2 ^ 64) :
    partial_preempted_tokens processed block_size released ≤ processed ∧
    processed - partial_preempted_tokens processed block_size released
      = ((processed + block_size - 1) / block_size - released) * block_size ∧
    block_size ∣ processed - partial_preempted_tokens processed block_size released := by
  obtain ⟨ht1, ht2, hc1, hsplit⟩ := tokens_in_last_block_spec processed block_size hp hbs
  generalize (processed + block_size - 1) / block_size = c at hr hc1 hsplit
  generalize htil : tokens_in_last_block processed block_size = til at ht1 ht2 hsplit
  have hmul : (released - 1) * block_size + (c - released) * block_size
      = (c - 1) * block_size := by
    rw [← Nat.add_mul]
    congr 1
    omega
  have hamount : partial_preempted_tokens processed block_size released
      = til + (released - 1) * block_size := by
    rw [← htil]
    apply partial_preempted_tokens_eq _ _ _ h1 hint
    rw [htil]
    omega
  rw [hamount]
  have hsub : processed - (til + (released - 1) * block_size)
      = (c - released) * block_size := by omega
  exact ⟨by omega, hsub, by rw [hsub]; exact Nat.dvd_mul_left _ _⟩

/-- C26, witness: 11 processed tokens in blocks of 4 and 2 released blocks:
7 tokens are preempted and 4 = (3 - 2) * 4 remain. -/
theorem partial_preempted_tokens_le_witness :
    partial_preempted_tokens 11 4 2 ≤ 11 ∧
    11 - partial_preempted_tokens 11 4 2 = ((11 + 4 - 1) / 4 - 2) * 4 ∧
    4 ∣ 11 - partial_preempted_tokens 11 4 2 :=
  partial_preempted_tokens_le 11 4 2 (by decide) (by decide) (by decide) (by decide)
    (by decide) (by decide)

/-- C27: in the partial branch of `_preempt_by_recompute`, for
`released = 0` the term `std::max<size_t>((int)released - 1, 0)` is not
clamped at 0: `-1` is converted to `size_t` before the maximum is taken, so
the term is `2^64 - 1`.  The preempted token count is then 0 when
`processed` is a multiple of `block_size`, and
`2^64 - block_size + processed mod block_size` otherwise; it differs from
`tokens_in_last_block` in both cases and exceeds `processed` in the second
one whenever `processed + block_size <= 2^64`. -/
theorem partial_preempted_tokens_zero_released (processed block_size : Nat)
    (hbs : 1 ≤ block_size) (hsize : block_size < 2 ^ 64) :
    max (to_size_t (to_int 0 - 1)) 0 = 2 ^ 64 - 1 ∧
    partial_preempted_tokens processed block_size 0 =
      (if processed % block_size = 0 then 0
       else 2 ^ 64 - block_size + processed % block_size) ∧
    partial_preempted_tokens processed block_size 0
      ≠ tokens_in_last_block processed block_size ∧
    (processed % block_size ≠ 0 → processed + block_size ≤ 2 ^ 64 →
      processed < partial_preempted_tokens processed block_size 0) := by
  have hcast : to_size_t (to_int 0 - 1) = 2 ^ 64 - 1 := by decide
  have hmod := Nat.mod_lt processed hbs
  have hmodle := Nat.mod_le processed block_size
  have hmul : size_mul (2 ^ 64 - 1) block_size = 2 ^ 64 - block_size := by
    unfold size_mul
    have e : (2 ^ 64 - 1) * block_size = (2 ^ 64 - block_size) + 2 ^ 64 * (block_size - 1) := by
      have h2 : (2 ^ 64 - 1) * block_size = 2 ^ 64 * block_size - block_size := by
        rw [Nat.sub_mul, Nat.one_mul]
      have h3 : 2 ^ 64 * block_size = 2 ^ 64 * (block_size - 1) + 2 ^ 64 := by
        have : block_size = (block_size - 1) + 1 := by omega
        conv_lhs => rw [this]
        rw [Nat.mul_add, Nat.mul_one]
      omega
    rw [e, Nat.add_mul_mod_self_left]
    exact Nat.mod_eq_of_lt (by omega)
  have hval : partial_preempted_tokens processed block_size 0 =
      (if processed % block_size = 0 then 0
       else 2 ^ 64 - block_size + processed % block_size) := by
    unfold partial_preempted_tokens tokens_in_last_block
    rw [hcast, Nat.max_eq_left (Nat.zero_le _), hmul]
    unfold size_add
    by_cases h0 : processed % block_size = 0
    · rw [if_pos h0, if_pos h0]
      have : block_size + (2 ^ 64 - block_size) = 2 ^ 64 := by omega
      rw [this, Nat.mod_self]
    · rw [if_neg h0, if_neg h0, Nat.add_comm]
      exact Nat.mod_eq_of_lt (by omega)
  refine ⟨by rw [hcast]; decide, hval, ?_, fun h0 hfit => ?_⟩
  · rw [hval]
    unfold tokens_in_last_block
    by_cases h0 : processed % block_size = 0
    · rw [if_pos h0, if_pos h0]
      omega
    · rw [if_neg h0, if_neg h0]
      omega
  · rw [hval, if_neg h0]
    omega

/-- C27, failing input: 5 processed tokens, blocks of 4 tokens and no
released block: the preempted token count is `2^64 - 3`, not 1. -/
theorem partial_preempted_tokens_zero_released_witness :
    partial_preempted_tokens 5 4 0 = 2 ^ 64 - 4 + 5 % 4 ∧
    tokens_in_last_block 5 4 = 1 ∧
    5 < partial_preempted_tokens 5 4 0 :=
  ⟨by
    have h := (partial_preempted_tokens_zero_released 5 4 (by decide) (by decide)).2.1
    rw [if_neg (by decide)] at h
    exact h,
   by decide,
   (partial_preempted_tokens_zero_released 5 4 (by decide) (by decide)).2.2.2 (by decide)
    (by decide)⟩

section PreemptionTermination

variable {G B : Type} (gops : SequenceGroupOps G) (bops : BlockManagerOps B G)

theorem free_sequences_inv (inv : B → Prop)
    (hfree : ∀ b s, inv b → inv (bops.free_sequence b s)) :
    ∀ (seq_ids : List Nat) (bm : B), inv bm →
      inv (free_sequences bops bm seq_ids) ∧ inv (free_sequences_with_table bops bm seq_ids) := by
  intro seq_ids
  induction seq_ids with
  | nil => intro bm h; exact ⟨h, h⟩
  | cons s rest ih =>
    intro bm h
    constructor
    · exact (ih (bops.free_sequence bm s) (hfree bm s h)).1
    · show inv (free_sequences_with_table bops
        (if bops.has_block_table bm s then bops.free_sequence bm s else bm) rest)
      split
      · exact (ih _ (hfree bm s h)).2
      · exact (ih _ h).2

theorem _preempt_by_recompute_inv (inv : B → Prop)
    (hfree : ∀ b s, inv b → inv (bops.free_sequence b s))
    (hpart : ∀ b g n, inv b → inv (bops.free_group_partially b g n).1)
    (hbeam : ∀ b g n, inv b → inv (bops.free_partially_beam_search_group b g n).1)
    (self : Scheduler B) (groups : List G) (victim needed : Nat)
    (self' : Scheduler B) (groups' : List G) (freed : Bool)
    (hinv : inv self.m_block_manager)
    (h : _preempt_by_recompute gops bops self groups victim needed
      = .ok (self', groups', freed)) :
    inv self'.m_block_manager ∧ self'.m_config = self.m_config ∧
    (freed = true →
      bops.num_free_blocks self.m_block_manager
        < bops.num_free_blocks self'.m_block_manager) := by
  cases hg : groups[victim]? with
  | none =>
    unfold _preempt_by_recompute at h
    rw [hg] at h
    cases h
  | some g =>
    cases hb : full_recompute gops bops self g needed with
    | true =>
      rw [_preempt_by_recompute_full_eq gops bops self groups victim needed g hg hb] at h
      injection h with h
      injection h with h1 h2
      injection h2 with h2 h3
      subst h1
      subst h3
      exact ⟨(free_sequences_inv bops inv hfree _ _ hinv).1, rfl, by simp⟩
    | false =>
      by_cases hbs : self.m_config.block_size = 0
      · unfold full_recompute at hb
        unfold _preempt_by_recompute at h
        simp only [hg] at h
        rw [if_neg (by rw [hb]; decide), if_pos hbs] at h
        cases h
      · rw [_preempt_by_recompute_partial_eq gops bops self groups victim needed g hg hb hbs]
          at h
        injection h with h
        injection h with h1 h2
        injection h2 with h2 h3
        subst h1
        subst h3
        have hpf : inv (partial_free gops bops self.m_block_manager g needed).1 := by
          unfold partial_free
          split
          · exact hbeam _ _ _ hinv
          · exact hpart _ _ _ hinv
        refine ⟨?_, rfl, by simp⟩
        show inv (partial_block_manager gops bops self g needed)
        unfold partial_block_manager
        split
        · exact (free_sequences_inv bops inv hfree _ _ hpf).2
        · exact hpf

theorem _preempt_by_recompute_fuel (self : Scheduler B) (groups : List G)
    (victim needed : Nat) :
    _preempt_by_recompute gops bops self groups victim needed ≠ .error .out_of_fuel := by
  intro h
  unfold _preempt_by_recompute at h
  cases hg : groups[victim]? with
  | none => rw [hg] at h; cases h
  | some g =>
    rw [hg] at h
    simp only at h
    split at h
    · cases h
    · split at h
      · cases h
      · cases h

theorem _apply_preemption_fuel (inv : B → Prop) (n : Nat)
    (hfree : ∀ b s, inv b → inv (bops.free_sequence b s))
    (hpart : ∀ b g k, inv b → inv (bops.free_group_partially b g k).1)
    (hbeam : ∀ b g k, inv b → inv (bops.free_partially_beam_search_group b g k).1)
    (hbound : ∀ b, inv b → bops.num_free_blocks b ≤ n) (id : Nat) :
    ∀ (fuel : Nat) (self : Scheduler B) (groups : List G), inv self.m_block_manager →
      n + 1 ≤ fuel + bops.num_free_blocks self.m_block_manager →
      _apply_preemption gops bops id fuel self groups ≠ .error .out_of_fuel := by
  intro fuel
  induction fuel with
  | zero =>
    intro self groups hinv hfuel
    have := hbound _ hinv
    omega
  | succ fuel ih =>
    intro self groups hinv hfuel h
    unfold _apply_preemption at h
    cases hg : groups[id]? with
    | none => rw [hg] at h; cases h
    | some g =>
      rw [hg] at h
      simp only at h
      split at h
      · split at h
        · cases h
        · cases hp : _preempt_by_recompute gops bops self groups
              (_get_low_priority_sequence_group_id gops groups)
              (bops.required_blocks_count self.m_block_manager g) with
          | error e =>
            rw [hp] at h
            simp only at h
            injection h with h
            subst h
            exact _preempt_by_recompute_fuel gops bops _ _ _ _ hp
          | ok v =>
            obtain ⟨s1, g1, f1⟩ := v
            rw [hp] at h
            simp only at h
            obtain ⟨hinv1, _, hgrow⟩ := _preempt_by_recompute_inv gops bops inv hfree hpart
              hbeam _ _ _ _ _ _ _ hinv hp
            split at h
            · cases h
            · rename_i hf
              have hf1 : f1 = true := by
                cases f1
                · exact absurd rfl hf
                · rfl
              have := hgrow hf1
              exact ih s1 g1 hinv1 (by omega) h
      · cases h

/-- C29: the loop of `_apply_preemption` ends after at most
`num_kv_blocks + 1` runs of its body.  An iteration that goes on to the next
one has seen `_preempt_by_recompute` return true, that is the number of free
blocks strictly larger than before; so for a block manager whose number of
free blocks never exceeds `num_kv_blocks` (a property `inv` kept by the three
freeing operations), `num_kv_blocks + 1` body runs, or any larger bound, are
enough for the embedded loop to end. -/
theorem _apply_preemption_terminates (inv : B → Prop)
    (id fuel : Nat) (self : Scheduler B) (groups : List G)
    (hfree : ∀ b s, inv b → inv (bops.free_sequence b s))
    (hpart : ∀ b g k, inv b → inv (bops.free_group_partially b g k).1)
    (hbeam : ∀ b g k, inv b → inv (bops.free_partially_beam_search_group b g k).1)
    (hbound : ∀ b, inv b → bops.num_free_blocks b ≤ self.m_config.num_kv_blocks)
    (hinv : inv self.m_block_manager)
    (hfuel : self.m_config.num_kv_blocks + 1 ≤ fuel) :
    _apply_preemption gops bops id fuel self groups ≠ .error .out_of_fuel :=
  _apply_preemption_fuel gops bops inv self.m_config.num_kv_blocks hfree hpart hbeam hbound id
    fuel self groups hinv (by omega)

end PreemptionTermination

/-- C29, witness: a block manager with at most 8 blocks, the
`num_kv_blocks` of the sample configuration; 9 body runs are enough. -/
theorem _apply_preemption_terminates_witness :
    _apply_preemption sample_gops shared_bops 0 9 sample_sharing_scheduler sample_sharing
      ≠ .error .out_of_fuel :=
  _apply_preemption_terminates sample_gops shared_bops (fun b => b.num_blocks ≤ 8) 0 9
    sample_sharing_scheduler sample_sharing (fun _ _ h => h) (fun _ _ _ h => h)
    (fun _ _ _ h => h)
    (fun b h => le_trans (le_trans (List.length_filter_le _ _)
      (le_of_eq (List.length_range _))) h)
    (by decide) (by decide)

section GenerateResults

variable {G B W : Type} (gops : SequenceGroupOps G) (bops : BlockManagerOps B G)
  (pops : PipelineOps G W) (rops : RequestOps G B)

theorem add_requests_reaped (input_ids : List Tensor)
    (sampling_params : List rops.SamplingParams) :
    ∀ (n request_id : Nat) (p : ContinuousBatchingImpl G B W),
      (add_requests rops input_ids sampling_params n request_id p).1.reaped = p.reaped := by
  intro n
  induction n with
  | zero => intro request_id p; rfl
  | succ n ih =>
    intro request_id p
    unfold add_requests
    cases hi : input_ids[request_id]? with
    | none => rfl
    | some tensor =>
      cases hs : sampling_params[request_id]? with
      | none => rfl
      | some params =>
        simp only
        cases hb : tensor.shape[0]? with
        | none => rfl
        | some batch =>
          simp only
          split
          · rfl
          · cases ha : add_request rops p request_id tensor params with
            | error e => rfl
            | ok p1 =>
              simp only
              rw [ih]
              unfold add_request at ha
              simp only at ha
              split at ha
              · cases ha
              · injection ha with ha
                rw [← ha]

theorem generation_results_spec (p : ContinuousBatchingImpl G B W) (first_reaped : Nat)
    (sampling_params : List rops.SamplingParams) :
    ∀ (l : List Nat) (rs : List (EncodedGenerationResult rops.Status)),
      generation_results gops rops p first_reaped sampling_params l = .ok rs →
      rs.length = l.length ∧
      ∀ (k : Nat) r, rs[k]? = some r → ∃ idx, l[k]? = some idx ∧
        generation_result gops rops p first_reaped sampling_params idx = .ok r := by
  intro l
  induction l with
  | nil =>
    intro rs h
    unfold generation_results at h
    injection h with h
    subst h
    exact ⟨rfl, fun k r hk => by simp at hk⟩
  | cons idx rest ih =>
    intro rs h
    unfold generation_results at h
    cases h1 : generation_result gops rops p first_reaped sampling_params idx with
    | error e => rw [h1] at h; cases h
    | ok result =>
      rw [h1] at h
      simp only at h
      cases h2 : generation_results gops rops p first_reaped sampling_params rest with
      | error e => rw [h2] at h; cases h
      | ok results =>
        rw [h2] at h
        simp only at h
        injection h with h
        subst h
        obtain ⟨hl, hk⟩ := ih results h2
        refine ⟨by simp [hl], fun k r hr => ?_⟩
        cases k with
        | zero =>
          simp only [List.getElem?_cons_zero] at hr
          injection hr with hr
          subst hr
          exact ⟨idx, List.getElem?_cons_zero, h1⟩
        | succ k =>
          simp only [List.getElem?_cons_succ] at hr ⊢
          exact hk k r hr

theorem generation_result_spec (p : ContinuousBatchingImpl G B W) (first_reaped : Nat)
    (sampling_params : List rops.SamplingParams) (idx : Nat)
    (r : EncodedGenerationResult rops.Status)
    (h : generation_result gops rops p first_reaped sampling_params idx = .ok r) :
    r.m_request_id = 1 ∧
    ∃ (generation : G) (params : rops.SamplingParams) (outputs : List GenerationOutput),
      handle_group gops p first_reaped idx = some generation ∧
      sampling_params[idx]? = some params ∧
      outputs.Perm (rops.read_all generation) ∧
      outputs.Pairwise (fun a b => a.score ≥ b.score) ∧
      r.m_generation_ids =
        (outputs.take (min (rops.num_return_sequences params) outputs.length)).map
          (fun o => o.generated_ids) ∧
      r.m_scores =
        (outputs.take (min (rops.num_return_sequences params) outputs.length)).map
          (fun o => o.score) ∧
      r.m_status = rops.get_status generation := by
  unfold generation_result at h
  cases hh : handle_group gops p first_reaped idx with
  | none => simp only [hh] at h; cases h
  | some generation =>
    cases hs : sampling_params[idx]? with
    | none => simp only [hh, hs] at h; cases h
    | some params =>
      simp only [hh, hs] at h
      injection h with h
      subst h
      refine ⟨rfl, generation, params, _, rfl, rfl, List.mergeSort_perm _ _, ?_, rfl, rfl, rfl⟩
      have hsorted := @List.sorted_mergeSort GenerationOutput
        (fun (r1 r2 : GenerationOutput) => decide (r1.score ≥ r2.score))
        (fun a b c hab hbc => by
          simp only [ge_iff_le, decide_eq_true_eq] at hab hbc ⊢
          exact le_trans hbc hab)
        (fun a b => by
          simp only [ge_iff_le, Bool.or_eq_true, decide_eq_true_eq]
          exact le_total _ _)
        (rops.read_all generation)
      exact hsorted.imp (fun hab => by simpa using hab)

/-- C30: when `ContinuousBatchingImpl::generate` returns, it returns one
result per input tensor, in input order: the `i`-th result is read from the
handle of the request added under id `i`, its generations are the outputs
read from that handle in order of non-increasing score, cut to
`min(num_return_sequences, outputs read)`, and its status is the status of
the handle.  Every result, however, carries `m_request_id = 1`, whatever
`i` is: line 280 assigns the constant 1. -/
theorem generate_results (sched_fuel step_fuel fuel : Nat)
    (p p' : ContinuousBatchingImpl G B W)
    (input_ids : List Tensor) (sampling_params : List rops.SamplingParams)
    (streamer streamer' : Option rops.Streamer)
    (results : List (EncodedGenerationResult rops.Status))
    (h : generate gops bops pops rops sched_fuel step_fuel fuel p input_ids sampling_params
      streamer = .returned p' streamer' results) :
    results.length = input_ids.length ∧
    ∀ (i : Nat) r, results[i]? = some r →
      r.m_request_id = 1 ∧
      ∃ (generation : G) (params : rops.SamplingParams) (outputs : List GenerationOutput),
        handle_group gops p' p.reaped.length i = some generation ∧
        sampling_params[i]? = some params ∧
        outputs.Perm (rops.read_all generation) ∧
        outputs.Pairwise (fun a b => a.score ≥ b.score) ∧
        r.m_generation_ids =
          (outputs.take (min (rops.num_return_sequences params) outputs.length)).map
            (fun o => o.generated_ids) ∧
        r.m_scores =
          (outputs.take (min (rops.num_return_sequences params) outputs.length)).map
            (fun o => o.score) ∧
        r.m_status = rops.get_status generation := by
  unfold generate at h
  split at h
  · cases h
  · split at h
    · cases h
    · have hreaped := add_requests_reaped rops input_ids sampling_params input_ids.length 0 p
      generalize add_requests rops input_ids sampling_params input_ids.length 0 p = added
        at h hreaped
      obtain ⟨p1, err⟩ := added
      cases err with
      | some e => simp only at h; cases h
      | none =>
        simp only at h hreaped
        cases hl : generate_loop gops bops pops rops sched_fuel step_fuel p1.reaped.length
            fuel p1 streamer with
        | error e => rw [hl] at h; cases h
        | ok v =>
          obtain ⟨p2, s2⟩ := v
          rw [hl] at h
          simp only at h
          cases hr : generation_results gops rops p2 p1.reaped.length sampling_params
              (List.range input_ids.length) with
          | error e => rw [hr] at h; cases h
          | ok rs =>
            rw [hr] at h
            simp only at h
            split at h
            · cases h
            · rename_i hlen
              injection h with h1 h2 h3
              subst h1
              subst h3
              obtain ⟨hl2, hk⟩ := generation_results_spec gops rops _ _ _ _ _ hr
              refine ⟨by simpa using hlen, fun i r hi => ?_⟩
              obtain ⟨idx, hidx, hres⟩ := hk i r hi
              have hi2 : idx = i := by
                have hlt : i < (List.range input_ids.length).length := by
                  by_contra hge
                  have : (List.range input_ids.length)[i]? = none :=
                    List.getElem?_eq_none (by omega)
                  rw [this] at hidx; cases hidx
                rw [List.getElem?_eq_getElem hlt, List.getElem_range] at hidx
                injection hidx with hidx
                exact hidx.symm
              subst hi2
              rw [← hreaped]
              exact generation_result_spec gops rops _ _ _ _ r hres

end GenerateResults

theorem step_sample_admitted :
    step sample_gops sample_bops finishing_pops 4 4 sample_admitted_pipeline
      = .ok sample_finished_pipeline := by
  rfl

theorem generate_loop_sample :
    generate_loop sample_gops sample_bops finishing_pops scored_rops 4 4
      sample_admitted_pipeline.reaped.length 4 sample_admitted_pipeline none
      = .ok (sample_finished_pipeline, none) := by
  unfold generate_loop
  rw [if_pos (by rfl)]
  simp only [step_sample_admitted]
  unfold generate_loop
  rw [if_neg (by decide)]

theorem generation_results_sample :
    generation_results sample_gops scored_rops sample_finished_pipeline
      sample_admitted_pipeline.reaped.length [(1 : Nat)] (List.range 1)
      = .ok [⟨1, [[20]], [2], true⟩] := by
  simp [generation_results, generation_result, handle_group, sample_finished_pipeline,
    sample_admitted_pipeline, sample_idle_pipeline, List.range, List.range.loop, scored_rops,
    sample_gops, List.mergeSort, List.merge]

theorem generate_sample_run :
    generate sample_gops sample_bops finishing_pops scored_rops 4 4 4 sample_idle_pipeline
        [⟨[1, 3], [5, 6, 7]⟩] [(1 : Nat)] none =
      .returned sample_finished_pipeline none [⟨1, [[20]], [2], true⟩] := by
  have hadd : add_requests scored_rops [⟨[1, 3], [5, 6, 7]⟩] [(1 : Nat)]
      [(⟨[1, 3], [5, 6, 7]⟩ : Tensor)].length 0 sample_idle_pipeline
      = (sample_admitted_pipeline, none) := by rfl
  unfold generate
  rw [if_neg (by decide), if_neg (by decide), hadd]
  simp only [generate_loop_sample, List.length_singleton, generation_results_sample]
  rfl

/-- C30, failing input: `generate` with one input tensor and one returned
sequence asked for.  The request is added under id 0 and the only result
carries `m_request_id = 1`; it holds the output of the higher score. -/
theorem generate_results_witness :
    generate sample_gops sample_bops finishing_pops scored_rops 4 4 4 sample_idle_pipeline
        [⟨[1, 3], [5, 6, 7]⟩] [(1 : Nat)] none =
      .returned sample_finished_pipeline none [⟨1, [[20]], [2], true⟩] ∧
    [(⟨1, [[20]], [2], true⟩ : EncodedGenerationResult Bool)].length
      = [(⟨[1, 3], [5, 6, 7]⟩ : Tensor)].length ∧
    ∀ (i : Nat) (r : EncodedGenerationResult Bool),
      [(⟨1, [[20]], [2], true⟩ : EncodedGenerationResult Bool)][i]? = some r →
      r.m_request_id = 1 :=
  ⟨generate_sample_run,
    (generate_results sample_gops sample_bops finishing_pops scored_rops 4 4 4
      sample_idle_pipeline sample_finished_pipeline [⟨[1, 3], [5, 6, 7]⟩] [(1 : Nat)] none none
      [⟨1, [[20]], [2], true⟩] generate_sample_run).1,
    fun i r hi => ((generate_results sample_gops sample_bops finishing_pops scored_rops 4 4 4
      sample_idle_pipeline sample_finished_pipeline [⟨[1, 3], [5, 6, 7]⟩] [(1 : Nat)] none none
      [⟨1, [[20]], [2], true⟩] generate_sample_run).2 i r hi).1⟩

section PreemptedNotScheduled

variable {G B : Type} (gops : SequenceGroupOps G) (bops : BlockManagerOps B G)

theorem _preempt_by_recompute_waiting
    (hset : ∀ x, gops.is_waiting (gops.set_waiting x) = true)
    (self : Scheduler B) (groups : List G) (victim needed : Nat)
    (self' : Scheduler B) (groups' : List G) (freed : Bool)
    (h : _preempt_by_recompute gops bops self groups victim needed
      = .ok (self', groups', freed)) :
    victim < groups.length ∧
    ∃ g', groups' = groups.set victim g' ∧ gops.is_waiting g' = true := by
  cases hg : groups[victim]? with
  | none =>
    unfold _preempt_by_recompute at h
    rw [hg] at h
    cases h
  | some g =>
    have hlt : victim < groups.length := by
      by_contra hge
      have : groups[victim]? = none := List.getElem?_eq_none (by omega)
      rw [this] at hg; cases hg
    refine ⟨hlt, ?_⟩
    cases hb : full_recompute gops bops self g needed with
    | true =>
      rw [_preempt_by_recompute_full_eq gops bops self groups victim needed g hg hb] at h
      injection h with h
      injection h with h1 h2
      injection h2 with h2 h3
      exact ⟨_, h2.symm, hset _⟩
    | false =>
      by_cases hbs : self.m_config.block_size = 0
      · unfold full_recompute at hb
        unfold _preempt_by_recompute at h
        simp only [hg] at h
        rw [if_neg (by rw [hb]; decide), if_pos hbs] at h
        cases h
      · rw [_preempt_by_recompute_partial_eq gops bops self groups victim needed g hg hb hbs]
          at h
        injection h with h
        injection h with h1 h2
        injection h2 with h2 h3
        exact ⟨_, h2.symm, hset _⟩

theorem _apply_preemption_changes
    (hset : ∀ x, gops.is_waiting (gops.set_waiting x) = true) (id : Nat) :
    ∀ (fuel : Nat) (self : Scheduler B) (groups : List G) (self' : Scheduler B)
      (groups' : List G),
      _apply_preemption gops bops id fuel self groups = .ok (self', groups') →
      ∀ k, groups'[k]? = groups[k]? ∨
        (id < k ∧ ∃ g', groups'[k]? = some g' ∧ gops.is_waiting g' = true) := by
  intro fuel
  induction fuel with
  | zero =>
    intro self groups self' groups' h k
    unfold _apply_preemption at h
    cases hg : groups[id]? with
    | none => rw [hg] at h; cases h
    | some g =>
      rw [hg] at h
      simp only at h
      split at h
      · cases h
      · injection h with h
        injection h with h1 h2
        subst h2
        exact Or.inl rfl
  | succ fuel ih =>
    intro self groups self' groups' h k
    unfold _apply_preemption at h
    cases hg : groups[id]? with
    | none => rw [hg] at h; cases h
    | some g =>
      rw [hg] at h
      simp only at h
      split at h
      · split at h
        · injection h with h
          injection h with h1 h2
          subst h2
          exact Or.inl rfl
        · rename_i hgt
          cases hp : _preempt_by_recompute gops bops self groups
              (_get_low_priority_sequence_group_id gops groups)
              (bops.required_blocks_count self.m_block_manager g) with
          | error e => rw [hp] at h; cases h
          | ok v =>
            obtain ⟨s1, g1, f1⟩ := v
            rw [hp] at h
            simp only at h
            obtain ⟨hvl, gv, hgv, hwv⟩ := _preempt_by_recompute_waiting gops bops hset
              _ _ _ _ _ _ _ hp
            have hone : g1[k]? = groups[k]? ∨
                (id < k ∧ ∃ g', g1[k]? = some g' ∧ gops.is_waiting g' = true) := by
              by_cases hk : k = _get_low_priority_sequence_group_id gops groups
              · right
                refine ⟨by omega, gv, ?_, hwv⟩
                rw [hgv, hk, List.getElem?_set_self hvl]
              · left
                rw [hgv]
                exact List.getElem?_set_ne (fun e => hk e.symm)
            have hfin : groups'[k]? = g1[k]? ∨
                (id < k ∧ ∃ g', groups'[k]? = some g' ∧ gops.is_waiting g' = true) := by
              split at h
              · injection h with h
                injection h with h1 h2
                subst h2
                exact Or.inl rfl
              · exact ih s1 g1 self' groups' h k
            rcases hfin with hfin | hfin
            · rcases hone with hone | ⟨hlt, g', hg', hw'⟩
              · exact Or.inl (hfin.trans hone)
              · exact Or.inr ⟨hlt, g', hfin.trans hg', hw'⟩
            · exact Or.inr hfin
      · injection h with h
        injection h with h1 h2
        subst h2
        exact Or.inl rfl

theorem generate_phase_body_cases (fuel i : Nat) (st : SchedState G B)
    (r : LoopStep (SchedState G B)) (h : generate_phase_body gops bops fuel i st = .ok r) :
    ∃ g, st.sequence_groups[i]? = some g ∧
      (r = .next st ∨
        (gops.is_waiting g = false ∧ ∃ per self' groups',
          _apply_preemption gops bops i fuel st.self
            (st.sequence_groups.set i (gops.schedule_tokens g per)) = .ok (self', groups') ∧
          (r = .next ⟨self', groups'.set i
              (gops.clear_scheduled_tokens (gops.schedule_tokens g per)),
              st.scheduler_output⟩ ∨
            ∃ n, r = stop_when_full (schedule_generation gops bops i
              (gops.schedule_tokens g per) per n ⟨self', groups', st.scheduler_output⟩)))) := by
  have hidx : ∀ g, st.sequence_groups[i]? = some g → i < st.sequence_groups.length := by
    intro g hg
    by_contra hge
    have : st.sequence_groups[i]? = none := List.getElem?_eq_none (by omega)
    rw [this] at hg; cases hg
  unfold generate_phase_body at h
  simp only at h
  cases hg : st.sequence_groups[i]? with
  | none => rw [hg] at h; cases h
  | some g =>
    rw [hg] at h
    simp only at h
    refine ⟨g, rfl, ?_⟩
    split at h
    · rename_i hcond
      have hw : gops.is_waiting g = false := by
        simp only [Bool.and_eq_true, Bool.not_eq_true'] at hcond
        exact hcond.2
      split at h
      · cases h
      · cases hd : size_div (size_sub st.self.m_config.max_num_batched_tokens
            st.scheduler_output.m_total_num_scheduled_tokens) (gops.num_running_seqs g) with
        | error e => rw [hd] at h; cases h
        | ok floor =>
          rw [hd] at h
          simp only at h
          split at h
          · injection h with h
            exact Or.inl h.symm
          · cases ha : _apply_preemption gops bops i fuel st.self
                (st.sequence_groups.set i (gops.schedule_tokens g
                  (min floor (gops.get_num_available_tokens_for_batching g)))) with
            | error e => rw [ha] at h; cases h
            | ok v =>
              obtain ⟨self1, groups1⟩ := v
              rw [ha] at h
              simp only at h
              have hget := _apply_preemption_get gops bops i fuel _ _ _ _ ha i (Nat.le_refl i)
              rw [List.getElem?_set_self (hidx g hg)] at hget
              rw [hget] at h
              simp only at h
              right
              refine ⟨hw, _, self1, groups1, ha, ?_⟩
              split at h
              · injection h with h
                exact Or.inl h.symm
              · injection h with h
                exact Or.inr ⟨_, h.symm⟩
    · injection h with h
      exact Or.inl h.symm

theorem generate_phase_body_recorded
    (hset : ∀ x, gops.is_waiting (gops.set_waiting x) = true)
    (hsched : ∀ x n, gops.is_waiting (gops.schedule_tokens x n) = gops.is_waiting x)
    (fuel i : Nat) (st : SchedState G B) (r : LoopStep (SchedState G B))
    (hlt : ∀ j ∈ st.scheduler_output.m_scheduled_sequence_groups_ids, j < i)
    (hrec : recorded_not_waiting gops st)
    (h : generate_phase_body gops bops fuel i st = .ok r) :
    (∀ j ∈ r.state.scheduler_output.m_scheduled_sequence_groups_ids, j < i + 1) ∧
    recorded_not_waiting gops r.state ∧
    (∀ k, k ≠ i → r.state.sequence_groups[k]? = st.sequence_groups[k]? ∨
      (i < k ∧ ∃ g', r.state.sequence_groups[k]? = some g' ∧ gops.is_waiting g' = true)) := by
  obtain ⟨g, hg, hcase⟩ := generate_phase_body_cases gops bops fuel i st r h
  have hi : i < st.sequence_groups.length := by
    by_contra hge
    have : st.sequence_groups[i]? = none := List.getElem?_eq_none (by omega)
    rw [this] at hg; cases hg
  rcases hcase with hr | ⟨hw, per, self1, groups1, ha, hcase2⟩
  · subst hr
    exact ⟨fun j hj => Nat.lt_succ_of_lt (hlt j hj), hrec, fun k _ => Or.inl rfl⟩
  · have hget := _apply_preemption_get gops bops i fuel _ _ _ _ ha
    have hchg := _apply_preemption_changes gops bops hset i fuel _ _ _ _ ha
    have hlow : ∀ j, j < i → groups1[j]? = st.sequence_groups[j]? := by
      intro j hj
      rw [hget j (by omega)]
      exact List.getElem?_set_ne (by omega)
    have hat : groups1[i]? = some (gops.schedule_tokens g per) := by
      rw [hget i (Nat.le_refl i), List.getElem?_set_self hi]
    have hothers : ∀ k, k ≠ i → groups1[k]? = st.sequence_groups[k]? ∨
        (i < k ∧ ∃ g', groups1[k]? = some g' ∧ gops.is_waiting g' = true) := by
      intro k hk
      rcases hchg k with hsame | hwait
      · left
        rw [hsame]
        exact List.getElem?_set_ne (fun e => hk e.symm)
      · exact Or.inr hwait
    rcases hcase2 with hr | ⟨n, hr⟩
    · subst hr
      refine ⟨fun j hj => Nat.lt_succ_of_lt (hlt j hj), fun j hj => ?_, fun k hk => ?_⟩
      · obtain ⟨gj, hgj, hwj⟩ := hrec j hj
        have hji : j < i := hlt j hj
        refine ⟨gj, ?_, hwj⟩
        show (groups1.set i _)[j]? = some gj
        rw [List.getElem?_set_ne (by omega), hlow j hji]
        exact hgj
      · show (groups1.set i _)[k]? = _ ∨ (i < k ∧ ∃ g', (groups1.set i _)[k]? = some g' ∧ _)
        rw [List.getElem?_set_ne (fun e => hk e.symm)]
        exact hothers k hk
    · subst hr
      rw [stop_when_full_state]
      refine ⟨fun j hj => ?_, fun j hj => ?_, fun k hk => hothers k hk⟩
      · have hj' : j ∈ st.scheduler_output.m_scheduled_sequence_groups_ids ++ [i] := hj
        rcases List.mem_append.1 hj' with h1 | h1
        · exact Nat.lt_succ_of_lt (hlt j h1)
        · simp only [List.mem_singleton] at h1
          omega
      · have hj' : j ∈ st.scheduler_output.m_scheduled_sequence_groups_ids ++ [i] := hj
        show ∃ gj, groups1[j]? = some gj ∧ gops.is_waiting gj = false
        rcases List.mem_append.1 hj' with h1 | h1
        · obtain ⟨gj, hgj, hwj⟩ := hrec j h1
          exact ⟨gj, by rw [hlow j (hlt j h1)]; exact hgj, hwj⟩
        · simp only [List.mem_singleton] at h1
          subst h1
          exact ⟨_, hat, by rw [hsched]; exact hw⟩

theorem generate_phase_recorded
    (hset : ∀ x, gops.is_waiting (gops.set_waiting x) = true)
    (hsched : ∀ x n, gops.is_waiting (gops.schedule_tokens x n) = gops.is_waiting x)
    (fuel : Nat) (st st' : SchedState G B)
    (hnil : st.scheduler_output.m_scheduled_sequence_groups_ids = [])
    (h : _schedule_generate_phase_dynamic_split_fuse gops bops fuel st = .ok st') :
    recorded_not_waiting gops st' := by
  unfold _schedule_generate_phase_dynamic_split_fuse at h
  refine for_range_induction
    (fun i (s : SchedState G B) =>
      (∀ j ∈ s.scheduler_output.m_scheduled_sequence_groups_ids, j < i) ∧
      recorded_not_waiting gops s)
    (recorded_not_waiting gops) (generate_phase_body gops bops fuel) st.sequence_groups.length
    (fun i s s' _ hI hb => ?_) (fun i s s' _ hI hb => ?_) (fun s hI => hI.2)
    st.sequence_groups.length 0 st st' (by omega) ⟨?_, ?_⟩ h
  · obtain ⟨h1, h2, _⟩ := generate_phase_body_recorded gops bops hset hsched fuel i s _
      hI.1 hI.2 hb
    exact ⟨h1, h2⟩
  · exact (generate_phase_body_recorded gops bops hset hsched fuel i s _ hI.1 hI.2 hb).2.1
  · intro j hj
    rw [hnil] at hj
    cases hj
  · intro j hj
    rw [hnil] at hj
    cases hj

theorem recorded_not_waiting_push
    (hsched : ∀ x n, gops.is_waiting (gops.schedule_tokens x n) = gops.is_waiting x)
    (st st' : SchedState G B) (i n : Nat) (g : G)
    (hg : st.sequence_groups[i]? = some g) (hw : gops.is_waiting g = false)
    (hrec : recorded_not_waiting gops st)
    (hgroups : st'.sequence_groups = st.sequence_groups.set i (gops.schedule_tokens g n))
    (hids : st'.scheduler_output.m_scheduled_sequence_groups_ids
      = st.scheduler_output.m_scheduled_sequence_groups_ids ++ [i]) :
    recorded_not_waiting gops st' := by
  have hi : i < st.sequence_groups.length := by
    by_contra hge
    have : st.sequence_groups[i]? = none := List.getElem?_eq_none (by omega)
    rw [this] at hg; cases hg
  intro j hj
  rw [hids] at hj
  rw [hgroups]
  by_cases hji : j = i
  · subst hji
    exact ⟨_, List.getElem?_set_self hi, by rw [hsched]; exact hw⟩
  · rcases List.mem_append.1 hj with h1 | h1
    · obtain ⟨gj, hgj, hwj⟩ := hrec j h1
      exact ⟨gj, by rw [List.getElem?_set_ne (fun e => hji e.symm)]; exact hgj, hwj⟩
    · simp only [List.mem_singleton] at h1
      exact absurd h1 hji

theorem prompt_phase_dynamic_split_fuse_body_recorded
    (hsched : ∀ x n, gops.is_waiting (gops.schedule_tokens x n) = gops.is_waiting x)
    (i : Nat) (st : SchedState G B) (r : LoopStep (SchedState G B))
    (hrec : recorded_not_waiting gops st)
    (h : prompt_phase_dynamic_split_fuse_body gops bops i st = .ok r) :
    recorded_not_waiting gops r.state := by
  unfold prompt_phase_dynamic_split_fuse_body at h
  simp only at h
  cases hg : st.sequence_groups[i]? with
  | none => rw [hg] at h; cases h
  | some g =>
    rw [hg] at h
    simp only at h
    split at h
    · rename_i hcond
      have hw : gops.is_waiting g = false := by
        simp only [Bool.and_eq_true, Bool.not_eq_true'] at hcond
        exact hcond.2
      split at h
      · cases h
      · split at h
        · cases h
        · split at h
          · cases h
          · injection h with h
            rw [← h, stop_when_full_state]
            unfold schedule_prompt_chunk
            split
            · exact recorded_not_waiting_push gops hsched st _ i _ g hg hw hrec rfl rfl
            · exact hrec
    · injection h with h
      rw [← h]
      exact hrec

theorem prompt_phase_vllm_body_recorded
    (hsched : ∀ x n, gops.is_waiting (gops.schedule_tokens x n) = gops.is_waiting x)
    (i : Nat) (v : VllmState G B) (r : LoopStep (VllmState G B))
    (hrec : recorded_not_waiting gops v.st)
    (h : prompt_phase_vllm_body gops bops i v = .ok r) :
    recorded_not_waiting gops r.state.st := by
  obtain ⟨g, hg, hcase⟩ := prompt_phase_vllm_body_inv gops bops i v r h
  rcases hcase with ⟨_, hr⟩ | ⟨hcand, _, hcase2⟩
  · subst hr
    exact hrec
  · rcases hcase2 with ⟨_, hr⟩ | ⟨_, hr⟩
    · subst hr
      exact hrec
    · subst hr
      have hw : gops.is_waiting g = false := by
        unfold vllm_prompt_candidate at hcand
        simp only [Bool.and_eq_true, Bool.not_eq_true'] at hcand
        exact hcand.2
      exact recorded_not_waiting_push gops hsched v.st _ i _ g hg hw hrec rfl rfl

/-- C28: preempted groups and scheduled groups within one call of
`Scheduler::schedule`, read on the state its phases leave (before
`_clear_waiting_sequences`).  A group is waiting after `set_waiting()`, which
ends every `_preempt_by_recompute`, and `schedule_tokens` does not change
that flag.  First, in an iteration `i` of the generation loop that starts
with every recorded id below `i`, the recorded ids stay at most `i` and
every other group the iteration changes, that is every preemption victim,
has an index greater than `i`, hence greater than every recorded id, and is
left waiting.  Second, when the phases return, no group recorded in the
scheduled ids is waiting: a preempted group is skipped by the loops that
follow and is never scheduled. -/
theorem schedule_phases_preempted_not_scheduled
    (hset : ∀ x, gops.is_waiting (gops.set_waiting x) = true)
    (hsched : ∀ x n, gops.is_waiting (gops.schedule_tokens x n) = gops.is_waiting x)
    (fuel : Nat) (self : Scheduler B) (groups : List G) (st' : SchedState G B)
    (h : schedule_phases gops bops fuel ⟨self, groups, {}⟩ = .ok st') :
    (∀ (i : Nat) (s : SchedState G B) (r : LoopStep (SchedState G B)),
      generate_phase_body gops bops fuel i s = .ok r →
      (∀ j ∈ s.scheduler_output.m_scheduled_sequence_groups_ids, j < i) →
      recorded_not_waiting gops s →
      (∀ j ∈ r.state.scheduler_output.m_scheduled_sequence_groups_ids, j < i + 1) ∧
      ∀ k, k ≠ i → r.state.sequence_groups[k]? = s.sequence_groups[k]? ∨
        (i < k ∧ (∀ j ∈ r.state.scheduler_output.m_scheduled_sequence_groups_ids, j < k) ∧
          ∃ g', r.state.sequence_groups[k]? = some g' ∧ gops.is_waiting g' = true)) ∧
    recorded_not_waiting gops st' := by
  constructor
  · intro i s r hb hlt hrec
    obtain ⟨h1, _, h3⟩ := generate_phase_body_recorded gops bops hset hsched fuel i s r
      hlt hrec hb
    refine ⟨h1, fun k hk => ?_⟩
    rcases h3 k hk with hsame | ⟨hik, hwait⟩
    · exact Or.inl hsame
    · exact Or.inr ⟨hik, fun j hj => by have := h1 j hj; omega, hwait⟩
  · have hstart : recorded_not_waiting gops (⟨self, groups, {}⟩ : SchedState G B) := by
      intro j hj
      cases hj
    unfold schedule_phases at h
    simp only at h
    split at h
    · cases hgen : _schedule_generate_phase_dynamic_split_fuse gops bops fuel
          ⟨self, groups, {}⟩ with
      | error e => rw [hgen] at h; cases h
      | ok st1 =>
        rw [hgen] at h
        simp only at h
        have h1 := generate_phase_recorded gops bops hset hsched fuel _ st1 rfl hgen
        unfold _schedule_prompt_phase_dynamic_split_fuse at h
        exact for_range_invariant (recorded_not_waiting gops) _
          (fun i s r hs hb =>
            prompt_phase_dynamic_split_fuse_body_recorded gops bops hsched i s r hs hb)
          _ _ _ _ h1 h
    · cases hpr : _schedule_prompt_phase_vllm gops bops ⟨self, groups, {}⟩ with
      | error e => rw [hpr] at h; cases h
      | ok st1 =>
        rw [hpr] at h
        simp only at h
        obtain ⟨_, _, _, v, hf, hv⟩ := _schedule_prompt_phase_vllm_inv gops bops _ st1 hpr
        have h1 : recorded_not_waiting gops v.st :=
          for_range_invariant (fun w : VllmState G B => recorded_not_waiting gops w.st) _
            (fun i w r hs hb => prompt_phase_vllm_body_recorded gops bops hsched i w r hs hb)
            _ _ _ _ hstart hf
        rw [hv] at h1
        split at h
        · rename_i hflag
          have hback : st1 = ⟨self, groups, {}⟩ :=
            (prompt_phase_vllm_flag gops bops _ st1 rfl hpr).1 (by simpa using hflag)
          have hnil : st1.scheduler_output.m_scheduled_sequence_groups_ids = [] := by
            rw [hback]
          exact generate_phase_recorded gops bops hset hsched fuel st1 st' hnil h
        · injection h with h
          rw [← h]
          exact h1

/-- C28, witness: requests 0 and 1 hold the two blocks; request 1 is
preempted for request 0, only request 0 is recorded and it is not waiting. -/
theorem schedule_phases_preempted_not_scheduled_witness :
    schedule_phases sample_gops sample_bops 4 ⟨sample_contended_scheduler, sample_contenders, {}⟩
      = .ok sample_contended_phases ∧
    sample_contended_phases.scheduler_output.m_scheduled_sequence_groups_ids = [0] ∧
    (sample_contended_phases.sequence_groups.map sample_gops.is_waiting) = [false, true] ∧
    recorded_not_waiting sample_gops sample_contended_phases :=
  ⟨rfl, by decide, by decide,
    (schedule_phases_preempted_not_scheduled sample_gops sample_bops (fun _ => rfl)
      (fun _ _ => rfl) 4 sample_contended_scheduler sample_contenders sample_contended_phases
      rfl).2⟩

end PreemptedNotScheduled

section FlagsKept

variable {G B : Type} (gops : SequenceGroupOps G) (bops : BlockManagerOps B G)

theorem map_set_of_flag (Q : G → Bool) (l : List G) (i : Nat) (g g' : G)
    (hg : l[i]? = some g) (hq : Q g' = Q g) : (l.set i g').map Q = l.map Q := by
  apply List.ext_getElem?
  intro j
  rw [List.getElem?_map, List.getElem?_map]
  by_cases hj : j = i
  · subst hj
    have hlt : j < l.length := by
      by_contra hge
      have : l[j]? = none := List.getElem?_eq_none (by omega)
      rw [this] at hg; cases hg
    rw [List.getElem?_set_self hlt, hg]
    simp [hq]
  · rw [List.getElem?_set_ne (fun e => hj e.symm)]

theorem _preempt_by_recompute_flags (Q : G → Bool) (hk : keeps_flag gops Q)
    (self : Scheduler B) (groups : List G) (victim needed : Nat)
    (self' : Scheduler B) (groups' : List G) (freed : Bool)
    (h : _preempt_by_recompute gops bops self groups victim needed
      = .ok (self', groups', freed)) :
    groups'.map Q = groups.map Q := by
  obtain ⟨_, _, hpre, hreset, hwait, _⟩ := hk
  cases hg : groups[victim]? with
  | none =>
    unfold _preempt_by_recompute at h
    rw [hg] at h
    cases h
  | some g =>
    cases hb : full_recompute gops bops self g needed with
    | true =>
      rw [_preempt_by_recompute_full_eq gops bops self groups victim needed g hg hb] at h
      injection h with h
      injection h with h1 h2
      injection h2 with h2 h3
      rw [← h2]
      apply map_set_of_flag Q groups victim g _ hg
      rw [hwait]
      split
      · rw [hreset, hpre]
      · rw [hpre]
    | false =>
      by_cases hbs : self.m_config.block_size = 0
      · unfold full_recompute at hb
        unfold _preempt_by_recompute at h
        simp only [hg] at h
        rw [if_neg (by rw [hb]; decide), if_pos hbs] at h
        cases h
      · rw [_preempt_by_recompute_partial_eq gops bops self groups victim needed g hg hb hbs]
          at h
        injection h with h
        injection h with h1 h2
        injection h2 with h2 h3
        rw [← h2]
        apply map_set_of_flag Q groups victim g _ hg
        rw [hwait, hpre]

theorem _apply_preemption_flags (Q : G → Bool) (hk : keeps_flag gops Q) (id : Nat) :
    ∀ (fuel : Nat) (self : Scheduler B) (groups : List G) (self' : Scheduler B)
      (groups' : List G),
      _apply_preemption gops bops id fuel self groups = .ok (self', groups') →
      groups'.map Q = groups.map Q := by
  intro fuel
  induction fuel with
  | zero =>
    intro self groups self' groups' h
    unfold _apply_preemption at h
    cases hg : groups[id]? with
    | none => rw [hg] at h; cases h
    | some g =>
      rw [hg] at h
      simp only at h
      split at h
      · cases h
      · injection h with h
        injection h with h1 h2
        rw [h2]
  | succ fuel ih =>
    intro self groups self' groups' h
    unfold _apply_preemption at h
    cases hg : groups[id]? with
    | none => rw [hg] at h; cases h
    | some g =>
      rw [hg] at h
      simp only at h
      split at h
      · split at h
        · injection h with h
          injection h with h1 h2
          rw [h2]
        · cases hp : _preempt_by_recompute gops bops self groups
              (_get_low_priority_sequence_group_id gops groups)
              (bops.required_blocks_count self.m_block_manager g) with
          | error e => rw [hp] at h; cases h
          | ok v =>
            obtain ⟨s1, g1, f1⟩ := v
            rw [hp] at h
            simp only at h
            have h1 := _preempt_by_recompute_flags gops bops Q hk _ _ _ _ _ _ _ hp
            split at h
            · injection h with h
              injection h with h2 h3
              rw [← h3]
              exact h1
            · exact (ih s1 g1 self' groups' h).trans h1
      · injection h with h
        injection h with h1 h2
        rw [h2]

theorem generate_phase_body_flags (Q : G → Bool) (hk : keeps_flag gops Q)
    (fuel i : Nat) (st : SchedState G B) (r : LoopStep (SchedState G B))
    (h : generate_phase_body gops bops fuel i st = .ok r) :
    r.state.sequence_groups.map Q = st.sequence_groups.map Q := by
  obtain ⟨g, hg, hcase⟩ := generate_phase_body_cases gops bops fuel i st r h
  have hi : i < st.sequence_groups.length := by
    by_contra hge
    have : st.sequence_groups[i]? = none := List.getElem?_eq_none (by omega)
    rw [this] at hg; cases hg
  rcases hcase with hr | ⟨_, per, self1, groups1, ha, hcase2⟩
  · subst hr
    rfl
  · have h1 := _apply_preemption_flags gops bops Q hk i fuel _ _ _ _ ha
    have h2 : (st.sequence_groups.set i (gops.schedule_tokens g per)).map Q
        = st.sequence_groups.map Q :=
      map_set_of_flag Q _ i g _ hg (hk.1 g per)
    have hat : groups1[i]? = some (gops.schedule_tokens g per) := by
      rw [_apply_preemption_get gops bops i fuel _ _ _ _ ha i (Nat.le_refl i),
        List.getElem?_set_self hi]
    rcases hcase2 with hr | ⟨n, hr⟩
    · subst hr
      show (groups1.set i _).map Q = _
      rw [map_set_of_flag Q groups1 i _ _ hat (hk.2.1 _), h1, h2]
    · subst hr
      rw [stop_when_full_state]
      show groups1.map Q = _
      rw [h1, h2]

theorem prompt_phase_dynamic_split_fuse_body_flags (Q : G → Bool) (hk : keeps_flag gops Q)
    (i : Nat) (st : SchedState G B) (r : LoopStep (SchedState G B))
    (h : prompt_phase_dynamic_split_fuse_body gops bops i st = .ok r) :
    r.state.sequence_groups.map Q = st.sequence_groups.map Q := by
  unfold prompt_phase_dynamic_split_fuse_body at h
  simp only at h
  cases hg : st.sequence_groups[i]? with
  | none => rw [hg] at h; cases h
  | some g =>
    rw [hg] at h
    simp only at h
    split at h
    · split at h
      · cases h
      · split at h
        · cases h
        · split at h
          · cases h
          · injection h with h
            rw [← h, stop_when_full_state]
            unfold schedule_prompt_chunk
            split
            · exact map_set_of_flag Q _ i g _ hg (hk.1 g _)
            · rfl
    · injection h with h
      rw [← h]
      rfl

theorem prompt_phase_vllm_body_flags (Q : G → Bool) (hk : keeps_flag gops Q)
    (i : Nat) (v : VllmState G B) (r : LoopStep (VllmState G B))
    (h : prompt_phase_vllm_body gops bops i v = .ok r) :
    r.state.st.sequence_groups.map Q = v.st.sequence_groups.map Q := by
  obtain ⟨g, hg, hcase⟩ := prompt_phase_vllm_body_inv gops bops i v r h
  rcases hcase with ⟨_, hr⟩ | ⟨_, _, hcase2⟩
  · subst hr
    rfl
  · rcases hcase2 with ⟨_, hr⟩ | ⟨_, hr⟩
    · subst hr
      rfl
    · subst hr
      exact map_set_of_flag Q _ i g _ hg (hk.1 g _)

theorem schedule_flags (Q : G → Bool) (hk : keeps_flag gops Q) (fuel : Nat)
    (self : Scheduler B) (groups : List G) (st : SchedState G B)
    (h : schedule gops bops fuel self groups = .ok st) :
    st.sequence_groups.map Q = groups.map Q := by
  have hgen : ∀ s s' : SchedState G B,
      _schedule_generate_phase_dynamic_split_fuse gops bops fuel s = .ok s' →
      s'.sequence_groups.map Q = s.sequence_groups.map Q := by
    intro s s' hs
    unfold _schedule_generate_phase_dynamic_split_fuse at hs
    exact for_range_invariant
      (fun t : SchedState G B => t.sequence_groups.map Q = s.sequence_groups.map Q) _
      (fun i t r ht hb => (generate_phase_body_flags gops bops Q hk fuel i t r hb).trans ht)
      _ _ _ _ rfl hs
  have hphases : ∀ s' : SchedState G B,
      schedule_phases gops bops fuel ⟨self, groups, {}⟩ = .ok s' →
      s'.sequence_groups.map Q = groups.map Q := by
    intro s' hs
    unfold schedule_phases at hs
    simp only at hs
    split at hs
    · cases hg : _schedule_generate_phase_dynamic_split_fuse gops bops fuel
          ⟨self, groups, {}⟩ with
      | error e => rw [hg] at hs; cases hs
      | ok s1 =>
        rw [hg] at hs
        simp only at hs
        have h1 := hgen _ _ hg
        unfold _schedule_prompt_phase_dynamic_split_fuse at hs
        have h2 := for_range_invariant
          (fun t : SchedState G B => t.sequence_groups.map Q = s1.sequence_groups.map Q) _
          (fun i t r ht hb =>
            (prompt_phase_dynamic_split_fuse_body_flags gops bops Q hk i t r hb).trans ht)
          _ _ _ _ rfl hs
        exact h2.trans h1
    · cases hp : _schedule_prompt_phase_vllm gops bops ⟨self, groups, {}⟩ with
      | error e => rw [hp] at hs; cases hs
      | ok s1 =>
        rw [hp] at hs
        simp only at hs
        obtain ⟨_, _, _, v, hf, hv⟩ := _schedule_prompt_phase_vllm_inv gops bops _ s1 hp
        have h1 : v.st.sequence_groups.map Q = groups.map Q :=
          for_range_invariant
            (fun w : VllmState G B => w.st.sequence_groups.map Q = groups.map Q) _
            (fun i w r hw hb => (prompt_phase_vllm_body_flags gops bops Q hk i w r hb).trans hw)
            _ _ _ _ rfl hf
        rw [hv] at h1
        split at hs
        · exact (hgen _ _ hs).trans h1
        · injection hs with hs
          rw [← hs]
          exact h1
  unfold schedule at h
  cases hs : schedule_phases gops bops fuel ⟨self, groups, {}⟩ with
  | error e => rw [hs] at h; cases h
  | ok s1 =>
    rw [hs] at h
    simp only at h
    injection h with h
    rw [← h]
    show (_clear_waiting_sequences gops s1.sequence_groups).map Q = _
    unfold _clear_waiting_sequences
    rw [List.map_map, ← hphases s1 hs]
    apply List.map_congr_left
    intro g _
    exact hk.2.2.2.2.2.1 g

end FlagsKept

section BodyOnce

variable {G B W : Type} (gops : SequenceGroupOps G) (bops : BlockManagerOps B G)
  (pops : PipelineOps G W)

theorem notify_evictions_flags (Q : G → Bool) (hk : keeps_flag gops Q) (block_size : Nat) :
    ∀ (evicted : List (Nat × Nat)) (requests : List G),
      (notify_evictions gops block_size requests evicted).map Q = requests.map Q := by
  intro evicted
  induction evicted with
  | nil => intro requests; rfl
  | cons e rest ih =>
    intro requests
    have hunfold : notify_evictions gops block_size requests (e :: rest) =
        notify_evictions gops block_size (match requests[e.1]? with
          | some g => requests.set e.1
              (gops.register_token_eviction g (size_mul e.2 block_size))
          | none => requests) rest := rfl
    rw [hunfold, ih]
    cases hg : requests[e.1]? with
    | none => rfl
    | some g => exact map_set_of_flag Q requests e.1 g _ hg (hk.2.2.2.2.2.2.1 g _)

theorem maybe_evict_cache_blocks_flags (Q : G → Bool) (hk : keeps_flag gops Q)
    (p p' : ContinuousBatchingImpl G B W)
    (h : maybe_evict_cache_blocks gops bops pops p = .ok p') :
    p'.m_requests.map Q = p.m_requests.map Q ∧ p'.calls = p.calls := by
  rw [maybe_evict_cache_blocks_eq] at h
  cases hx : evict_sequences gops bops pops p.m_scheduler.m_config.block_size p.m_requests
      (pops.get_last_attention_scores p.world)
      (p.world, p.m_scheduler.m_block_manager, []) with
  | error e => rw [hx] at h; cases h
  | ok r =>
    obtain ⟨world1, bm1, evicted⟩ := r
    rw [hx] at h
    simp only at h
    injection h with h
    subst h
    exact ⟨notify_evictions_flags gops Q hk _ _ _, rfl⟩

theorem continue_generation_of_non_speculative (iteration_number : Nat) :
    ∀ (requests : List G) (to_generate : Bool),
      false ∈ requests.map gops.is_speculative_decoding →
      (continue_generation gops iteration_number requests to_generate).2 = false := by
  intro requests
  induction requests with
  | nil => intro to_generate h; cases h
  | cons request rest ih =>
    intro to_generate h
    unfold continue_generation
    cases hs : gops.is_speculative_decoding request with
    | false => simp
    | true =>
      simp only [Bool.not_true, Bool.false_eq_true, if_false]
      apply ih
      rw [List.map_cons, hs] at h
      rcases List.mem_cons.1 h with h1 | h1
      · cases h1
      · exact h1

theorem _free_non_running_requests_calls (p : ContinuousBatchingImpl G B W) :
    (_free_non_running_requests gops bops pops p).calls = p.calls := by
  unfold _free_non_running_requests
  have hfold : ∀ (l : List G) (acc : ContinuousBatchingImpl G B W),
      (l.foldl
        (fun p request =>
          if non_running gops request then
            { p with
              m_scheduler := { p.m_scheduler with
                m_block_manager := free_request_sequences gops bops
                  p.m_scheduler.m_block_manager request }
              world := pops.clear_beam_search_info p.world (gops.get_request_id request)
              reaped := p.reaped ++ [request] }
          else { p with m_requests := p.m_requests ++ [request] }) acc).calls = acc.calls := by
    intro l
    induction l with
    | nil => intro acc; rfl
    | cons a as ih =>
      intro acc
      rw [List.foldl_cons, ih]
      split <;> rfl
  exact hfold _ _

theorem _notify_requests_dropped_by_handle_flags (Q : G → Bool) (hk : keeps_flag gops Q)
    (requests : List G) :
    (_notify_requests_dropped_by_handle gops requests).map Q = requests.map Q := by
  unfold _notify_requests_dropped_by_handle
  rw [List.map_map]
  apply List.map_congr_left
  intro g _
  show Q (if gops.handle_dropped g then gops.push_empty_outputs g else g) = Q g
  split
  · exact hk.2.2.2.2.2.2.2.1 g
  · rfl

theorem step_loop_fuel
    (hk : keeps_flag gops gops.is_speculative_decoding)
    (hsample : ∀ w rs l b, ((pops.sample w rs l b).2.1).map gops.is_speculative_decoding
      = rs.map gops.is_speculative_decoding)
    (sched_fuel a b iteration_number : Nat) (p : ContinuousBatchingImpl G B W)
    (hne : false ∈ p.m_requests.map gops.is_speculative_decoding) :
    step_loop gops bops pops sched_fuel (a + 1) iteration_number p
      = step_loop gops bops pops sched_fuel (b + 1) iteration_number p := by
  simp only [step_loop]
  cases hs : schedule gops bops sched_fuel p.m_scheduler p.m_requests with
  | error e => rfl
  | ok st =>
    simp only
    have hst := schedule_flags gops bops gops.is_speculative_decoding hk _ _ _ _ hs
    split
    · rfl
    · split
      · rfl
      · rename_i p2 he
        have hp2 : p2.m_requests.map gops.is_speculative_decoding
            = p.m_requests.map gops.is_speculative_decoding := by
          split at he
          · rw [(maybe_evict_cache_blocks_flags gops bops pops _ hk _ _ he).1]
            exact hst
          · injection he with he
            rw [← he]
            exact hst
        have hc : ∀ l b tg, (continue_generation gops iteration_number
            (_notify_requests_dropped_by_handle gops
              (pops.sample p2.world p2.m_requests l b).2.1) tg).2 = false := by
          intro l b tg
          apply continue_generation_of_non_speculative
          rw [_notify_requests_dropped_by_handle_flags gops _ hk, hsample, hp2]
          exact hne
        simp only [hc, Bool.false_eq_true, if_false]

/-- C22: when the active set holds a request that is not a
speculative-decoding one, the body of the `while (to_generate)` loop of
`step` runs exactly once, whatever the other requests are: the loop that
closes the body sets `to_generate` to false at the first such request.  So
`step` with any bound on the number of body runs is `step` with the bound 1,
and the collaborators are called once: the cache manager alone when nothing
could be scheduled, else the cache manager, the forward pass and the sampler.
`is_speculative_decoding` reads the sampling parameters of a request: the
methods of `SequenceGroup` and the sampler are taken to leave it unchanged. -/
theorem step_runs_body_once
    (hk : keeps_flag gops gops.is_speculative_decoding)
    (hsample : ∀ w rs l b, ((pops.sample w rs l b).2.1).map gops.is_speculative_decoding
      = rs.map gops.is_speculative_decoding)
    (sched_fuel fuel : Nat) (p : ContinuousBatchingImpl G B W)
    (hne : ∃ g ∈ p.m_requests ++ p.m_awaiting_requests,
      gops.is_speculative_decoding g = false) :
    step gops bops pops sched_fuel (fuel + 1) p = step gops bops pops sched_fuel 1 p ∧
    ∀ p', step gops bops pops sched_fuel (fuel + 1) p = .ok p' →
      p'.calls = p.calls ++ [PipelineCall.copy_blocks] ∨
      p'.calls = p.calls ++ [PipelineCall.copy_blocks, PipelineCall.forward,
        PipelineCall.sample] := by
  have hpull : false ∈ (pull_awaiting_requests gops p).m_requests.map
      gops.is_speculative_decoding := by
    obtain ⟨g, hg, hf⟩ := hne
    unfold pull_awaiting_requests _pull_awaiting_requests
    simp only [List.map_map]
    rw [List.mem_map]
    exact ⟨g, hg, by
      show gops.is_speculative_decoding (gops.pause_generation g false) = false
      rw [hk.2.2.2.2.2.2.2.2 g false]
      exact hf⟩
  have hfuel : step gops bops pops sched_fuel (fuel + 1) p
      = step gops bops pops sched_fuel 1 p := by
    unfold step
    exact step_loop_fuel gops bops pops hk hsample sched_fuel fuel 0 0 _ hpull
  refine ⟨hfuel, fun p' h => ?_⟩
  rw [hfuel] at h
  unfold step at h
  have hcalls : (pull_awaiting_requests gops p).calls = p.calls := rfl
  generalize pull_awaiting_requests gops p = q at h hcalls hpull
  simp only [step_loop] at h
  cases hs : schedule gops bops sched_fuel q.m_scheduler q.m_requests with
  | error e => rw [hs] at h; cases h
  | ok st =>
    rw [hs] at h
    simp only at h
    split at h
    · injection h with h
      left
      rw [← h, _free_non_running_requests_calls, ← hcalls]
    · split at h
      · cases h
      · rename_i p2 he
        have hp2 : p2.calls = q.calls ++ [PipelineCall.copy_blocks]
            ++ [PipelineCall.forward] := by
          split at he
          · rw [(maybe_evict_cache_blocks_flags gops bops pops
              gops.is_speculative_decoding hk _ _ he).2]
          · injection he with he
            rw [← he]
        split at h
        · cases h
        · injection h with h
          right
          rw [← h, _free_non_running_requests_calls]
          show p2.calls ++ [PipelineCall.sample] = _
          rw [hp2, hcalls]
          simp

end BodyOnce

/-- C22, witness: the two requests of the sample pipeline are not
speculative-decoding ones; nothing can be scheduled, and the body runs once. -/
theorem step_runs_body_once_witness :
    step sample_gops sample_bops sample_pops 4 (3 + 1) sample_pipeline
      = step sample_gops sample_bops sample_pops 4 1 sample_pipeline ∧
    ∀ p', step sample_gops sample_bops sample_pops 4 (3 + 1) sample_pipeline = .ok p' →
      p'.calls = sample_pipeline.calls ++ [PipelineCall.copy_blocks] ∨
      p'.calls = sample_pipeline.calls ++ [PipelineCall.copy_blocks, PipelineCall.forward,
        PipelineCall.sample] :=
  step_runs_body_once sample_gops sample_bops sample_pops
    ⟨fun _ _ => rfl, fun _ => rfl, fun _ _ => rfl, fun _ => rfl, fun _ => rfl, fun _ => rfl,
      fun _ _ => rfl, fun _ => rfl, fun _ _ => rfl⟩
    (fun _ _ _ _ => rfl) 4 3 sample_pipeline
    ⟨{ request_id := 0, prompt_len := 5 }, by decide, rfl⟩

end OvGenai
